import Mathlib

/-!
# Impedance analyzer drivers: Si5351 clock generator and AD5933 impedance converter

A shallow embedding of `Si5351.cpp` and `AD5933.cpp`.

* The I2C transport (`HAL_I2C_Master_Transmit` / `HAL_I2C_Master_Receive`) is an
  external collaborator.  It is modelled by a script: the `i`-th HAL transfer
  of a run is answered by `script i`, which says whether the transfer completed
  and, for a receive, which byte arrived.  Quantifying over all scripts covers
  every behaviour of the device and the transport.
* Every HAL transfer is appended to a log, so that "which registers were
  written, with which bytes, in which order" can be read off a run.
* The target is a 32-bit STM32F4: `unsigned long`, `uint32_t`, `int` and `long`
  are 32 bits wide, `uint8_t` is 8 bits wide.
-/

/-- Answer of the transport to one HAL transfer: did it complete, and (for a
receive) the byte that was delivered. -/
structure Resp where
  ok : Bool
  val : Nat
deriving DecidableEq

/-- One HAL transfer as it appears on the bus: a transmit of `data` to `addr`,
or a one-byte receive from `addr`. -/
inductive Event where
  | tx (addr : Nat) (data : List Nat) (ok : Bool)
  | rx (addr : Nat) (val : Nat) (ok : Bool)
deriving DecidableEq

/-- State of the bus `hi2c1`: the script of the environment, the number of HAL
transfers made so far, and the transfers made so far in chronological order. -/
structure Bus where
  script : Nat → Resp
  pos : Nat
  log : List Event

/-- The test `HAL_I2C_Master_Transmit(&hi2c1, addr, data, len, 100) == HAL_OK`. -/
def HAL_I2C_Master_Transmit (b : Bus) (addr : Nat) (data : List Nat) : Bool × Bus :=
  let r := b.script b.pos
  (r.ok, { b with pos := b.pos + 1, log := b.log ++ [Event.tx addr data r.ok] })

/-- The call `HAL_I2C_Master_Receive(&hi2c1, addr, value, 1, 100)`: `some byte` when the
status is `HAL_OK`, `none` otherwise (no caller uses `*value` after a failure). -/
def HAL_I2C_Master_Receive (b : Bus) (addr : Nat) : Option Nat × Bus :=
  let r := b.script b.pos
  (if r.ok then some (r.val % 256) else none,
   { b with pos := b.pos + 1, log := b.log ++ [Event.rx addr (r.val % 256) r.ok] })

/-- A reliable transport: every transfer completes. -/
def Bus.reliable (b : Bus) : Prop := ∀ i, (b.script i).ok = true

/-- Sequencing of `if (!step) return false;` chains and of `&&` chains: run the
continuation only when the step before it succeeded. -/
def andThen (r : Bool × Bus) (k : Bus → Bool × Bus) : Bool × Bus :=
  if r.1 then k r.2 else (false, r.2)

/-- The register writes of a log: every two-byte transmit `[reg, value]` to the
device at `addr` that completed, oldest first. -/
def regWrites (addr : Nat) : List Event → List (Nat × Nat)
  | [] => []
  | Event.tx a [reg, value] true :: es =>
      if a = addr then (reg, value) :: regWrites addr es else regWrites addr es
  | _ :: es => regWrites addr es

/-- Contents of register `reg` after a list of writes: the last byte written to
it, or `none` when it was never written. -/
def regAfter (ws : List (Nat × Nat)) (reg : Nat) : Option Nat :=
  (ws.reverse.find? (fun w => w.1 == reg)).map Prod.snd

namespace Si5351

def SI5351_ADDRESS : Nat := 0x60 <<< 1
def SI5351_REG_0_DEVICE_STATUS : Nat := 0
def SI5351_REG_3_OUTPUT_ENABLE : Nat := 3
def SI5351_REG_16_CLK0_CTRL : Nat := 16
def SI5351_REG_26_MSNA_P1 : Nat := 26
def SI5351_REG_27_MSNA_P2 : Nat := 27
def SI5351_REG_28_MSNA_P3 : Nat := 28
def SI5351_REG_29_MSNA_P4 : Nat := 29
def SI5351_REG_30_MSNA_P5 : Nat := 30
def SI5351_REG_31_MSNA_P6 : Nat := 31
def SI5351_REG_32_MSNA_P7 : Nat := 32
def SI5351_REG_33_MSNA_P8 : Nat := 33
def SI5351_REG_42_MS0_P1 : Nat := 42
def SI5351_REG_43_MS0_P2 : Nat := 43
def SI5351_REG_44_MS0_P3 : Nat := 44
def SI5351_REG_45_MS0_P4 : Nat := 45
def SI5351_REG_46_MS0_P5 : Nat := 46
def SI5351_REG_47_MS0_P6 : Nat := 47
def SI5351_REG_48_MS0_P7 : Nat := 48
def SI5351_REG_49_MS0_P8 : Nat := 49
def SI5351_REG_177_PLL_RESET : Nat := 177
def SI5351_REG_183_CRYSTAL_LOAD : Nat := 183

/-- Source function `Si5351::sendByte`: one two-byte transmit `{reg, value}`. -/
def sendByte (b : Bus) (reg value : Nat) : Bool × Bus :=
  HAL_I2C_Master_Transmit b SI5351_ADDRESS [reg, value]

/-- Source function `Si5351::readByte`: transmit the register number, then receive one byte. -/
def readByte (b : Bus) (reg : Nat) : Option Nat × Bus :=
  let t := HAL_I2C_Master_Transmit b SI5351_ADDRESS [reg]
  if t.1 then HAL_I2C_Master_Receive t.2 SI5351_ADDRESS else (none, t.2)

/-- The loop `while (a > 2048 && r_div < 7) { r_div++; a = pll_freq /
(output_freq * (1 << r_div)); }` of `set_ms`, in 32-bit unsigned arithmetic.
`none` is a division by zero.  The first argument bounds the number of
iterations; `r_div` grows by one per iteration and the loop stops at 7, so 7
iterations are always enough (`msLoop_spec`). -/
def msLoop (pll_freq output_freq : Nat) : Nat → Nat → Nat → Option (Nat × Nat)
  | 0, a, r_div => some (a, r_div)
  | fuel + 1, a, r_div =>
    if a > 2048 ∧ r_div < 7 then
      let d := (output_freq * (1 <<< (r_div + 1))) % 2 ^ 32
      if d = 0 then none else msLoop pll_freq output_freq fuel (pll_freq / d) (r_div + 1)
    else some (a, r_div)

/-- Lines 113-129 of `set_ms`: the divider `a` and the R-divider code `r_div`
the search ends with.  `none` is a division by zero. -/
def msSearch (pll_freq output_freq : Nat) : Option (Nat × Nat) :=
  if output_freq = 0 then none
  else msLoop pll_freq output_freq 7 (pll_freq / output_freq) 0

/-- Lines 137-181 of `set_ms`: the ten register writes for divider `a` and
R-divider code `r_div`, each guarded by `if (!sendByte(..)) return false;`. -/
def msWrite (b : Bus) (output_num a r_div : Nat) : Bool × Bus :=
  let p1 := (128 * a + 2 ^ 32 - 512) % 2 ^ 32
  let p2 := 0
  let p3 := 1
  let ms_p1_reg := (SI5351_REG_45_MS0_P4 + output_num * 8) % 256
  let ms_p2_reg := (SI5351_REG_48_MS0_P7 + output_num * 8) % 256
  let ms_p3_reg := (SI5351_REG_42_MS0_P1 + output_num * 8) % 256
  let ms_r_reg := (SI5351_REG_44_MS0_P3 + output_num * 8) % 256
  let ms_mix_reg := (SI5351_REG_47_MS0_P6 + output_num * 8) % 256
  let r_div_val := (r_div <<< 4) &&& 0xF0
  let p1_msb := (p1 >>> 16) &&& 0x03
  let p3_p2_mix := (((p3 >>> 16) &&& 0x0F) ||| (((p2 >>> 16) &&& 0x0F) <<< 4)) % 256
  let clk_ctrl_reg := (SI5351_REG_16_CLK0_CTRL + output_num) % 256
  let ctrl_val := 0x4F
  andThen (sendByte b ((ms_p3_reg + 0) % 256) ((p3 >>> 8) &&& 0xFF)) fun b =>
  andThen (sendByte b ((ms_p3_reg + 1) % 256) (p3 &&& 0xFF)) fun b =>
  andThen (sendByte b ((ms_p1_reg + 0) % 256) ((p1 >>> 8) &&& 0xFF)) fun b =>
  andThen (sendByte b ((ms_p1_reg + 1) % 256) (p1 &&& 0xFF)) fun b =>
  andThen (sendByte b ((ms_p2_reg + 0) % 256) ((p2 >>> 8) &&& 0xFF)) fun b =>
  andThen (sendByte b ((ms_p2_reg + 1) % 256) (p2 &&& 0xFF)) fun b =>
  andThen (sendByte b ms_r_reg (r_div_val ||| p1_msb)) fun b =>
  andThen (sendByte b ms_mix_reg p3_p2_mix) fun b =>
  sendByte b clk_ctrl_reg ctrl_val

/-- Source function `Si5351::set_ms(output_num, pll_freq, output_freq)`.  `none` is undefined
behaviour (division by zero); otherwise the returned flag and the bus after the
call. -/
def set_ms (b : Bus) (output_num pll_freq output_freq : Nat) : Option (Bool × Bus) :=
  if output_num > 7 then some (false, b)
  else
    match msSearch pll_freq output_freq with
    | none => none
    | some (a, r_div) =>
      if a < 4 ∨ a > 2048 then some (false, b)
      else some (msWrite b output_num a r_div)

/-- Source function `Si5351::set_freq(output_num, frequency)`: `set_ms` against the fixed
900 MHz PLL, then the PLL reset write. -/
def set_freq (b : Bus) (output_num frequency : Nat) : Option (Bool × Bus) :=
  let pll_freq := 900000000
  match set_ms b output_num pll_freq frequency with
  | none => none
  | some (ok, b1) =>
    if !ok then some (false, b1)
    else some (sendByte b1 SI5351_REG_177_PLL_RESET 0xAC)


/-- Source function `Si5351::set_pll(pll_freq)`: the fixed integer-mode parameters of PLLA
(`P1 = 4096`, `P2 = 0`, `P3 = 1`); the argument is not used by the code. -/
def set_pll (b : Bus) (_pll_freq : Nat) : Bool × Bus :=
  let p1 := 4096
  let p2 := 0
  let p3 := 1
  let p1_msb := (p1 >>> 16) &&& 0x03
  let p3_p2_mix := (((p3 >>> 16) &&& 0x0F) ||| (((p2 >>> 16) &&& 0x0F) <<< 4)) % 256
  andThen (sendByte b SI5351_REG_26_MSNA_P1 ((p3 >>> 8) &&& 0xFF)) fun b =>
  andThen (sendByte b SI5351_REG_27_MSNA_P2 (p3 &&& 0xFF)) fun b =>
  andThen (sendByte b SI5351_REG_29_MSNA_P4 ((p1 >>> 8) &&& 0xFF)) fun b =>
  andThen (sendByte b SI5351_REG_30_MSNA_P5 (p1 &&& 0xFF)) fun b =>
  andThen (sendByte b SI5351_REG_32_MSNA_P7 ((p2 >>> 8) &&& 0xFF)) fun b =>
  andThen (sendByte b SI5351_REG_33_MSNA_P8 (p2 &&& 0xFF)) fun b =>
  andThen (sendByte b SI5351_REG_28_MSNA_P3 p1_msb) fun b =>
  andThen (sendByte b SI5351_REG_31_MSNA_P6 p3_p2_mix) fun b =>
  (true, b)

/-- The loop `for (i = 0; i < 8; i++) sendByte(SI5351_REG_16_CLK0_CTRL + i,
0x80);` of `init`; the result of each write is dropped, as in the source.  The
first argument counts the iterations still to run. -/
def powerDownLoop : Nat → Nat → Bus → Bus
  | 0, _, b => b
  | k + 1, i, b => powerDownLoop k (i + 1) (sendByte b ((SI5351_REG_16_CLK0_CTRL + i) % 256) 0x80).2

/-- Source function `Si5351::init()`. -/
def init (b : Bus) : Bool × Bus :=
  let r := readByte b SI5351_REG_0_DEVICE_STATUS
  if r.1.isNone then (false, r.2)
  else
    andThen (sendByte r.2 SI5351_REG_3_OUTPUT_ENABLE 0xFF) fun b =>
    let b := powerDownLoop 8 0 b
    andThen (sendByte b SI5351_REG_183_CRYSTAL_LOAD 0b11000000) fun b =>
    andThen (set_pll b 900000000) fun b =>
    sendByte b SI5351_REG_177_PLL_RESET 0xAC

/-- Source function `Si5351::enable_output(output_num, enable)`. -/
def enable_output (b : Bus) (output_num : Nat) (enable : Bool) : Bool × Bus :=
  if output_num > 7 then (false, b)
  else
    let r := readByte b SI5351_REG_3_OUTPUT_ENABLE
    match r.1 with
    | none => (false, r.2)
    | some reg_val =>
      let reg_val :=
        if enable then (reg_val &&& (0xFFFFFFFF ^^^ (1 <<< output_num))) % 256
        else (reg_val ||| (1 <<< output_num)) % 256
      sendByte r.2 SI5351_REG_3_OUTPUT_ENABLE reg_val

end Si5351

namespace AD5933

def AD5933_ADDR : Nat := 0x0D
def ADDR_PTR : Nat := 0xB0
def CTRL_REG1 : Nat := 0x80
def CTRL_REG2 : Nat := 0x81
def START_FREQ_1 : Nat := 0x82
def START_FREQ_2 : Nat := 0x83
def START_FREQ_3 : Nat := 0x84
def INC_FREQ_1 : Nat := 0x85
def INC_FREQ_2 : Nat := 0x86
def INC_FREQ_3 : Nat := 0x87
def NUM_INC_1 : Nat := 0x88
def NUM_INC_2 : Nat := 0x89
def NUM_SCYCLES_1 : Nat := 0x8A
def NUM_SCYCLES_2 : Nat := 0x8B
def STATUS_REG : Nat := 0x8F
def TEMP_DATA_1 : Nat := 0x92
def TEMP_DATA_2 : Nat := 0x93
def REAL_DATA_1 : Nat := 0x94
def REAL_DATA_2 : Nat := 0x95
def IMAG_DATA_1 : Nat := 0x96
def IMAG_DATA_2 : Nat := 0x97

def CTRL_OUTPUT_RANGE_1 : Nat := 0b00000000
def CTRL_OUTPUT_RANGE_2 : Nat := 0b00000110
def CTRL_OUTPUT_RANGE_3 : Nat := 0b00000100
def CTRL_OUTPUT_RANGE_4 : Nat := 0b00000010
def CTRL_NO_OPERATION : Nat := 0b00000000
def CTRL_INIT_START_FREQ : Nat := 0b00010000
def CTRL_START_FREQ_SWEEP : Nat := 0b00100000
def CTRL_INCREMENT_FREQ : Nat := 0b00110000
def CTRL_REPEAT_FREQ : Nat := 0b01000000
def CTRL_TEMP_MEASURE : Nat := 0b10010000
def CTRL_POWER_DOWN_MODE : Nat := 0b10100000
def CTRL_STANDBY_MODE : Nat := 0b10110000
def CTRL_RESET : Nat := 0b00010000
def CTRL_CLOCK_EXTERNAL : Nat := 0b00001000
def CTRL_CLOCK_INTERNAL : Nat := 0b00000000
def CTRL_PGA_GAIN_X1 : Nat := 0b00000001
def CTRL_PGA_GAIN_X5 : Nat := 0b00000000
def STATUS_TEMP_VALID : Nat := 0x01
def STATUS_DATA_VALID : Nat := 0x02
def STATUS_SWEEP_DONE : Nat := 0x04
def STATUS_ERROR : Nat := 0xFF
def TEMP_MEASURE : Nat := CTRL_TEMP_MEASURE
def TEMP_NO_MEASURE : Nat := CTRL_NO_OPERATION
def CLOCK_INTERNAL : Nat := CTRL_CLOCK_INTERNAL
def CLOCK_EXTERNAL : Nat := CTRL_CLOCK_EXTERNAL
def PGA_GAIN_X1 : Nat := CTRL_PGA_GAIN_X1
def PGA_GAIN_X5 : Nat := CTRL_PGA_GAIN_X5
def POWER_STANDBY : Nat := CTRL_STANDBY_MODE
def POWER_DOWN : Nat := CTRL_POWER_DOWN_MODE
def POWER_ON : Nat := CTRL_NO_OPERATION

/-- Initial value of the static `AD5933::clockSpeed`. -/
def clockSpeed_default : Nat := 16776000

/-- Source function `AD5933::setExtClockFrequency(freq)`: the new value of `clockSpeed`. -/
def setExtClockFrequency (_clockSpeed freq : Nat) : Nat := freq

/-- Source function `AD5933::getByte(address, value)`: the address-pointer command, then a
one-byte receive.  `none` is the `false` return. -/
def getByte (b : Bus) (address : Nat) : Option Nat × Bus :=
  let t := HAL_I2C_Master_Transmit b (AD5933_ADDR <<< 1) [ADDR_PTR, address]
  if t.1 then HAL_I2C_Master_Receive t.2 ((AD5933_ADDR <<< 1) ||| 1) else (none, t.2)

/-- Source function `AD5933::sendByte(address, value)`. -/
def sendByte (b : Bus) (address value : Nat) : Bool × Bus :=
  HAL_I2C_Master_Transmit b (AD5933_ADDR <<< 1) [address, value]

/-- The register writes of the AD5933 in a log: the completed `sendByte`
transfers, that is the two-byte transmits that are not address-pointer
commands. -/
def writes (log : List Event) : List (Nat × Nat) :=
  (regWrites (AD5933_ADDR <<< 1) log).filter (fun w => w.1 != ADDR_PTR)

/-- Source function `AD5933::setControlMode(mode)`. -/
def setControlMode (b : Bus) (mode : Nat) : Bool × Bus :=
  let r := getByte b CTRL_REG1
  match r.1 with
  | none => (false, r.2)
  | some val =>
    let val := val &&& 0x0F
    let val := (val ||| mode) % 256
    sendByte r.2 CTRL_REG1 val

/-- Source function `AD5933::reset()`. -/
def reset (b : Bus) : Bool × Bus :=
  let r := getByte b CTRL_REG2
  match r.1 with
  | none => (false, r.2)
  | some val => sendByte r.2 CTRL_REG2 (val ||| CTRL_RESET)

/-- Source function `AD5933::enableTemperature(enable)`. -/
def enableTemperature (b : Bus) (enable : Nat) : Bool × Bus :=
  if enable = TEMP_MEASURE then setControlMode b CTRL_TEMP_MEASURE
  else setControlMode b CTRL_NO_OPERATION

/-- Source function `AD5933::readRegister(reg)`: the byte read, or `STATUS_ERROR` when the read
failed. -/
def readRegister (b : Bus) (reg : Nat) : Nat × Bus :=
  let r := getByte b reg
  match r.1 with
  | some val => (val, r.2)
  | none => (STATUS_ERROR, r.2)

/-- Source function `AD5933::readStatusRegister()`. -/
def readStatusRegister (b : Bus) : Nat × Bus := readRegister b STATUS_REG

/-- The busy-wait `while ((readStatusRegister() & mask) != mask) ;`.  The loop
has no bound in the source; the first argument is the number of polls the
caller is prepared to watch, and `false` means the loop was still polling when
they were used up. -/
def waitStatus (mask : Nat) : Nat → Bus → Bool × Bus
  | 0, b => (false, b)
  | fuel + 1, b =>
    let r := readStatusRegister b
    if (r.1 &&& mask) != mask then waitStatus mask fuel r.2 else (true, r.2)

/-- Lines 71-76 of `getTemperature`: the conversion of the two data bytes.  The
operands are integers below `2^16` and the divisor is 32, so the `double`
quotient is exact and is given as a rational. -/
def tempDecode (rawTemp0 rawTemp1 : Nat) : ℚ :=
  let rawTempVal : Int := Int.ofNat (((rawTemp0 <<< 8) ||| rawTemp1) &&& 0x1FFF)
  if rawTemp0 &&& (1 <<< 5) = 0 then (rawTempVal : ℚ) / 32
  else ((rawTempVal - 16384 : Int) : ℚ) / 32

/-- Source function `AD5933::getTemperature()`.  `none`: the busy-wait was still polling after
`fuel` polls. -/
def getTemperature (fuel : Nat) (b : Bus) : Option ℚ × Bus :=
  let e := enableTemperature b TEMP_MEASURE
  if e.1 then
    let w := waitStatus STATUS_TEMP_VALID fuel e.2
    if !w.1 then (none, w.2)
    else
      let r0 := getByte w.2 TEMP_DATA_1
      match r0.1 with
      | none => (some (-1), r0.2)
      | some rawTemp0 =>
        let r1 := getByte r0.2 TEMP_DATA_2
        match r1.1 with
        | none => (some (-1), r1.2)
        | some rawTemp1 => (some (tempDecode rawTemp0 rawTemp1), r1.2)
  else (some (-1), e.2)

/-- Source function `AD5933::setClockSource(source)`. -/
def setClockSource (b : Bus) (source : Nat) : Bool × Bus :=
  if source = CLOCK_EXTERNAL then sendByte b CTRL_REG2 CTRL_CLOCK_EXTERNAL
  else if source = CLOCK_INTERNAL then sendByte b CTRL_REG2 CTRL_CLOCK_INTERNAL
  else (false, b)

/-- Source function `AD5933::setInternalClock(internal)`. -/
def setInternalClock (b : Bus) (internal : Bool) : Bool × Bus :=
  if internal then setClockSource b CLOCK_INTERNAL else setClockSource b CLOCK_EXTERNAL

/-- Source function `AD5933::setSettlingCycles(time)`.  `time` is a 32-bit `int`; its bytes are
taken from its two's-complement bit pattern. -/
def setSettlingCycles (b : Bus) (time : Int) : Bool × Bus :=
  let bits : Nat := (time % 2 ^ 32).toNat
  let settleTime0 := bits &&& 0xFF
  let settleTime1 := (bits >>> 8) &&& 0xFF
  let cycles := settleTime0 ||| (settleTime1 &&& 0x1)
  let val := ((settleTime1 &&& 0x7) >>> 1) % 256
  if cycles > 0x1FF ∨ ¬(val = 0 ∨ val = 1 ∨ val = 3) then (false, b)
  else
    let w1 := sendByte b NUM_SCYCLES_1 settleTime1
    if !w1.1 then (false, w1.2)
    else
      let w0 := sendByte w1.2 NUM_SCYCLES_2 settleTime0
      if !w0.1 then (false, w0.2)
      else
        let g1 := getByte w0.2 NUM_SCYCLES_1
        match g1.1 with
        | none => (false, g1.2)
        | some rsTime1 =>
          let g0 := getByte g1.2 NUM_SCYCLES_2
          match g0.1 with
          | none => (false, g0.2)
          | some rsTime0 =>
            if settleTime0 = rsTime0 ∧ settleTime1 = rsTime1 then (true, g0.2)
            else (false, g0.2)

/-- Rounding of a rational to the nearest integer, a tie going to the even
one. -/
def roundHalfEven (q : ℚ) : Int :=
  if q - ⌊q⌋ < 1 / 2 then ⌊q⌋
  else if 1 / 2 < q - ⌊q⌋ then ⌊q⌋ + 1
  else if ⌊q⌋ % 2 = 0 then ⌊q⌋ else ⌊q⌋ + 1

/-- The `double` (IEEE 754 binary64) nearest to a rational, as every `double`
operation of the target delivers it: with `2^e ≤ |q| < 2^(e+1)` the value is
rounded to a multiple of `2^(e-52)`, which leaves 53 significant bits, a tie
going to the even significand.  The exponent range is not limited: the values
that occur in the frequency expression lie between `2^-30` and `2^61`, far
inside the normal range of binary64. -/
def toDouble (q : ℚ) : ℚ :=
  if q = 0 then 0
  else (roundHalfEven (q * 2 ^ (52 - Int.log 2 |q|)) : ℚ) * 2 ^ (Int.log 2 |q| - 52)

/-- Conversion of a `double` to the 32-bit `long`: the fraction is discarded
(truncation toward zero); a value outside the range of `long` gives the
nearest end of the range, which is what the target's conversion does. -/
def doubleToLong (x : ℚ) : Int :=
  if x ≥ 2 ^ 31 then 2 ^ 31 - 1
  else if x ≤ -(2 ^ 31) then -(2 ^ 31)
  else Int.tdiv x.num x.den

/-- The expression `(freq / (clockSpeed / 4.0)) * pow(2, 27)` of
`setStartFrequency` and `setIncrementFrequency` in `double` arithmetic: the two
`unsigned long` operands are converted to `double`, and each of the three
operations (`clockSpeed / 4.0`, the quotient, the product with `pow(2, 27)`,
which is `2^27` exactly) delivers the binary64 rounding of its exact result.
It stands for the C expression when `clockSpeed > 0`; for `clockSpeed = 0` the C
expression divides by the `double` zero, which has no rational value. -/
def freqExpr (clockSpeed freq : Nat) : ℚ :=
  toDouble (toDouble (toDouble (freq : ℚ) / toDouble (toDouble (clockSpeed : ℚ) / 4)) * 2 ^ 27)

/-- The value `freqHex` of `setStartFrequency` and `setIncrementFrequency`. -/
def freqHex (clockSpeed freq : Nat) : Int := doubleToLong (freqExpr clockSpeed freq)

/-- The common body of `setStartFrequency` and `setIncrementFrequency`: the
range check on `freqHex` and the three byte writes, most significant first, to
`reg1`, `reg2`, `reg3`. -/
def setFrequencyWord (reg1 reg2 reg3 : Nat) (clockSpeed : Nat) (b : Bus) (freq : Nat) :
    Bool × Bus :=
  let freqHex := freqHex clockSpeed freq
  if freqHex > 0xFFFFFF then (false, b)
  else
    let bits : Nat := (freqHex % 2 ^ 32).toNat
    let highByte := (bits >>> 16) &&& 0xFF
    let midByte := (bits >>> 8) &&& 0xFF
    let lowByte := bits &&& 0xFF
    andThen (sendByte b reg1 highByte) fun b =>
    andThen (sendByte b reg2 midByte) fun b =>
    sendByte b reg3 lowByte

/-- Source function `AD5933::setStartFrequency(start)` with the current `clockSpeed`. -/
def setStartFrequency (clockSpeed : Nat) (b : Bus) (start : Nat) : Bool × Bus :=
  setFrequencyWord START_FREQ_1 START_FREQ_2 START_FREQ_3 clockSpeed b start

/-- Source function `AD5933::setIncrementFrequency(increment)` with the current `clockSpeed`. -/
def setIncrementFrequency (clockSpeed : Nat) (b : Bus) (increment : Nat) : Bool × Bus :=
  setFrequencyWord INC_FREQ_1 INC_FREQ_2 INC_FREQ_3 clockSpeed b increment

/-- Source function `AD5933::setNumberIncrements(num)`. -/
def setNumberIncrements (b : Bus) (num : Nat) : Bool × Bus :=
  if num > 511 then (false, b)
  else
    let highByte := (num >>> 8) &&& 0xFF
    let lowByte := num &&& 0xFF
    andThen (sendByte b NUM_INC_1 highByte) fun b =>
    sendByte b NUM_INC_2 lowByte

/-- Source function `AD5933::setPGAGain(gain)`. -/
def setPGAGain (b : Bus) (gain : Nat) : Bool × Bus :=
  let r := getByte b CTRL_REG1
  match r.1 with
  | none => (false, r.2)
  | some val =>
    let val := val &&& 0xFE
    if gain = PGA_GAIN_X1 ∨ gain = 1 then sendByte r.2 CTRL_REG1 (val ||| PGA_GAIN_X1)
    else if gain = PGA_GAIN_X5 ∨ gain = 5 then sendByte r.2 CTRL_REG1 (val ||| PGA_GAIN_X5)
    else (false, r.2)

/-- Source function `AD5933::setRange(range)`. -/
def setRange (b : Bus) (range : Nat) : Bool × Bus :=
  let r := getByte b CTRL_REG1
  match r.1 with
  | none => (false, r.2)
  | some val =>
    let val := val &&& 0xF9
    let val :=
      if range = CTRL_OUTPUT_RANGE_2 then val ||| CTRL_OUTPUT_RANGE_2
      else if range = CTRL_OUTPUT_RANGE_3 then val ||| CTRL_OUTPUT_RANGE_3
      else if range = CTRL_OUTPUT_RANGE_4 then val ||| CTRL_OUTPUT_RANGE_4
      else val ||| CTRL_OUTPUT_RANGE_1
    sendByte r.2 CTRL_REG1 val

/-- The cast `(int16_t)(((hi << 8) | lo) & 0xFFFF)`. -/
def toInt16 (hi lo : Nat) : Int :=
  let w := ((hi <<< 8) ||| lo) &&& 0xFFFF
  if w ≥ 32768 then (w : Int) - 65536 else (w : Int)

/-- Result of `getComplexData`: `ret` is the returned flag (`none`: the
busy-wait was still polling when the polls ran out, nothing was stored), `re`
and `im` are the values stored through the two pointers. -/
structure ComplexData where
  ret : Option Bool
  re : Int
  im : Int
  bus : Bus

/-- Source function `AD5933::getComplexData(real, imag)`. -/
def getComplexData (fuel : Nat) (b : Bus) : ComplexData :=
  let w := waitStatus STATUS_DATA_VALID fuel b
  if !w.1 then { ret := none, re := 0, im := 0, bus := w.2 }
  else
    let r0 := getByte w.2 REAL_DATA_1
    match r0.1 with
    | none => { ret := some false, re := -1, im := -1, bus := r0.2 }
    | some realComp0 =>
      let r1 := getByte r0.2 REAL_DATA_2
      match r1.1 with
      | none => { ret := some false, re := -1, im := -1, bus := r1.2 }
      | some realComp1 =>
        let i0 := getByte r1.2 IMAG_DATA_1
        match i0.1 with
        | none => { ret := some false, re := -1, im := -1, bus := i0.2 }
        | some imagComp0 =>
          let i1 := getByte i0.2 IMAG_DATA_2
          match i1.1 with
          | none => { ret := some false, re := -1, im := -1, bus := i1.2 }
          | some imagComp1 =>
            { ret := some true, re := toInt16 realComp0 realComp1,
              im := toInt16 imagComp0 imagComp1, bus := i1.2 }

/-- Source function `AD5933::setPowerMode(level)`. -/
def setPowerMode (b : Bus) (level : Nat) : Bool × Bus :=
  if level = POWER_ON then setControlMode b CTRL_NO_OPERATION
  else if level = POWER_STANDBY then setControlMode b CTRL_STANDBY_MODE
  else if level = POWER_DOWN then setControlMode b CTRL_POWER_DOWN_MODE
  else (false, b)

/-- State of a sweep: the bus, the caller's two buffers `real[]` and `imag[]`
as unbounded memory (C does not check the index), and the indexes at which
`getComplexData` has stored a sample so far, oldest first. -/
structure Sweep where
  bus : Bus
  real : Nat → Int
  imag : Nat → Int
  stored : List Nat

/-- Result of `frequencySweep`: the returned flag (`none`: a busy-wait was
still polling when the polls ran out) and the state reached. -/
structure SweepRun where
  ret : Option Bool
  st : Sweep

/-- The `while` loop of `frequencySweep` (lines 228-233) from loop counter
`i`.  The first argument bounds both the number of iterations and the polls of
each inner busy-wait. -/
def sweepLoop (n : Int) : Nat → Nat → Sweep → SweepRun
  | 0, _, s => { ret := none, st := s }
  | fuel + 1, i, s =>
    let r := readStatusRegister s.bus
    if (r.1 &&& STATUS_SWEEP_DONE) != STATUS_SWEEP_DONE then
      if (i : Int) ≥ n then { ret := some false, st := { s with bus := r.2 } }
      else
        let d := getComplexData fuel r.2
        match d.ret with
        | none => { ret := none, st := { s with bus := d.bus } }
        | some ok =>
          let s1 : Sweep :=
            { bus := d.bus, real := Function.update s.real i d.re,
              imag := Function.update s.imag i d.im, stored := s.stored ++ [i] }
          if !ok then { ret := some false, st := s1 }
          else
            let c := setControlMode s1.bus CTRL_INCREMENT_FREQ
            sweepLoop n fuel (i + 1) { s1 with bus := c.2 }
    else
      let p := setPowerMode r.2 POWER_STANDBY
      { ret := some p.1, st := { s with bus := p.2 } }

/-- Source function `AD5933::frequencySweep(real, imag, n)`. -/
def frequencySweep (fuel : Nat) (b : Bus) (real imag : Nat → Int) (n : Int) : SweepRun :=
  let c :=
    andThen (setPowerMode b POWER_STANDBY) fun b =>
    andThen (setControlMode b CTRL_INIT_START_FREQ) fun b =>
    setControlMode b CTRL_START_FREQ_SWEEP
  if !c.1 then { ret := some false, st := { bus := c.2, real := real, imag := imag, stored := [] } }
  else sweepLoop n fuel 0 { bus := c.2, real := real, imag := imag, stored := [] }

/-- The two functions of `<math.h>` that `calibrate` calls, over the number
type `F` in which the calibration arithmetic is carried out. -/
structure LibM (F : Type) where
  sqrt : F → F
  atan2 : F → F → F

/-- The values of a C `double` over the number type `F`: the finite values,
the two infinities and NaN.  The sign of a zero is not rendered: the zeros that
`calibrate` divides by are the conversion of the integer `ref` and the result
of `sqrt`, both `+0.0`. -/
inductive Dbl (F : Type) where
  | fin (x : F)
  | posInf
  | negInf
  | nan

/-- The `double` division `x / y` (IEEE 754), exact on the finite quotients:
a finite non-zero value over zero is the infinity of its sign, zero over zero
is NaN, a finite value over an infinity is zero, an infinity over a finite value
is the infinity of the product of the signs, and NaN or an infinity over an
infinity gives NaN. -/
def Dbl.div {F : Type} [LinearOrderedField F] : Dbl F → Dbl F → Dbl F
  | Dbl.fin x, Dbl.fin y =>
    if y = 0 then (if x = 0 then Dbl.nan else if 0 < x then Dbl.posInf else Dbl.negInf)
    else Dbl.fin (x / y)
  | Dbl.fin _, Dbl.posInf => Dbl.fin 0
  | Dbl.fin _, Dbl.negInf => Dbl.fin 0
  | Dbl.posInf, Dbl.fin y => if 0 ≤ y then Dbl.posInf else Dbl.negInf
  | Dbl.negInf, Dbl.fin y => if 0 ≤ y then Dbl.negInf else Dbl.posInf
  | _, _ => Dbl.nan

/-- Line 240-241 of `calibrate`: the gain factor of one sample,
`(1.0 / ref) / magnitude` with
`magnitude = sqrt(pow(real[i], 2) + pow(imag[i], 2))`.  Both divisions are
`double` divisions: for `ref = 0` the first gives `+inf`, and for a zero
magnitude the second gives an infinity. -/
def gainOf {F : Type} [LinearOrderedField F] (m : LibM F) (ref re im : Int) : Dbl F :=
  let magnitude := m.sqrt ((re : F) ^ 2 + (im : F) ^ 2)
  Dbl.div (Dbl.div (Dbl.fin 1) (Dbl.fin (ref : F))) (Dbl.fin magnitude)

/-- Line 242 of `calibrate`: the phase of one sample,
`(atan2(imag, real) * 180.0) / 3.1415`. -/
def phaseOf {F : Type} [Field F] (m : LibM F) (re im : Int) : F :=
  (m.atan2 (im : F) (re : F) * 180) / (31415 / 10000)

/-- Result of `calibrate`: the returned flag, the sweep state, and the
caller's `gain[]` and `phase[]` arrays. -/
structure CalRun (F : Type) where
  ret : Option Bool
  st : Sweep
  gain : Nat → Dbl F
  phase : Nat → F

/-- The loop `for (int i = 0; i < n; i++)` of `calibrate` over the buffers
left by the sweep. -/
def calLoop {F : Type} [LinearOrderedField F] (m : LibM F) (real imag : Nat → Int) (ref : Int)
    (n : Int) (gain : Nat → Dbl F) (phase : Nat → F) : (Nat → Dbl F) × (Nat → F) :=
  (List.range n.toNat).foldl
    (fun gp i =>
      (Function.update gp.1 i (gainOf m ref (real i) (imag i)),
       Function.update gp.2 i (phaseOf m (real i) (imag i))))
    (gain, phase)

/-- Source function `AD5933::calibrate(real, imag, gain, phase, ref, n)`. -/
def calibrate {F : Type} [LinearOrderedField F] (m : LibM F) (fuel : Nat) (b : Bus)
    (real imag : Nat → Int) (gain : Nat → Dbl F) (phase : Nat → F) (ref : Int) (n : Int) :
    CalRun F :=
  let r := frequencySweep fuel b real imag n
  if r.ret = some true then
    let gp := calLoop m r.st.real r.st.imag ref n gain phase
    { ret := some true, st := r.st, gain := gp.1, phase := gp.2 }
  else { ret := r.ret, st := r.st, gain := gain, phase := phase }

end AD5933

/-! ## The frequency word as the specification words it -/

/-- The FrequencyWord of the specification:
`round(frequency / (referenceClock/4) * 2^27)`, in exact arithmetic. -/
def FrequencyWord (referenceClock frequency : Nat) : Int :=
  round ((frequency : ℚ) / ((referenceClock : ℚ) / 4) * 2 ^ 27)

/-! ## Concrete transports -/

/-- A reliable transport on which every receive delivers the byte 0, with
nothing transferred yet. -/
def idleBus : Bus := { script := fun _ => { ok := true, val := 0 }, pos := 0, log := [] }

/-- A bus with nothing transferred yet whose transport answers the first
transfers from the list `rs`, in order, and after that completes every
transfer and delivers the byte 0. -/
def scriptedBus (rs : List Resp) : Bus :=
  { script := fun i => rs.getD i { ok := true, val := 0 }, pos := 0, log := [] }

/-- A transfer that completes, delivering `v` when it is a receive. -/
def rOk (v : Nat) : Resp := { ok := true, val := v }

/-- A transfer that does not complete. -/
def rFail : Resp := { ok := false, val := 0 }

/-- The transfers of a sweep of one point: the three start-up commands, a
status read with the sweep-done bit clear, a status read with the data-valid
bit set, the four data bytes `rh, rl, ih, il`, the increment-frequency command
whose register write is answered by `inc`, a status read with the sweep-done
bit set, and the final standby command. -/
def onePointScript (inc : Resp) (rh rl ih il : Nat) : List Resp :=
  [rOk 0, rOk 0, rOk 0,
   rOk 0, rOk 0, rOk 0,
   rOk 0, rOk 0, rOk 0,
   rOk 0, rOk 0,
   rOk 0, rOk 2,
   rOk 0, rOk rh, rOk 0, rOk rl, rOk 0, rOk ih, rOk 0, rOk il,
   rOk 0, rOk 0, inc,
   rOk 0, rOk 4,
   rOk 0, rOk 0, rOk 0]

/-- The transfers of a sweep whose first status read fails at the transport:
the three start-up commands, the failed address-pointer transmit, and the final
standby command. -/
def statusFailScript : List Resp :=
  [rOk 0, rOk 0, rOk 0,
   rOk 0, rOk 0, rOk 0,
   rOk 0, rOk 0, rOk 0,
   rFail,
   rOk 0, rOk 0, rOk 0]

/-- The transfers of a temperature measurement: the measure-temperature
command, a status read with the temperature-valid bit set, and the two data
bytes `hi, lo`. -/
def temperatureScript (hi lo : Nat) : List Resp :=
  [rOk 0, rOk 0, rOk 0,
   rOk 0, rOk 1,
   rOk 0, rOk hi, rOk 0, rOk lo]

/-- The transfers of `setSettlingCycles` on a transport that completes every
transfer and reads back `hi` from `NUM_SCYCLES_1` and `lo` from
`NUM_SCYCLES_2`: the two register writes, then the two register reads. -/
def readBackScript (hi lo : Nat) : List Resp :=
  [rOk 0, rOk 0,
   rOk 0, rOk hi, rOk 0, rOk lo]

/-- The transfers of `Si5351::init` in which the power-down write to register
`16 + i` fails at the transport and every other transfer completes: the
device-status read, the output-enable write, `i` power-down writes, and the
failed one. -/
def powerDownFailScript (i : Nat) : List Resp :=
  [rOk 0, rOk 0, rOk 0] ++ List.replicate i (rOk 0) ++ [rFail]

/-- The transfers of `getComplexData` on a transport that completes every
transfer: a status read with the data-valid bit set, then the four data bytes
`rh, rl, ih, il`. -/
def complexDataScript (rh rl ih il : Nat) : List Resp :=
  [rOk 0, rOk 2,
   rOk 0, rOk rh, rOk 0, rOk rl, rOk 0, rOk ih, rOk 0, rOk il]

/-- The transfers of `getComplexData` when the read of `REAL_DATA_2` fails at
the transport: a status read with the data-valid bit set, the read of
`REAL_DATA_1`, and the failed address-pointer transmit. -/
def complexDataFailScript : List Resp :=
  [rOk 0, rOk 2,
   rOk 0, rOk 1, rFail]

/-! ## Reading a log of the AD5933 -/

namespace AD5933

/-- The modes commanded in a log: the high nibble of every byte written to
`CTRL_REG1`, oldest first. -/
def ctrlModes (log : List Event) : List Nat :=
  ((writes log).filter (fun w => w.1 == CTRL_REG1)).map (fun w => w.2 &&& 0xF0)

/-- A transfer that starts the read of a sample: the address-pointer command
for `REAL_DATA_1`, the first of the four data bytes `getComplexData` reads. -/
def isSampleRead : Event → Bool
  | Event.tx _ [p, r] _ => p == ADDR_PTR && r == REAL_DATA_1
  | _ => false

/-- The transfer, if any, is a completed address-pointer command for the
status register. -/
def isStatusPtr : Option Event → Bool
  | some (Event.tx _ [p, r] true) => p == ADDR_PTR && r == STATUS_REG
  | _ => false

/-- The transfer, if any, is a completed receive of a byte whose data-valid bit
is set. -/
def showsDataValid : Option Event → Bool
  | some (Event.rx _ v true) => v &&& STATUS_DATA_VALID == STATUS_DATA_VALID
  | _ => false

/-- Scan of a log, given the two transfers `p2`, `p1` that came just before it:
every transfer that starts the read of a sample has, as the two transfers just
before it, a completed status read showing the data-valid bit. -/
def guardedFrom : Option Event → Option Event → List Event → Bool
  | _, _, [] => true
  | p2, p1, e :: es =>
    (!isSampleRead e || (isStatusPtr p2 && showsDataValid p1)) && guardedFrom p1 (some e) es

/-- In the log, each sample is read only right after a status read that showed
the data-valid bit. -/
def samplesGuarded (log : List Event) : Bool := guardedFrom none none log

/-- Summary of a segment of a log: the modes it commands, the number of
sample reads it starts, and the fact that it passes the scan `guardedFrom`
whatever came before it. -/
def segmentIs (seg : List Event) (modes : List Nat) (samples : Nat) : Prop :=
  ctrlModes seg = modes ∧ seg.countP isSampleRead = samples ∧
    ∀ q2 q1, guardedFrom q2 q1 seg = true

end AD5933

/-! ## The products of the divider search -/

namespace Si5351

/-- The exact products `output_freq * (1 << r_div)`, before any reduction to
32 bits, that the loop of `set_ms` evaluates, in the order it evaluates them.
The function follows `msLoop` step by step: same test, same 32-bit divisor,
same next state. -/
def msProducts (pll_freq output_freq : Nat) : Nat → Nat → Nat → List Nat
  | 0, _, _ => []
  | fuel + 1, a, r_div =>
    if a > 2048 ∧ r_div < 7 then
      let d := (output_freq * (1 <<< (r_div + 1))) % 2 ^ 32
      output_freq * (1 <<< (r_div + 1)) ::
        (if d = 0 then [] else msProducts pll_freq output_freq fuel (pll_freq / d) (r_div + 1))
    else []

end Si5351

/-! # Theorems -/

/-- The register writes of a log that was extended are those of the old log
followed by those of the extension. -/
theorem regWrites_append (addr : Nat) (l1 l2 : List Event) :
    regWrites addr (l1 ++ l2) = regWrites addr l1 ++ regWrites addr l2 := by
  induction l1 with
  | nil => simp [regWrites]
  | cons e es ih =>
    cases e with
    | rx a v ok => simp [regWrites, ih]
    | tx a d ok =>
      match d, ok with
      | [], _ => simp [regWrites, ih]
      | [_], _ => simp [regWrites, ih]
      | [_, _], true => by_cases h : a = addr <;> simp [regWrites, ih, h]
      | [_, _], false => simp [regWrites, ih]
      | _ :: _ :: _ :: _, _ => simp [regWrites, ih]

/-- After further writes a register holds the last of them that went to it,
and its earlier contents when none did. -/
theorem regAfter_append (ws new : List (Nat × Nat)) (reg : Nat) :
    regAfter (ws ++ new) reg = (regAfter new reg).orElse (fun _ => regAfter ws reg) := by
  simp only [regAfter, List.reverse_append, List.find?_append]
  cases List.find? (fun w => w.1 == reg) new.reverse <;> simp

namespace Si5351

/-- Invariant of the search loop for a PLL frequency below `2^32` and a
non-zero output frequency: entered with the quotient for code `r` and `7 - r`
iterations left, it never divides by zero or wraps, and it ends with the
quotient for the least code from `r` on that brings it down to 2048, or with
code 7. -/
theorem msLoop_spec (pll f : Nat) (hpll : pll < 2 ^ 32) (hf : 0 < f) :
    ∀ fuel r, r + fuel = 7 →
      ∃ r', msLoop pll f fuel (pll / (f * 2 ^ r)) r = some (pll / (f * 2 ^ r'), r') ∧
        r ≤ r' ∧ r' ≤ 7 ∧ (∀ j, r ≤ j → j < r' → 2048 < pll / (f * 2 ^ j)) ∧
        (pll / (f * 2 ^ r') ≤ 2048 ∨ r' = 7) := by
  intro fuel
  induction fuel with
  | zero =>
    intro r hr
    refine ⟨r, by simp [msLoop], le_refl _, by omega, ?_, Or.inr (by omega)⟩
    intro j h1 h2; omega
  | succ fuel ih =>
    intro r hr
    by_cases hc : 2048 < pll / (f * 2 ^ r)
    · have hpos : 0 < f * 2 ^ r := Nat.mul_pos hf (Nat.pos_pow_of_pos _ (by norm_num))
      have h1 : 2049 * (f * 2 ^ r) ≤ pll := (Nat.le_div_iff_mul_le hpos).mp hc
      have h2 : f * 2 ^ (r + 1) = 2 * (f * 2 ^ r) := by rw [pow_succ]; ring
      have h3 : (f * (1 <<< (r + 1))) % 2 ^ 32 = f * 2 ^ (r + 1) := by
        rw [Nat.one_shiftLeft]
        apply Nat.mod_eq_of_lt
        omega
      obtain ⟨r', e, hle, h7, hmin, hfin⟩ := ih (r + 1) (by omega)
      refine ⟨r', ?_, by omega, h7, ?_, hfin⟩
      · have hr7 : r < 7 := by omega
        have hd : f * 2 ^ (r + 1) ≠ 0 := by omega
        simp only [msLoop, h3]
        rw [if_pos ⟨hc, hr7⟩, if_neg hd]
        exact e
      · intro j hj1 hj2
        by_cases hjr : j = r
        · subst hjr; exact hc
        · exact hmin j (by omega) hj2
    · refine ⟨r, ?_, le_refl _, by omega, ?_, Or.inl (by omega)⟩
      · simp only [msLoop]
        rw [if_neg (fun h => hc h.1)]
      · intro j h1 h2; omega

/-- The search of `set_ms` never divides by zero for a non-zero output
frequency, and ends with the quotient by the least R-divider code that brings
it down to 2048, or with code 7. -/
theorem msSearch_spec (pll f : Nat) (hpll : pll < 2 ^ 32) (hf : 0 < f) :
    ∃ r, msSearch pll f = some (pll / (f * 2 ^ r), r) ∧ r ≤ 7 ∧
      (∀ j, j < r → 2048 < pll / (f * 2 ^ j)) ∧ (pll / (f * 2 ^ r) ≤ 2048 ∨ r = 7) := by
  obtain ⟨r, e, -, h7, hmin, hfin⟩ := msLoop_spec pll f hpll hf 7 0 rfl
  refine ⟨r, ?_, h7, fun j hj => hmin j (Nat.zero_le _) hj, hfin⟩
  have hf0 : f ≠ 0 := by omega
  simp only [msSearch, if_neg hf0]
  simpa using e

/-- On a reliable transport `msWrite` makes its nine writes and succeeds. -/
theorem msWrite_reliable (b : Bus) (h : b.reliable) (k a r : Nat) :
    msWrite b k a r =
      (true, { b with
        pos := b.pos + 9,
        log := b.log ++
          [Event.tx SI5351_ADDRESS [(42 + k * 8) % 256, 0] true,
           Event.tx SI5351_ADDRESS [(42 + k * 8 + 1) % 256, 1] true,
           Event.tx SI5351_ADDRESS [(45 + k * 8) % 256,
             (((128 * a + 2 ^ 32 - 512) % 2 ^ 32) >>> 8) &&& 0xFF] true,
           Event.tx SI5351_ADDRESS [(45 + k * 8 + 1) % 256,
             ((128 * a + 2 ^ 32 - 512) % 2 ^ 32) &&& 0xFF] true,
           Event.tx SI5351_ADDRESS [(48 + k * 8) % 256, 0] true,
           Event.tx SI5351_ADDRESS [(48 + k * 8 + 1) % 256, 0] true,
           Event.tx SI5351_ADDRESS [(44 + k * 8) % 256,
             ((r <<< 4) &&& 0xF0) ||| ((((128 * a + 2 ^ 32 - 512) % 2 ^ 32) >>> 16) &&& 0x03)] true,
           Event.tx SI5351_ADDRESS [(47 + k * 8) % 256, 0] true,
           Event.tx SI5351_ADDRESS [(16 + k) % 256, 0x4F] true] }) := by
  have h1 : ∀ i, (b.script i).ok = true := h
  simp [msWrite, andThen, sendByte, HAL_I2C_Master_Transmit, h1, SI5351_REG_42_MS0_P1,
    SI5351_REG_44_MS0_P3, SI5351_REG_45_MS0_P4, SI5351_REG_47_MS0_P6, SI5351_REG_48_MS0_P7,
    SI5351_REG_16_CLK0_CTRL]

/-- C1 (R-divider search of `set_ms` against the 900 MHz PLL).  For an output
index at most 7 and a frequency of at least 1 Hz (whether or not its unadjusted
divider exceeds 2048), the search ends with a pair `(a, r_div)` where `r_div ≤ 7` and
`a = 900000000 / (output_freq * 2 ^ r_div)`; whenever the call returns `true`,
`4 ≤ a ≤ 2048` and no smaller exponent gives a quotient in `[4, 2048]`; on a
reliable transport the call does return `true` when `4 ≤ a ≤ 2048`; and the
call returns `false`, writing nothing, when no exponent up to 7 gives a
quotient in `[4, 2048]`. -/
theorem set_ms_rdiv_search (b : Bus) (output_num output_freq : Nat)
    (hk : output_num ≤ 7) (hf : 1 ≤ output_freq) :
    ∃ a r_div, msSearch 900000000 output_freq = some (a, r_div) ∧
      a = 900000000 / (output_freq * 2 ^ r_div) ∧ r_div ≤ 7 ∧
      (∀ b1, set_ms b output_num 900000000 output_freq = some (true, b1) →
        4 ≤ a ∧ a ≤ 2048 ∧
        ∀ j, j < r_div → ¬(4 ≤ 900000000 / (output_freq * 2 ^ j) ∧
          900000000 / (output_freq * 2 ^ j) ≤ 2048)) ∧
      (b.reliable → 4 ≤ a → a ≤ 2048 →
        ∃ b1, set_ms b output_num 900000000 output_freq = some (true, b1)) ∧
      ((∀ j, j ≤ 7 → ¬(4 ≤ 900000000 / (output_freq * 2 ^ j) ∧
          900000000 / (output_freq * 2 ^ j) ≤ 2048)) →
        set_ms b output_num 900000000 output_freq = some (false, b)) := by
  obtain ⟨r, e, h7, hmin, -⟩ := msSearch_spec 900000000 output_freq (by norm_num) hf
  have hk' : ¬output_num > 7 := by omega
  refine ⟨_, r, e, rfl, h7, ?_, ?_, ?_⟩
  · intro b1 hb1
    simp only [set_ms, if_neg hk', e] at hb1
    by_cases hr : 900000000 / (output_freq * 2 ^ r) < 4 ∨ 900000000 / (output_freq * 2 ^ r) > 2048
    · rw [if_pos hr] at hb1
      simp at hb1
    · refine ⟨by omega, by omega, ?_⟩
      intro j hj hin
      have := hmin j hj
      omega
  · intro hrel h4 h2048
    have hr : ¬(900000000 / (output_freq * 2 ^ r) < 4 ∨
        900000000 / (output_freq * 2 ^ r) > 2048) := by omega
    simp only [set_ms, if_neg hk', e, if_neg hr, msWrite_reliable b hrel]
    exact ⟨_, rfl⟩
  · intro hnone
    have hr : 900000000 / (output_freq * 2 ^ r) < 4 ∨
        900000000 / (output_freq * 2 ^ r) > 2048 := by
      have := hnone r h7
      omega
    simp only [set_ms, if_neg hk', e, if_pos hr]

/-- C2 (`set_freq` rejects before any write).  For an output index above 7 (and
any frequency), and for a frequency of at least 1 Hz whose divider after the
R-divider search is below 4 or above 2048 (and any output index), `set_freq`
returns `false` and leaves the bus exactly as it found it: no HAL transfer is
made, so no register is written and the PLL reset is not sent. -/
theorem set_freq_rejects_before_write (b : Bus) (output_num frequency : Nat) :
    (output_num > 7 → set_freq b output_num frequency = some (false, b)) ∧
    (1 ≤ frequency → ∃ a r_div, msSearch 900000000 frequency = some (a, r_div) ∧
      ((a < 4 ∨ a > 2048) → set_freq b output_num frequency = some (false, b))) := by
  constructor
  · intro hk
    simp [set_freq, set_ms, hk]
  · intro hf
    obtain ⟨r, e, -, -, -⟩ := msSearch_spec 900000000 frequency (by norm_num) hf
    refine ⟨_, r, e, ?_⟩
    intro ha
    by_cases hk : output_num > 7
    · simp [set_freq, set_ms, hk]
    · simp [set_freq, set_ms, hk, e, ha]

/-- The byte-level facts behind the MultiSynth block: for `4 ≤ a ≤ 2048` the
32-bit value `128 * a - 512` does not wrap and fits 18 bits, so its three
pieces reassemble to it, and the R-divider code sits in bits 6:4 above them. -/
theorem p1_bytes (a r : Nat) (ha4 : 4 ≤ a) (ha : a ≤ 2048) (hr : r ≤ 7) :
    (128 * a + 2 ^ 32 - 512) % 2 ^ 32 = 128 * a - 512 ∧
    (r <<< 4) &&& 0xF0 = r <<< 4 ∧
    ((r <<< 4) ||| (((128 * a - 512) >>> 16) &&& 0x03)) % 4 * 65536
      + (((128 * a - 512) >>> 8) &&& 0xFF) * 256 + ((128 * a - 512) &&& 0xFF) = 128 * a - 512 ∧
    ((r <<< 4) ||| (((128 * a - 512) >>> 16) &&& 0x03)) / 16 = r := by
  have e3 : ∀ x : Nat, x &&& 0x03 = x % 4 := fun x => Nat.and_pow_two_sub_one_eq_mod x 2
  have e8 : ∀ x : Nat, x &&& 0xFF = x % 256 := fun x => Nat.and_pow_two_sub_one_eq_mod x 8
  refine ⟨by omega, ?_, ?_, ?_⟩
  · interval_cases r <;> rfl
  · rw [e3, e8, e8, Nat.shiftRight_eq_div_pow, Nat.shiftRight_eq_div_pow]
    have h4 : (128 * a - 512) / 2 ^ 16 % 4 < 4 := Nat.mod_lt _ (by norm_num)
    have : ((r <<< 4) ||| ((128 * a - 512) / 2 ^ 16 % 4)) % 4 = (128 * a - 512) / 2 ^ 16 % 4 := by
      generalize (128 * a - 512) / 2 ^ 16 % 4 = x at h4
      interval_cases r <;> interval_cases x <;> rfl
    rw [this]
    omega
  · rw [e3, Nat.shiftRight_eq_div_pow]
    have h4 : (128 * a - 512) / 2 ^ 16 % 4 < 4 := Nat.mod_lt _ (by norm_num)
    generalize (128 * a - 512) / 2 ^ 16 % 4 = x at h4
    interval_cases r <;> interval_cases x <;> rfl

/-- C3 (MultiSynth register encoding).  On a reliable transport, for an output
index `k ≤ 7` and a frequency that `set_freq` accepts, with `(a, r)` the pair the
search ends with: after the call registers `42+8k` and `43+8k` hold 0 and 1
(`P3 = 1`), register `44+8k` holds `(r << 4) | P1[17:16]`, registers `45+8k`
and `46+8k` hold `P1[15:8]` and `P1[7:0]` where `P1 = 128 * a - 512`, registers
`47+8k`, `48+8k`, `49+8k` hold 0 (`P2 = 0`), register `16+k` holds `0x4F`, and
the last write is `0xAC` to register 177; the value reassembled from bits 1:0
of register `44+8k` and registers `45+8k`, `46+8k` is `128 * a - 512`, and bits
6:4 of register `44+8k` are `r`. -/
theorem set_freq_register_encoding (b b1 : Bus) (k f a r : Nat) (hrel : b.reliable)
    (hk : k ≤ 7) (hs : msSearch 900000000 f = some (a, r))
    (hacc : set_freq b k f = some (true, b1)) :
    regAfter (regWrites SI5351_ADDRESS b1.log) (42 + 8 * k) = some 0 ∧
    regAfter (regWrites SI5351_ADDRESS b1.log) (43 + 8 * k) = some 1 ∧
    regAfter (regWrites SI5351_ADDRESS b1.log) (44 + 8 * k) =
      some ((r <<< 4) ||| (((128 * a - 512) >>> 16) &&& 0x03)) ∧
    regAfter (regWrites SI5351_ADDRESS b1.log) (45 + 8 * k) =
      some (((128 * a - 512) >>> 8) &&& 0xFF) ∧
    regAfter (regWrites SI5351_ADDRESS b1.log) (46 + 8 * k) = some ((128 * a - 512) &&& 0xFF) ∧
    regAfter (regWrites SI5351_ADDRESS b1.log) (47 + 8 * k) = some 0 ∧
    regAfter (regWrites SI5351_ADDRESS b1.log) (48 + 8 * k) = some 0 ∧
    regAfter (regWrites SI5351_ADDRESS b1.log) (49 + 8 * k) = some 0 ∧
    regAfter (regWrites SI5351_ADDRESS b1.log) (16 + k) = some 0x4F ∧
    (regWrites SI5351_ADDRESS b1.log).getLast? = some (177, 0xAC) ∧
    4 ≤ a ∧ a ≤ 2048 ∧ r ≤ 7 ∧ 128 * a - 512 < 2 ^ 18 ∧
    ((r <<< 4) ||| (((128 * a - 512) >>> 16) &&& 0x03)) % 4 * 65536
      + (((128 * a - 512) >>> 8) &&& 0xFF) * 256 + ((128 * a - 512) &&& 0xFF) = 128 * a - 512 ∧
    ((r <<< 4) ||| (((128 * a - 512) >>> 16) &&& 0x03)) / 16 % 8 = r := by
  have hk' : ¬k > 7 := by omega
  have hrel1 : ∀ i, (b.script i).ok = true := hrel
  -- the frequency was accepted, so the divider passed the range check
  have ha : ¬(a < 4 ∨ a > 2048) := by
    intro hbad
    simp [set_freq, set_ms, hk', hs, hbad] at hacc
  -- the search ended with a code of at most 7
  have hr : r ≤ 7 := by
    have hf : 0 < f := by
      rcases Nat.eq_zero_or_pos f with h0 | h0
      · simp [h0, msSearch] at hs
      · exact h0
    obtain ⟨r', e, h7, -, -⟩ := msSearch_spec 900000000 f (by norm_num) hf
    rw [hs] at e
    simp only [Option.some.injEq, Prod.mk.injEq] at e
    omega
  obtain ⟨e1, e2, e3, e4⟩ := p1_bytes a r (by omega) (by omega) hr
  simp only [set_freq, set_ms, if_neg hk', hs, if_neg ha, msWrite_reliable b hrel, e1, e2] at hacc
  simp [sendByte, HAL_I2C_Master_Transmit, hrel1] at hacc
  subst hacc
  simp only [regWrites_append]
  refine ⟨?_, ?_, ?_, ?_, ?_, ?_, ?_, ?_, ?_, ?_, by omega, by omega, hr, by omega, e3,
    by rw [e4]; omega⟩
  all_goals
    interval_cases k <;>
      simp [regAfter_append, regWrites, regAfter, SI5351_ADDRESS, SI5351_REG_177_PLL_RESET]


/-- Witness of `set_ms_rdiv_search`: for 100 kHz on output 0 the unadjusted
divider is 9000, the search ends with `(1125, 3)`, the call succeeds on the
idle transport, and the exponents 0, 1, 2 give quotients outside `[4, 2048]`. -/
theorem set_ms_rdiv_search_witness :
    (0 ≤ 7 ∧ 1 ≤ 100000 ∧ 2048 < 900000000 / 100000) ∧
    msSearch 900000000 100000 = some (1125, 3) ∧
    (∃ b1, set_ms idleBus 0 900000000 100000 = some (true, b1)) ∧
    (∀ j, j < 3 → ¬(4 ≤ 900000000 / (100000 * 2 ^ j) ∧
      900000000 / (100000 * 2 ^ j) ≤ 2048)) := by
  obtain ⟨a, r, hs, -, -, hsucc, -, -⟩ :=
    set_ms_rdiv_search idleBus 0 100000 (by decide) (by decide)
  have e : msSearch 900000000 100000 = some (1125, 3) := by decide
  rw [e] at hs
  simp only [Option.some.injEq, Prod.mk.injEq] at hs
  obtain ⟨rfl, rfl⟩ := hs
  exact ⟨by decide, e, ⟨_, rfl⟩, (hsucc _ rfl).2.2⟩

/-- Witness of `set_freq_rejects_before_write`: output index 9 is rejected, and
so is 1 kHz on output 0 (the search ends with divider 7031 > 2048); in both
cases the idle transport is left untouched. -/
theorem set_freq_rejects_before_write_witness :
    (9 > 7 ∧ set_freq idleBus 9 1000 = some (false, idleBus)) ∧
    (1 ≤ 1000 ∧ msSearch 900000000 1000 = some (7031, 7) ∧ (7031 < 4 ∨ 7031 > 2048) ∧
      set_freq idleBus 0 1000 = some (false, idleBus)) := by
  refine ⟨⟨by decide, (set_freq_rejects_before_write idleBus 9 1000).1 (by decide)⟩,
    by decide, by decide, by decide, ?_⟩
  obtain ⟨a, r, hs, hrej⟩ := (set_freq_rejects_before_write idleBus 0 1000).2 (by decide)
  have e : msSearch 900000000 1000 = some (7031, 7) := by decide
  rw [e] at hs
  simp only [Option.some.injEq, Prod.mk.injEq] at hs
  obtain ⟨rfl, rfl⟩ := hs
  exact hrej (by decide)

/-- Witness of `set_freq_register_encoding`: 100 kHz on output 1 of the idle
transport, where the search ends with `(1125, 3)` and `P1 = 143488 = 0x23080`. -/
theorem set_freq_register_encoding_witness :
    (idleBus.reliable ∧ 1 ≤ 7 ∧ msSearch 900000000 100000 = some (1125, 3) ∧
      ∃ b1, set_freq idleBus 1 100000 = some (true, b1) ∧
        regAfter (regWrites SI5351_ADDRESS b1.log) (44 + 8 * 1) = some 0x32 ∧
        regAfter (regWrites SI5351_ADDRESS b1.log) (45 + 8 * 1) = some 0x30 ∧
        regAfter (regWrites SI5351_ADDRESS b1.log) (46 + 8 * 1) = some 0x80 ∧
        (regWrites SI5351_ADDRESS b1.log).getLast? = some (177, 0xAC)) := by
  have hs : msSearch 900000000 100000 = some (1125, 3) := by decide
  have h := set_freq_register_encoding idleBus _ 1 100000 1125 3 (fun _ => rfl) (by decide)
    hs rfl
  exact ⟨fun _ => rfl, by decide, hs, _, rfl, h.2.2.1, h.2.2.2.1, h.2.2.2.2.1,
    h.2.2.2.2.2.2.2.2.2.1⟩

end Si5351

namespace AD5933

/-- The AD5933 register writes of an extended log. -/
theorem writes_append (l1 l2 : List Event) : writes (l1 ++ l2) = writes l1 ++ writes l2 := by
  simp [writes, regWrites_append]

/-- An integer at or below `q` is at or below its rounding. -/
theorem roundHalfEven_ge (q : ℚ) (z : Int) (h : (z : ℚ) ≤ q) : z ≤ roundHalfEven q := by
  have hz : z ≤ ⌊q⌋ := Int.le_floor.mpr h
  unfold roundHalfEven
  split_ifs <;> omega

/-- An integer at or above `q` is at or above its rounding. -/
theorem roundHalfEven_le (q : ℚ) (z : Int) (h : q ≤ (z : ℚ)) : roundHalfEven q ≤ z := by
  have hz : ⌊q⌋ ≤ z := by
    have := Int.floor_le_floor h
    simpa using this
  rcases lt_or_eq_of_le hz with hlt | heq
  · unfold roundHalfEven
    split_ifs <;> omega
  · have hq : q = (⌊q⌋ : ℚ) := le_antisymm (by rw [heq]; exact h) (Int.floor_le q)
    unfold roundHalfEven
    rw [if_pos (by rw [← hq]; norm_num)]
    omega

/-- An integer rounds to itself. -/
theorem roundHalfEven_intCast (z : Int) : roundHalfEven (z : ℚ) = z :=
  le_antisymm (roundHalfEven_le _ _ le_rfl) (roundHalfEven_ge _ _ le_rfl)

/-- Rounding to the nearest integer is monotone. -/
theorem roundHalfEven_mono (a b : ℚ) (h : a ≤ b) : roundHalfEven a ≤ roundHalfEven b := by
  have hf : ⌊a⌋ ≤ ⌊b⌋ := Int.floor_le_floor h
  rcases lt_or_eq_of_le hf with hlt | heq
  · have h1 : roundHalfEven a ≤ ⌊a⌋ + 1 :=
      roundHalfEven_le _ _ (by push_cast; exact (Int.lt_floor_add_one a).le)
    have h2 : ⌊b⌋ ≤ roundHalfEven b := roundHalfEven_ge _ _ (Int.floor_le b)
    omega
  · unfold roundHalfEven
    rw [heq]
    have hab : a - ⌊b⌋ ≤ b - ⌊b⌋ := by linarith
    split_ifs <;> first | omega | (exfalso; linarith)

/-- Rounding to the nearest integer moves a value by at most one half. -/
theorem roundHalfEven_error (q : ℚ) : |(roundHalfEven q : ℚ) - q| ≤ 1 / 2 := by
  have h1 := Int.floor_le q
  have h2 := Int.lt_floor_add_one q
  rw [abs_le]
  unfold roundHalfEven
  split_ifs <;> push_cast <;> constructor <;> linarith

/-- The binary exponent of a value in the binade `[2^e, 2^(e+1))` is `e`. -/
theorem log_two_eq (x : ℚ) (e : Int) (h1 : (2 : ℚ) ^ e ≤ x) (h2 : x < (2 : ℚ) ^ (e + 1)) :
    Int.log 2 x = e := by
  have hx : 0 < x := lt_of_lt_of_le (by positivity) h1
  have a : e ≤ Int.log 2 x := by
    apply (Int.zpow_le_iff_le_log (by norm_num) hx).mp
    simpa using h1
  have b : Int.log 2 x < e + 1 := by
    apply (Int.lt_zpow_iff_log_lt (by norm_num) hx).mp
    simpa using h2
  omega

/-- A positive value lies in the binade of its binary exponent. -/
theorem log_two_spec (x : ℚ) (hx : 0 < x) :
    (2 : ℚ) ^ Int.log 2 x ≤ x ∧ x < (2 : ℚ) ^ (Int.log 2 x + 1) := by
  have a := Int.zpow_log_le_self (b := 2) (by norm_num) hx
  have b := Int.lt_zpow_succ_log_self (b := 2) (by norm_num) x
  exact ⟨by simpa using a, by simpa using b⟩

/-- Zero is a binary64 value. -/
theorem toDouble_zero : toDouble 0 = 0 := by simp [toDouble]

/-- The binary64 rounding of a value in the binade `[2^e, 2^(e+1))`. -/
theorem toDouble_of_binade (x : ℚ) (e : Int) (h1 : (2 : ℚ) ^ e ≤ x) (h2 : x < (2 : ℚ) ^ (e + 1)) :
    toDouble x = (roundHalfEven (x * 2 ^ (52 - e)) : ℚ) * 2 ^ (e - 52) := by
  have hx : 0 < x := lt_of_lt_of_le (by positivity) h1
  unfold toDouble
  rw [if_neg hx.ne', abs_of_pos hx, log_two_eq x e h1 h2]

/-- A value of the binade `e` scaled by `2^(52-e)` lies in `[2^52, 2^53)`. -/
theorem scaled_binade (x : ℚ) (e : Int) (h1 : (2 : ℚ) ^ e ≤ x) (h2 : x < (2 : ℚ) ^ (e + 1)) :
    (2 : ℚ) ^ (52 : ℕ) ≤ x * 2 ^ (52 - e) ∧ x * 2 ^ (52 - e) < (2 : ℚ) ^ (53 : ℕ) := by
  have hp : (0 : ℚ) < 2 ^ (52 - e) := by positivity
  have e1 : (2 : ℚ) ^ (52 : ℕ) = 2 ^ e * 2 ^ (52 - e) := by
    rw [← zpow_add₀ (by norm_num : (2 : ℚ) ≠ 0), ← zpow_natCast]
    congr 1
    omega
  have e2 : (2 : ℚ) ^ (53 : ℕ) = 2 ^ (e + 1) * 2 ^ (52 - e) := by
    rw [← zpow_add₀ (by norm_num : (2 : ℚ) ≠ 0), ← zpow_natCast]
    congr 1
    omega
  rw [e1, e2]
  exact ⟨mul_le_mul_of_nonneg_right h1 hp.le, mul_lt_mul_of_pos_right h2 hp⟩

/-- A binary64 value keeps its binade: `2^e ≤ toDouble x ≤ 2^(e+1)`. -/
theorem toDouble_binade (x : ℚ) (e : Int) (h1 : (2 : ℚ) ^ e ≤ x) (h2 : x < (2 : ℚ) ^ (e + 1)) :
    (2 : ℚ) ^ e ≤ toDouble x ∧ toDouble x ≤ (2 : ℚ) ^ (e + 1) := by
  obtain ⟨s1, s2⟩ := scaled_binade x e h1 h2
  have hp : (0 : ℚ) < 2 ^ (e - 52) := by positivity
  have hM : (((2 : Int) ^ (52 : Nat) : Int) : ℚ) = (2 : ℚ) ^ (52 : Nat) := by norm_num
  have hN : (((2 : Int) ^ (53 : Nat) : Int) : ℚ) = (2 : ℚ) ^ (53 : Nat) := by norm_num
  have a : (2 : ℚ) ^ (52 : Nat) ≤ (roundHalfEven (x * 2 ^ (52 - e)) : ℚ) := by
    rw [← hM]
    exact_mod_cast roundHalfEven_ge _ ((2 : Int) ^ (52 : Nat)) (by rw [hM]; exact s1)
  have b : (roundHalfEven (x * 2 ^ (52 - e)) : ℚ) ≤ (2 : ℚ) ^ (53 : Nat) := by
    rw [← hN]
    exact_mod_cast roundHalfEven_le _ ((2 : Int) ^ (53 : Nat)) (by rw [hN]; exact s2.le)
  have e1 : (2 : ℚ) ^ e = (2 : ℚ) ^ (52 : Nat) * 2 ^ (e - 52) := by
    rw [← zpow_natCast, ← zpow_add₀ (by norm_num : (2 : ℚ) ≠ 0)]
    congr 1
    omega
  have e2 : (2 : ℚ) ^ (e + 1) = (2 : ℚ) ^ (53 : Nat) * 2 ^ (e - 52) := by
    rw [← zpow_natCast, ← zpow_add₀ (by norm_num : (2 : ℚ) ≠ 0)]
    congr 1
    omega
  rw [toDouble_of_binade x e h1 h2, e1, e2]
  exact ⟨mul_le_mul_of_nonneg_right a hp.le, mul_le_mul_of_nonneg_right b hp.le⟩

/-- Rounding to binary64 keeps a value non-negative. -/
theorem toDouble_nonneg (x : ℚ) (hx : 0 ≤ x) : 0 ≤ toDouble x := by
  rcases hx.eq_or_lt with h | h
  · rw [← h, toDouble_zero]
  · obtain ⟨l1, l2⟩ := log_two_spec x h
    exact le_trans (by positivity) (toDouble_binade x _ l1 l2).1

/-- Rounding to binary64 is monotone on the non-negative rationals. -/
theorem toDouble_mono (x y : ℚ) (hx : 0 ≤ x) (hxy : x ≤ y) : toDouble x ≤ toDouble y := by
  rcases hx.eq_or_lt with h | h
  · rw [← h, toDouble_zero]
    exact toDouble_nonneg y (le_trans hx hxy)
  · have hy : 0 < y := lt_of_lt_of_le h hxy
    obtain ⟨l1, l2⟩ := log_two_spec x h
    obtain ⟨m1, m2⟩ := log_two_spec y hy
    have hlog : Int.log 2 x ≤ Int.log 2 y := Int.log_mono_right h hxy
    rcases lt_or_eq_of_le hlog with hlt | heq
    · have a := (toDouble_binade x _ l1 l2).2
      have b := (toDouble_binade y _ m1 m2).1
      have c : (2 : ℚ) ^ (Int.log 2 x + 1) ≤ 2 ^ Int.log 2 y :=
        zpow_le_zpow_right₀ (by norm_num) (by omega)
      linarith
    · rw [toDouble_of_binade x _ l1 l2, toDouble_of_binade y _ m1 m2, heq]
      have hp : (0 : ℚ) < 2 ^ (Int.log 2 y - 52) := by positivity
      have hq : (0 : ℚ) < 2 ^ (52 - Int.log 2 y) := by positivity
      apply mul_le_mul_of_nonneg_right _ hp.le
      exact_mod_cast roundHalfEven_mono _ _ (mul_le_mul_of_nonneg_right hxy hq.le)

/-- Scaling by a power of two commutes with rounding to binary64 (the exponent
range is not limited in this model). -/
theorem toDouble_mul_two_zpow (x : ℚ) (hx : 0 ≤ x) (k : Int) :
    toDouble (x * 2 ^ k) = toDouble x * 2 ^ k := by
  rcases hx.eq_or_lt with h | h
  · rw [← h, zero_mul, toDouble_zero, zero_mul]
  · obtain ⟨l1, l2⟩ := log_two_spec x h
    have hk : (0 : ℚ) < 2 ^ k := by positivity
    have a : (2 : ℚ) ^ (Int.log 2 x + k) ≤ x * 2 ^ k := by
      rw [zpow_add₀ (by norm_num : (2 : ℚ) ≠ 0)]
      exact mul_le_mul_of_nonneg_right l1 hk.le
    have b : x * 2 ^ k < (2 : ℚ) ^ (Int.log 2 x + k + 1) := by
      have : (2 : ℚ) ^ (Int.log 2 x + k + 1) = 2 ^ (Int.log 2 x + 1) * 2 ^ k := by
        rw [← zpow_add₀ (by norm_num : (2 : ℚ) ≠ 0)]
        congr 1
        omega
      rw [this]
      exact mul_lt_mul_of_pos_right l2 hk
    rw [toDouble_of_binade _ _ a b, toDouble_of_binade x _ l1 l2]
    have c : x * 2 ^ k * 2 ^ (52 - (Int.log 2 x + k)) = x * 2 ^ (52 - Int.log 2 x) := by
      rw [mul_assoc, ← zpow_add₀ (by norm_num : (2 : ℚ) ≠ 0)]
      congr 2
      omega
    have d : (2 : ℚ) ^ (Int.log 2 x + k - 52) = 2 ^ (Int.log 2 x - 52) * 2 ^ k := by
      rw [← zpow_add₀ (by norm_num : (2 : ℚ) ≠ 0)]
      congr 1
      omega
    rw [c, d, mul_assoc]

/-- A natural below `2^53` is a binary64 value. -/
theorem toDouble_natCast (n : Nat) (hn : n < 2 ^ 53) : toDouble (n : ℚ) = n := by
  rcases Nat.eq_zero_or_pos n with h | h
  · subst h
    simp [toDouble_zero]
  · have hL1 : 2 ^ Nat.log 2 n ≤ n := Nat.pow_log_le_self 2 h.ne'
    have hL2 : n < 2 ^ (Nat.log 2 n + 1) := Nat.lt_pow_succ_log_self (by norm_num) n
    have hL : Nat.log 2 n < 53 := by
      by_contra hc
      have : 2 ^ 53 ≤ 2 ^ Nat.log 2 n := Nat.pow_le_pow_right (by norm_num) (by omega)
      omega
    have a : (2 : ℚ) ^ ((Nat.log 2 n : Nat) : Int) ≤ (n : ℚ) := by
      rw [zpow_natCast]
      exact_mod_cast hL1
    have b : (n : ℚ) < (2 : ℚ) ^ (((Nat.log 2 n : Nat) : Int) + 1) := by
      have : (((Nat.log 2 n : Nat) : Int) + 1) = ((Nat.log 2 n + 1 : Nat) : Int) := by push_cast; rfl
      rw [this, zpow_natCast]
      exact_mod_cast hL2
    rw [toDouble_of_binade _ _ a b]
    have c : (n : ℚ) * 2 ^ (52 - ((Nat.log 2 n : Nat) : Int))
        = ((((n * 2 ^ (52 - Nat.log 2 n) : Nat) : Int)) : ℚ) := by
      have : (52 - ((Nat.log 2 n : Nat) : Int)) = ((52 - Nat.log 2 n : Nat) : Int) := by omega
      rw [this, zpow_natCast]
      push_cast
      rfl
    rw [c, roundHalfEven_intCast]
    push_cast
    rw [mul_assoc, ← zpow_natCast, ← zpow_add₀ (by norm_num : (2 : ℚ) ≠ 0)]
    have : (((52 - Nat.log 2 n : Nat) : Int) + (((Nat.log 2 n : Nat) : Int) - 52)) = 0 := by omega
    rw [this, zpow_zero, mul_one]

/-- A natural below `2^53` scaled by a power of two is a binary64 value. -/
theorem toDouble_natCast_mul (n : Nat) (hn : n < 2 ^ 53) (k : Int) :
    toDouble ((n : ℚ) * 2 ^ k) = (n : ℚ) * 2 ^ k := by
  rw [toDouble_mul_two_zpow _ (by positivity), toDouble_natCast n hn]

/-- Rounding to binary64 is idempotent. -/
theorem toDouble_idem (x : ℚ) (hx : 0 ≤ x) : toDouble (toDouble x) = toDouble x := by
  rcases hx.eq_or_lt with h | h
  · rw [← h, toDouble_zero, toDouble_zero]
  · obtain ⟨l1, l2⟩ := log_two_spec x h
    obtain ⟨s1, s2⟩ := scaled_binade x _ l1 l2
    rw [toDouble_of_binade x _ l1 l2]
    have hM : (((2 : Int) ^ (52 : Nat) : Int) : ℚ) = (2 : ℚ) ^ (52 : Nat) := by norm_num
    have hN : (((2 : Int) ^ (53 : Nat) : Int) : ℚ) = (2 : ℚ) ^ (53 : Nat) := by norm_num
    have a : (2 : Int) ^ (52 : Nat) ≤ roundHalfEven (x * 2 ^ (52 - Int.log 2 x)) :=
      roundHalfEven_ge _ _ (by rw [hM]; exact s1)
    have b : roundHalfEven (x * 2 ^ (52 - Int.log 2 x)) ≤ (2 : Int) ^ (53 : Nat) :=
      roundHalfEven_le _ _ (by rw [hN]; exact s2.le)
    generalize roundHalfEven (x * 2 ^ (52 - Int.log 2 x)) = m at a b
    rcases lt_or_eq_of_le b with hlt | heq
    · obtain ⟨n, rfl⟩ := Int.eq_ofNat_of_zero_le (le_trans (by positivity) a)
      exact toDouble_natCast_mul n (by exact_mod_cast hlt) _
    · have e : ((m : Int) : ℚ) * 2 ^ (Int.log 2 x - 52)
          = ((1 : Nat) : ℚ) * 2 ^ (Int.log 2 x + 1) := by
        rw [heq, hN, Nat.cast_one, one_mul, ← zpow_natCast,
          ← zpow_add₀ (by norm_num : (2 : ℚ) ≠ 0)]
        congr 1
        omega
      rw [e]
      exact toDouble_natCast_mul 1 (by norm_num) _

/-- The relative error of rounding to binary64 is at most `2^-53`. -/
theorem toDouble_error (x : ℚ) (hx : 0 < x) : |toDouble x - x| ≤ x / 2 ^ 53 := by
  obtain ⟨l1, l2⟩ := log_two_spec x hx
  rw [toDouble_of_binade x _ l1 l2]
  have hp : (0 : ℚ) < 2 ^ (Int.log 2 x - 52) := by positivity
  have er := roundHalfEven_error (x * 2 ^ (52 - Int.log 2 x))
  have e1 : (roundHalfEven (x * 2 ^ (52 - Int.log 2 x)) : ℚ) * 2 ^ (Int.log 2 x - 52) - x
      = ((roundHalfEven (x * 2 ^ (52 - Int.log 2 x)) : ℚ) - x * 2 ^ (52 - Int.log 2 x))
        * 2 ^ (Int.log 2 x - 52) := by
    rw [sub_mul, mul_assoc, ← zpow_add₀ (by norm_num : (2 : ℚ) ≠ 0)]
    have : (52 - Int.log 2 x + (Int.log 2 x - 52)) = 0 := by omega
    rw [this, zpow_zero, mul_one]
  rw [e1, abs_mul, abs_of_pos hp]
  have e2 : (2 : ℚ) ^ (Int.log 2 x - 52) = 2 ^ Int.log 2 x / 2 ^ 52 := by
    rw [zpow_sub₀ (by norm_num : (2 : ℚ) ≠ 0)]
    norm_num
  calc |(roundHalfEven (x * 2 ^ (52 - Int.log 2 x)) : ℚ) - x * 2 ^ (52 - Int.log 2 x)|
        * 2 ^ (Int.log 2 x - 52)
      ≤ 1 / 2 * 2 ^ (Int.log 2 x - 52) := mul_le_mul_of_nonneg_right er hp.le
    _ = 2 ^ Int.log 2 x / 2 ^ 53 := by rw [e2]; ring
    _ ≤ x / 2 ^ 53 := div_le_div_of_nonneg_right l1 (by positivity)

/-- The conversion to `long` of a non-negative value: its floor, capped. -/
theorem doubleToLong_of_nonneg (x : ℚ) (hx : 0 ≤ x) :
    doubleToLong x = if x ≥ 2 ^ 31 then 2 ^ 31 - 1 else ⌊x⌋ := by
  unfold doubleToLong
  by_cases h : x ≥ 2 ^ 31
  · simp [h]
  · have h2 : ¬x ≤ -(2 ^ 31) := by
      intro h3
      have : (0 : ℚ) < 2 ^ 31 := by positivity
      linarith
    rw [if_neg h, if_neg h, if_neg h2, Rat.floor_def]
    exact Int.tdiv_eq_ediv (Rat.num_nonneg.mpr hx) (by exact_mod_cast Nat.zero_le _)

/-- The rounding of a rational that lies within one half of an integer. -/
theorem roundHalfEven_eq (q : ℚ) (z : Int) (h1 : (z : ℚ) - 1 / 2 < q) (h2 : q < (z : ℚ) + 1 / 2) :
    roundHalfEven q = z := by
  have er := abs_le.mp (roundHalfEven_error q)
  have a : ((z - 1 : Int) : ℚ) < (roundHalfEven q : ℚ) := by
    push_cast
    linarith [er.1]
  have b : (roundHalfEven q : ℚ) < ((z + 1 : Int) : ℚ) := by
    push_cast
    linarith [er.2]
  have a' : z - 1 < roundHalfEven q := by exact_mod_cast a
  have b' : roundHalfEven q < z + 1 := by exact_mod_cast b
  omega

/-- The expression is never negative. -/
theorem freqExpr_nonneg (r f : Nat) : 0 ≤ freqExpr r f := by
  unfold freqExpr
  apply toDouble_nonneg
  apply mul_nonneg _ (by positivity)
  apply toDouble_nonneg
  apply div_nonneg
  · exact toDouble_nonneg _ (by positivity)
  · exact toDouble_nonneg _ (div_nonneg (toDouble_nonneg _ (by positivity)) (by norm_num))

/-- The exact value `f / (r / 4) * 2^27` as one quotient of naturals. -/
theorem exactWord_eq (r f : Nat) (hr : 0 < r) :
    (f : ℚ) / ((r : ℚ) / 4) * 2 ^ 27 = ((f * 2 ^ 29 : Nat) : ℚ) / (r : ℚ) := by
  have hr' : (r : ℚ) ≠ 0 := by exact_mod_cast hr.ne'
  push_cast
  field_simp
  ring

/-- The floor of the exact value is a quotient of naturals. -/
theorem floor_exactWord (r f : Nat) (hr : 0 < r) :
    ⌊(f : ℚ) / ((r : ℚ) / 4) * 2 ^ 27⌋ = ((f * 2 ^ 29 / r : Nat) : Int) := by
  rw [exactWord_eq r f hr, Rat.floor_natCast_div_natCast]
  simp

/-- For operands of 32 bits the two conversions, the division by `4.0` and the
scaling by `pow(2, 27)` are exact: the one rounding of the expression is that
of the quotient. -/
theorem freqExpr_quot (r f : Nat) (hr32 : r < 2 ^ 32) (hf32 : f < 2 ^ 32) :
    freqExpr r f = toDouble ((f : ℚ) / ((r : ℚ) / 4)) * 2 ^ 27 := by
  have h4 : toDouble ((r : ℚ) / 4) = (r : ℚ) / 4 := by
    have := toDouble_natCast_mul r (by omega) (-2)
    have e : (r : ℚ) * 2 ^ (-2 : Int) = (r : ℚ) / 4 := by
      rw [zpow_neg]
      norm_num
      ring
    rwa [e] at this
  have h27 : (2 : ℚ) ^ 27 = (2 : ℚ) ^ (27 : Int) := by norm_num
  have hq : 0 ≤ (f : ℚ) / ((r : ℚ) / 4) := by positivity
  unfold freqExpr
  rw [toDouble_natCast f (by omega), toDouble_natCast r (by omega), h4, h27,
    toDouble_mul_two_zpow _ (toDouble_nonneg _ hq), toDouble_idem _ hq]

/-- For operands of 32 bits the expression is the binary64 rounding of the
exact value `f * 2^29 / r`. -/
theorem freqExpr_eq (r f : Nat) (hr : 0 < r) (hr32 : r < 2 ^ 32) (hf32 : f < 2 ^ 32) :
    freqExpr r f = toDouble (((f * 2 ^ 29 : Nat) : ℚ) / (r : ℚ)) := by
  have h27 : (2 : ℚ) ^ 27 = (2 : ℚ) ^ (27 : Int) := by norm_num
  have hq : 0 ≤ (f : ℚ) / ((r : ℚ) / 4) := by positivity
  rw [freqExpr_quot r f hr32 hf32, ← exactWord_eq r f hr, h27, ← toDouble_mul_two_zpow _ hq]

/-- Below a natural that is a binary64 value the rounded quotient stays below
it, and above one it stays above. -/
theorem toDouble_bracket (x : ℚ) (hx : 0 ≤ x) (j : Nat) (hj : j < 2 ^ 53) :
    ((j : ℚ) ≤ x → (j : ℚ) ≤ toDouble x) ∧ (x ≤ (j : ℚ) → toDouble x ≤ (j : ℚ)) := by
  constructor
  · intro h
    have := toDouble_mono (j : ℚ) x (by positivity) h
    rwa [toDouble_natCast j hj] at this
  · intro h
    have := toDouble_mono x (j : ℚ) hx h
    rwa [toDouble_natCast j hj] at this

/-- The floor of the expression when the exact value `f * 2^29 / r` is at
least `2^24`: the range check of the setters rejects it. -/
theorem floor_freqExpr_large (r f : Nat) (hr : 0 < r) (hr32 : r < 2 ^ 32) (hf32 : f < 2 ^ 32)
    (hk : 2 ^ 24 ≤ f * 2 ^ 29 / r) : ⌊freqExpr r f⌋ > 0xFFFFFF := by
  have hr' : (0 : ℚ) < (r : ℚ) := by exact_mod_cast hr
  have hx : ((2 ^ 24 : Nat) : ℚ) ≤ ((f * 2 ^ 29 : Nat) : ℚ) / (r : ℚ) := by
    rw [le_div_iff₀ hr']
    have := (Nat.le_div_iff_mul_le hr).mp hk
    exact_mod_cast this
  have h := (toDouble_bracket _ (by positivity) (2 ^ 24) (by norm_num)).1 hx
  rw [← freqExpr_eq r f hr hr32 hf32] at h
  have : ((2 ^ 24 : Nat) : Int) ≤ ⌊freqExpr r f⌋ := Int.le_floor.mpr (by exact_mod_cast h)
  have e : ((2 ^ 24 : Nat) : Int) = 16777216 := by norm_num
  omega

/-- The floor of the expression when the exact value `x = f * 2^29 / r` is
below `2^24`, with `k = ⌊x⌋`: it is `k`, or it is `k + 1` and then `x` is within
`x / 2^53` below `k + 1`
(in naturals: `((k + 1) * r - f * 2^29) * 2^53 ≤ f * 2^29`); and it passes the range check of the setters. -/
theorem floor_freqExpr_small (r f : Nat) (hr : 0 < r) (hr32 : r < 2 ^ 32) (hf32 : f < 2 ^ 32)
    (hk : f * 2 ^ 29 / r < 2 ^ 24) :
    (⌊freqExpr r f⌋ = ((f * 2 ^ 29 / r : Nat) : Int) ∨
      (⌊freqExpr r f⌋ = ((f * 2 ^ 29 / r : Nat) : Int) + 1 ∧
        ((f * 2 ^ 29 / r + 1 : Nat) : ℚ) - ((f * 2 ^ 29 : Nat) : ℚ) / (r : ℚ)
          ≤ ((f * 2 ^ 29 : Nat) : ℚ) / (r : ℚ) / 2 ^ 53 ∧
        ((f * 2 ^ 29 / r + 1) * r - f * 2 ^ 29) * 2 ^ 53 ≤ f * 2 ^ 29)) ∧
    ⌊freqExpr r f⌋ ≤ 0xFFFFFF := by
  have hr' : (0 : ℚ) < (r : ℚ) := by exact_mod_cast hr
  rw [freqExpr_eq r f hr hr32 hf32]
  generalize hN : f * 2 ^ 29 = N at hk ⊢
  generalize hkk : N / r = k at hk ⊢
  have hk1 : k * r ≤ N := by rw [← hkk]; exact Nat.div_mul_le_self N r
  have hk2 : N < (k + 1) * r := by
    have h1 := Nat.div_add_mod N r
    have h2 := Nat.mod_lt N hr
    rw [hkk] at h1
    have h3 : (k + 1) * r = r * k + r := by ring
    omega
  have hX1 : (k : ℚ) ≤ (N : ℚ) / (r : ℚ) := by
    rw [le_div_iff₀ hr']
    exact_mod_cast hk1
  have hX2 : (N : ℚ) / (r : ℚ) < ((k + 1 : Nat) : ℚ) := by
    rw [div_lt_iff₀ hr']
    exact_mod_cast hk2
  have hX0 : (0 : ℚ) ≤ (N : ℚ) / (r : ℚ) := by positivity
  have hT1 := (toDouble_bracket _ hX0 k (by omega)).1 hX1
  have hT2 := (toDouble_bracket _ hX0 (k + 1) (by omega)).2 hX2.le
  rcases lt_or_eq_of_le hT2 with hlt | heq
  · have hfl : ⌊toDouble ((N : ℚ) / (r : ℚ))⌋ = (k : Int) := by
      rw [Int.floor_eq_iff]
      exact ⟨by exact_mod_cast hT1, by push_cast at hlt ⊢; exact hlt⟩
    rw [hfl]
    exact ⟨Or.inl rfl, by omega⟩
  · have hfl : ⌊toDouble ((N : ℚ) / (r : ℚ))⌋ = (k : Int) + 1 := by
      rw [heq]
      exact_mod_cast Int.floor_natCast (k + 1)
    have hpos : (0 : ℚ) < (N : ℚ) / (r : ℚ) := by
      rcases hX0.eq_or_lt with h0 | h0
      · rw [← h0, toDouble_zero] at heq
        have : (0 : ℚ) < ((k + 1 : Nat) : ℚ) := by positivity
        linarith
      · exact h0
    have er := (abs_le.mp (toDouble_error _ hpos)).2
    rw [heq] at er
    have hXr : (N : ℚ) / (r : ℚ) * (r : ℚ) = (N : ℚ) := div_mul_cancel₀ _ hr'.ne'
    have q1 : (((k + 1 : Nat) : ℚ) * (r : ℚ) - (N : ℚ)) * 2 ^ 53 ≤ (N : ℚ) := by
      have h1 := mul_le_mul_of_nonneg_right er hr'.le
      have e2 : (((k + 1 : Nat) : ℚ) - (N : ℚ) / (r : ℚ)) * (r : ℚ)
          = ((k + 1 : Nat) : ℚ) * (r : ℚ) - (N : ℚ) := by rw [sub_mul, hXr]
      have e3 : (N : ℚ) / (r : ℚ) / 2 ^ 53 * (r : ℚ) = (N : ℚ) / 2 ^ 53 := by
        rw [div_mul_eq_mul_div, hXr]
      rw [e2, e3] at h1
      have h2 := mul_le_mul_of_nonneg_right h1 (by positivity : (0 : ℚ) ≤ 2 ^ 53)
      rwa [div_mul_cancel₀ _ (by positivity)] at h2
    have hup : ((k + 1) * r - N) * 2 ^ 53 ≤ N := by
      have e4 : ((((k + 1) * r - N : Nat)) : ℚ) = ((k + 1 : Nat) : ℚ) * (r : ℚ) - (N : ℚ) := by
        rw [Nat.cast_sub hk2.le]
        push_cast
        ring
      have : ((((k + 1) * r - N) * 2 ^ 53 : Nat) : ℚ) ≤ (N : ℚ) := by
        rw [Nat.cast_mul, e4]
        exact_mod_cast q1
      exact_mod_cast this
    rw [hfl]
    refine ⟨Or.inr ⟨rfl, er, hup⟩, ?_⟩
    by_contra hc
    have hk' : k = 16777215 := by omega
    subst hk'
    norm_num at hup hk2
    omega

/-- Where the exact value is below `2^21` the rounding of the quotient cannot
reach the next integer: the floor of the expression is the exact floor. -/
theorem floor_freqExpr_exact (r f : Nat) (hr : 0 < r) (hr32 : r < 2 ^ 32) (hf32 : f < 2 ^ 32)
    (hk : f * 2 ^ 29 / r < 2 ^ 21) : ⌊freqExpr r f⌋ = ((f * 2 ^ 29 / r : Nat) : Int) := by
  rcases (floor_freqExpr_small r f hr hr32 hf32 (by omega)).1 with h | ⟨_, _, h⟩
  · exact h
  · exfalso
    have h1 : (f * 2 ^ 29 / r + 1) * r ≤ 2 ^ 21 * 2 ^ 32 :=
      Nat.mul_le_mul (by omega) (by omega)
    have h2 : f * 2 ^ 29 < (f * 2 ^ 29 / r + 1) * r := by
      have h1 := Nat.div_add_mod (f * 2 ^ 29) r
      have h2 := Nat.mod_lt (f * 2 ^ 29) hr
      have h3 : (f * 2 ^ 29 / r + 1) * r = r * (f * 2 ^ 29 / r) + r := by ring
      omega
    generalize (f * 2 ^ 29 / r + 1) * r = A at *
    omega

/-- The conversion to `long` is monotone on the non-negative values. -/
theorem doubleToLong_mono (x y : ℚ) (hx : 0 ≤ x) (hxy : x ≤ y) :
    doubleToLong x ≤ doubleToLong y := by
  rw [doubleToLong_of_nonneg x hx, doubleToLong_of_nonneg y (le_trans hx hxy)]
  have hf : ⌊x⌋ ≤ ⌊y⌋ := Int.floor_le_floor hxy
  split_ifs with h1 h2 h2
  · exact le_rfl
  · exact absurd (le_trans h1 hxy) h2
  · have : ⌊x⌋ < (2 ^ 31 : Int) := by
      apply Int.floor_lt.mpr
      push_cast
      exact not_le.mp h1
    omega
  · exact hf

/-- The expression is monotone in the frequency. -/
theorem freqExpr_mono (r f1 f2 : Nat) (h : f1 ≤ f2) : freqExpr r f1 ≤ freqExpr r f2 := by
  have hc : 0 ≤ toDouble (toDouble (r : ℚ) / 4) :=
    toDouble_nonneg _ (div_nonneg (toDouble_nonneg _ (by positivity)) (by norm_num))
  have h1 : toDouble (f1 : ℚ) ≤ toDouble (f2 : ℚ) :=
    toDouble_mono _ _ (by positivity) (by exact_mod_cast h)
  have h0 : 0 ≤ toDouble (f1 : ℚ) := toDouble_nonneg _ (by positivity)
  have h2 := toDouble_mono _ _ (div_nonneg h0 hc) (div_le_div_of_nonneg_right h1 hc)
  have h3 := mul_le_mul_of_nonneg_right h2 (by positivity : (0 : ℚ) ≤ 2 ^ 27)
  exact toDouble_mono _ _
    (mul_nonneg (toDouble_nonneg _ (div_nonneg h0 hc)) (by positivity)) h3

/-- A frequency beyond 32 bits is rejected by the range check of the setters,
whatever its conversion to `double` rounds to. -/
theorem floor_freqExpr_beyond (r f : Nat) (hr : 0 < r) (hr32 : r < 2 ^ 32) (hf : 2 ^ 32 ≤ f) :
    ⌊freqExpr r f⌋ > 0xFFFFFF := by
  have hk : 2 ^ 24 ≤ (2 ^ 32 - 1) * 2 ^ 29 / r := by
    rw [Nat.le_div_iff_mul_le hr]
    omega
  have h1 := floor_freqExpr_large r (2 ^ 32 - 1) hr hr32 (by norm_num) hk
  have h2 := Int.floor_le_floor (freqExpr_mono r (2 ^ 32 - 1) f (by omega))
  omega

/-- The range check of the setters passes exactly when the exact value
`f * 2^29 / r` is below `2^24`, for a reference rate of 32 bits. -/
theorem floor_freqExpr_le_iff (r f : Nat) (hr : 0 < r) (hr32 : r < 2 ^ 32) :
    ⌊freqExpr r f⌋ ≤ 0xFFFFFF ↔ f * 2 ^ 29 / r < 2 ^ 24 := by
  by_cases hf32 : f < 2 ^ 32
  · constructor
    · intro h
      by_contra hc
      have := floor_freqExpr_large r f hr hr32 hf32 (by omega)
      omega
    · intro h
      exact (floor_freqExpr_small r f hr hr32 hf32 h).2
  · have h1 := floor_freqExpr_beyond r f hr hr32 (by omega)
    have h2 : 2 ^ 24 ≤ f * 2 ^ 29 / r := by
      rw [Nat.le_div_iff_mul_le hr]
      omega
    constructor <;> intro h <;> omega

/-- At reference rate 1,213,152,727 and frequency 29,325,221 the exact value is
`12977639 - 1/r`; the binary64 quotient rounds up, and the expression is the
integer 12,977,639. -/
theorem freqExpr_rounds_up : freqExpr 1213152727 29325221 = 12977639 := by
  rw [freqExpr_eq _ _ (by norm_num) (by norm_num) (by norm_num)]
  rw [toDouble_of_binade _ 23 (by norm_num) (by norm_num)]
  rw [roundHalfEven_eq _ (12977639 * 2 ^ 29) (by norm_num) (by norm_num)]
  norm_num

/-- The value `freqHex` is the floor of the expression, capped at the
largest `long`. -/
theorem freqHex_eq (r f : Nat) :
    freqHex r f = min (⌊freqExpr r f⌋) (2 ^ 31 - 1) := by
  unfold freqHex
  rw [doubleToLong_of_nonneg _ (freqExpr_nonneg r f)]
  by_cases h : freqExpr r f ≥ 2 ^ 31
  · rw [if_pos h]
    have : (2 ^ 31 : Int) ≤ ⌊freqExpr r f⌋ := by
      apply Int.le_floor.mpr
      push_cast
      exact h
    omega
  · rw [if_neg h]
    have : ⌊freqExpr r f⌋ < (2 ^ 31 : Int) := by
      apply Int.floor_lt.mpr
      push_cast
      linarith [not_le.mp h]
    omega

/-- On a reliable transport the common body of the two frequency setters
writes the three bytes of `freqHex` when it passes the range check. -/
theorem setFrequencyWord_reliable (reg1 reg2 reg3 r f : Nat) (b : Bus) (h : b.reliable)
    (hw : ⌊freqExpr r f⌋ ≤ 0xFFFFFF) :
    setFrequencyWord reg1 reg2 reg3 r b f =
      (true, { b with
        pos := b.pos + 3,
        log := b.log ++
          [Event.tx (AD5933_ADDR <<< 1) [reg1, (⌊freqExpr r f⌋.toNat >>> 16) &&& 0xFF] true,
           Event.tx (AD5933_ADDR <<< 1) [reg2, (⌊freqExpr r f⌋.toNat >>> 8) &&& 0xFF] true,
           Event.tx (AD5933_ADDR <<< 1) [reg3, ⌊freqExpr r f⌋.toNat &&& 0xFF] true] }) := by
  have h1 : ∀ i, (b.script i).ok = true := h
  have h0 : 0 ≤ ⌊freqExpr r f⌋ := Int.floor_nonneg.mpr (freqExpr_nonneg r f)
  have e : freqHex r f = ⌊freqExpr r f⌋ := by rw [freqHex_eq]; omega
  have hn : ¬(⌊freqExpr r f⌋ > 0xFFFFFF) := by omega
  have hm : (⌊freqExpr r f⌋ % 2 ^ 32).toNat = ⌊freqExpr r f⌋.toNat := by omega
  simp only [setFrequencyWord, e, if_neg hn, hm]
  simp [andThen, sendByte, HAL_I2C_Master_Transmit, h1]

/-- The three bytes of a word below `2^24` reassemble to it. -/
theorem word_bytes (w : Nat) (hw : w ≤ 0xFFFFFF) :
    (w >>> 16) &&& 0xFF < 256 ∧ (w >>> 8) &&& 0xFF < 256 ∧ w &&& 0xFF < 256 ∧
    ((w >>> 16) &&& 0xFF) * 65536 + ((w >>> 8) &&& 0xFF) * 256 + (w &&& 0xFF) = w := by
  have e8 : ∀ x : Nat, x &&& 0xFF = x % 256 := fun x => Nat.and_pow_two_sub_one_eq_mod x 8
  rw [e8, e8, e8, Nat.shiftRight_eq_div_pow, Nat.shiftRight_eq_div_pow]
  omega

/-- C4, as the code has it.  The reference rate `r > 0` is an `unsigned long`
value (32 bits).  Whenever `setStartFrequency` returns `true` on a reliable
transport, the call writes exactly three bytes, to `START_FREQ_1` (0x82),
`START_FREQ_2` (0x83), `START_FREQ_3` (0x84) in this order, and the 24-bit
value `w` they form, most significant byte first, is the `double` quotient
`f / (r / 4)` scaled by `2^27` with the fraction discarded: nothing rounds to
the nearest integer.  Against the exact value `x = f / (r / 4) * 2^27`: `w` is
`⌊x⌋` or `⌊x⌋ + 1`; it is `⌊x⌋ + 1` only where the rounding of the quotient
reaches that integer, and then `w - x ≤ x / 2^53`; and it is `⌊x⌋` whenever
`⌊x⌋ < 2^21`.  The same holds for `setIncrementFrequency` and registers 0x85,
0x86, 0x87. -/
theorem frequency_word_is_truncated (b b1 : Bus) (r f : Nat) (hrel : b.reliable) (hr : 0 < r)
    (hr32 : r < 2 ^ 32) :
    (setStartFrequency r b f = (true, b1) →
      ∃ hi mid lo, writes b1.log = writes b.log ++ [(0x82, hi), (0x83, mid), (0x84, lo)] ∧
        hi < 256 ∧ mid < 256 ∧ lo < 256 ∧
        ((hi * 65536 + mid * 256 + lo : Nat) : Int)
          = ⌊toDouble ((f : ℚ) / ((r : ℚ) / 4)) * 2 ^ 27⌋ ∧
        ⌊(f : ℚ) / ((r : ℚ) / 4) * 2 ^ 27⌋ ≤ ((hi * 65536 + mid * 256 + lo : Nat) : Int) ∧
        ((hi * 65536 + mid * 256 + lo : Nat) : Int) ≤ ⌊(f : ℚ) / ((r : ℚ) / 4) * 2 ^ 27⌋ + 1 ∧
        (((hi * 65536 + mid * 256 + lo : Nat) : Int) = ⌊(f : ℚ) / ((r : ℚ) / 4) * 2 ^ 27⌋ + 1 →
          ((hi * 65536 + mid * 256 + lo : Nat) : ℚ) - (f : ℚ) / ((r : ℚ) / 4) * 2 ^ 27
            ≤ (f : ℚ) / ((r : ℚ) / 4) * 2 ^ 27 / 2 ^ 53) ∧
        (⌊(f : ℚ) / ((r : ℚ) / 4) * 2 ^ 27⌋ < 2 ^ 21 →
          ((hi * 65536 + mid * 256 + lo : Nat) : Int) = ⌊(f : ℚ) / ((r : ℚ) / 4) * 2 ^ 27⌋)) ∧
    (setIncrementFrequency r b f = (true, b1) →
      ∃ hi mid lo, writes b1.log = writes b.log ++ [(0x85, hi), (0x86, mid), (0x87, lo)] ∧
        hi < 256 ∧ mid < 256 ∧ lo < 256 ∧
        ((hi * 65536 + mid * 256 + lo : Nat) : Int)
          = ⌊toDouble ((f : ℚ) / ((r : ℚ) / 4)) * 2 ^ 27⌋ ∧
        ⌊(f : ℚ) / ((r : ℚ) / 4) * 2 ^ 27⌋ ≤ ((hi * 65536 + mid * 256 + lo : Nat) : Int) ∧
        ((hi * 65536 + mid * 256 + lo : Nat) : Int) ≤ ⌊(f : ℚ) / ((r : ℚ) / 4) * 2 ^ 27⌋ + 1 ∧
        (((hi * 65536 + mid * 256 + lo : Nat) : Int) = ⌊(f : ℚ) / ((r : ℚ) / 4) * 2 ^ 27⌋ + 1 →
          ((hi * 65536 + mid * 256 + lo : Nat) : ℚ) - (f : ℚ) / ((r : ℚ) / 4) * 2 ^ 27
            ≤ (f : ℚ) / ((r : ℚ) / 4) * 2 ^ 27 / 2 ^ 53) ∧
        (⌊(f : ℚ) / ((r : ℚ) / 4) * 2 ^ 27⌋ < 2 ^ 21 →
          ((hi * 65536 + mid * 256 + lo : Nat) : Int) = ⌊(f : ℚ) / ((r : ℚ) / 4) * 2 ^ 27⌋)) := by
  have key : ∀ reg1 reg2 reg3, reg1 ≠ ADDR_PTR → reg2 ≠ ADDR_PTR → reg3 ≠ ADDR_PTR →
      setFrequencyWord reg1 reg2 reg3 r b f = (true, b1) →
      ∃ hi mid lo, writes b1.log = writes b.log ++ [(reg1, hi), (reg2, mid), (reg3, lo)] ∧
        hi < 256 ∧ mid < 256 ∧ lo < 256 ∧
        ((hi * 65536 + mid * 256 + lo : Nat) : Int)
          = ⌊toDouble ((f : ℚ) / ((r : ℚ) / 4)) * 2 ^ 27⌋ ∧
        ⌊(f : ℚ) / ((r : ℚ) / 4) * 2 ^ 27⌋ ≤ ((hi * 65536 + mid * 256 + lo : Nat) : Int) ∧
        ((hi * 65536 + mid * 256 + lo : Nat) : Int) ≤ ⌊(f : ℚ) / ((r : ℚ) / 4) * 2 ^ 27⌋ + 1 ∧
        (((hi * 65536 + mid * 256 + lo : Nat) : Int) = ⌊(f : ℚ) / ((r : ℚ) / 4) * 2 ^ 27⌋ + 1 →
          ((hi * 65536 + mid * 256 + lo : Nat) : ℚ) - (f : ℚ) / ((r : ℚ) / 4) * 2 ^ 27
            ≤ (f : ℚ) / ((r : ℚ) / 4) * 2 ^ 27 / 2 ^ 53) ∧
        (⌊(f : ℚ) / ((r : ℚ) / 4) * 2 ^ 27⌋ < 2 ^ 21 →
          ((hi * 65536 + mid * 256 + lo : Nat) : Int) = ⌊(f : ℚ) / ((r : ℚ) / 4) * 2 ^ 27⌋) := by
    intro reg1 reg2 reg3 n1 n2 n3 hb
    have h0 : 0 ≤ ⌊freqExpr r f⌋ := Int.floor_nonneg.mpr (freqExpr_nonneg r f)
    have hw : ⌊freqExpr r f⌋ ≤ 0xFFFFFF := by
      by_contra hgt
      have hgt' : freqHex r f > 0xFFFFFF := by rw [freqHex_eq]; omega
      simp [setFrequencyWord, hgt'] at hb
    have hf32 : f < 2 ^ 32 := by
      by_contra hge
      have := floor_freqExpr_beyond r f hr hr32 (by omega)
      omega
    have hk : f * 2 ^ 29 / r < 2 ^ 24 := (floor_freqExpr_le_iff r f hr hr32).mp hw
    rw [setFrequencyWord_reliable reg1 reg2 reg3 r f b hrel hw] at hb
    simp only [Prod.mk.injEq, true_and] at hb
    subst hb
    obtain ⟨w1, w2, w3, w4⟩ := word_bytes ⌊freqExpr r f⌋.toNat (by omega)
    have hcast : ((⌊freqExpr r f⌋.toNat : Nat) : Int) = ⌊freqExpr r f⌋ := Int.toNat_of_nonneg h0
    have hcastq : ((⌊freqExpr r f⌋.toNat : Nat) : ℚ) = ((⌊freqExpr r f⌋ : Int) : ℚ) := by
      rw [← hcast]
      push_cast
      rfl
    refine ⟨_, _, _, ?_, w1, w2, w3, ?_⟩
    · rw [writes_append]
      simp [writes, regWrites, n1, n2, n3]
    · rw [w4, hcast, hcastq, floor_exactWord r f hr, exactWord_eq r f hr]
      refine ⟨by rw [freqExpr_quot r f hr32 hf32], ?_, ?_, ?_, ?_⟩
      · rcases (floor_freqExpr_small r f hr hr32 hf32 hk).1 with h | ⟨h, _, _⟩ <;> omega
      · rcases (floor_freqExpr_small r f hr hr32 hf32 hk).1 with h | ⟨h, _, _⟩ <;> omega
      · intro hup
        rcases (floor_freqExpr_small r f hr hr32 hf32 hk).1 with h | ⟨h, hq, _⟩
        · omega
        · rw [h]
          push_cast at hq ⊢
          exact hq
      · intro hsmall
        exact floor_freqExpr_exact r f hr hr32 hf32 (by omega)
  exact ⟨key _ _ _ (by decide) (by decide) (by decide),
    key _ _ _ (by decide) (by decide) (by decide)⟩

/-- The idle transport is reliable. -/
theorem idleBus_reliable : idleBus.reliable := fun _ => rfl

/-- A scripted transport whose listed answers all complete is reliable. -/
theorem scriptedBus_reliable (rs : List Resp) (h : ∀ r ∈ rs, r.ok = true) :
    (scriptedBus rs).reliable := by
  intro i
  simp only [scriptedBus, List.getD_eq_getElem?_getD]
  rcases hi : rs[i]? with _ | r
  · rfl
  · exact h r (List.getElem?_mem hi)

/-- The closed form of the spec's rounded word. -/
theorem FrequencyWord_eq (r f : Nat) (hr : 0 < r) :
    FrequencyWord r f = (((2 * f * 2 ^ 29 + r) / (2 * r) : Nat) : Int) := by
  have hr' : (r : ℚ) ≠ 0 := by exact_mod_cast hr.ne'
  have e : (f : ℚ) / ((r : ℚ) / 4) * 2 ^ 27 + 1 / 2
      = ((2 * f * 2 ^ 29 + r : Nat) : ℚ) / ((2 * r : Nat) : ℚ) := by
    push_cast
    field_simp
    ring
  rw [FrequencyWord, round_eq, e, Rat.floor_natCast_div_natCast]
  simp

/-- C4 fails as stated.  With the default reference rate 16,776,000 and
`f = 30000`, `setStartFrequency` succeeds on a reliable transport and writes
the bytes `0x0E, 0xA6, 0x45`, which form 960069, while
`round(f / (r/4) * 2^27)` is 960070. -/
theorem frequency_word_not_rounded :
    idleBus.reliable ∧
    (setStartFrequency clockSpeed_default idleBus 30000).1 = true ∧
    writes (setStartFrequency clockSpeed_default idleBus 30000).2.log
      = [(0x82, 0x0E), (0x83, 0xA6), (0x84, 0x45)] ∧
    (0x0E * 65536 + 0xA6 * 256 + 0x45 : Int) = 960069 ∧
    FrequencyWord clockSpeed_default 30000 = 960070 := by
  have hfl : ⌊freqExpr clockSpeed_default 30000⌋ = 960069 := by
    rw [floor_freqExpr_exact _ _ (by decide) (by decide) (by decide) (by decide)]
    decide
  refine ⟨idleBus_reliable, ?_, ?_, by decide, ?_⟩
  · rw [setStartFrequency, setFrequencyWord_reliable _ _ _ _ _ _ idleBus_reliable
      (by rw [hfl]; decide)]
  · rw [setStartFrequency, setFrequencyWord_reliable _ _ _ _ _ _ idleBus_reliable
      (by rw [hfl]; decide), hfl]
    decide
  · rw [FrequencyWord_eq _ _ (by decide)]
    decide

/-- Witness of `frequency_word_is_truncated`, at a point where the rounding of
the quotient reaches the next integer: with reference rate 1,213,152,727 and
`f = 29,325,221` the exact value is `12977639 - 1/r`, whose floor is 12977638;
both setters succeed on the idle transport and write the bytes `198, 5, 231`,
which form 12977639. -/
theorem frequency_word_is_truncated_witness :
    (idleBus.reliable ∧ 0 < 1213152727 ∧ 1213152727 < 2 ^ 32) ∧
    (∃ hi mid lo,
      writes (setStartFrequency 1213152727 idleBus 29325221).2.log
        = writes idleBus.log ++ [(0x82, hi), (0x83, mid), (0x84, lo)] ∧
      hi < 256 ∧ mid < 256 ∧ lo < 256 ∧
      ((hi * 65536 + mid * 256 + lo : Nat) : Int)
        = ⌊toDouble (((29325221 : Nat) : ℚ) / (((1213152727 : Nat) : ℚ) / 4)) * 2 ^ 27⌋ ∧
      ⌊((29325221 : Nat) : ℚ) / (((1213152727 : Nat) : ℚ) / 4) * 2 ^ 27⌋
        ≤ ((hi * 65536 + mid * 256 + lo : Nat) : Int) ∧
      ((hi * 65536 + mid * 256 + lo : Nat) : Int)
        ≤ ⌊((29325221 : Nat) : ℚ) / (((1213152727 : Nat) : ℚ) / 4) * 2 ^ 27⌋ + 1 ∧
      (((hi * 65536 + mid * 256 + lo : Nat) : Int)
          = ⌊((29325221 : Nat) : ℚ) / (((1213152727 : Nat) : ℚ) / 4) * 2 ^ 27⌋ + 1 →
        ((hi * 65536 + mid * 256 + lo : Nat) : ℚ)
            - ((29325221 : Nat) : ℚ) / (((1213152727 : Nat) : ℚ) / 4) * 2 ^ 27
          ≤ ((29325221 : Nat) : ℚ) / (((1213152727 : Nat) : ℚ) / 4) * 2 ^ 27 / 2 ^ 53) ∧
      (⌊((29325221 : Nat) : ℚ) / (((1213152727 : Nat) : ℚ) / 4) * 2 ^ 27⌋ < 2 ^ 21 →
        ((hi * 65536 + mid * 256 + lo : Nat) : Int)
          = ⌊((29325221 : Nat) : ℚ) / (((1213152727 : Nat) : ℚ) / 4) * 2 ^ 27⌋)) ∧
    writes (setStartFrequency 1213152727 idleBus 29325221).2.log
      = [(0x82, 198), (0x83, 5), (0x84, 231)] ∧
    writes (setIncrementFrequency 1213152727 idleBus 29325221).2.log
      = [(0x85, 198), (0x86, 5), (0x87, 231)] ∧
    (198 * 65536 + 5 * 256 + 231 : Int) = 12977639 ∧
    ⌊((29325221 : Nat) : ℚ) / (((1213152727 : Nat) : ℚ) / 4) * 2 ^ 27⌋ = 12977638 := by
  have hfl : ⌊freqExpr 1213152727 29325221⌋ = 12977639 := by
    rw [freqExpr_rounds_up]
    exact_mod_cast Int.floor_natCast 12977639
  have hrun := setFrequencyWord_reliable START_FREQ_1 START_FREQ_2 START_FREQ_3 1213152727
    29325221 idleBus idleBus_reliable (by rw [hfl]; decide)
  refine ⟨⟨idleBus_reliable, by decide, by decide⟩, ?_, ?_, ?_, by decide, ?_⟩
  · have h := (frequency_word_is_truncated idleBus _ 1213152727 29325221 idleBus_reliable
      (by decide) (by decide)).1 hrun
    rw [setStartFrequency, hrun]
    exact h
  · rw [setStartFrequency, setFrequencyWord_reliable _ _ _ _ _ _ idleBus_reliable
      (by rw [hfl]; decide), hfl]
    decide
  · rw [setIncrementFrequency, setFrequencyWord_reliable _ _ _ _ _ _ idleBus_reliable
      (by rw [hfl]; decide), hfl]
    decide
  · rw [floor_exactWord _ _ (by decide)]
    decide

/-- C5 fails as stated.  With reference rate 33,554,433 and `f = 1,048,576`
the exact value is `2^24 - 0.4999...`, so `round` gives `2^24 > 0xFFFFFF`, yet
`setStartFrequency` succeeds on a reliable transport (and writes
`0xFF, 0xFF, 0xFF`). -/
theorem start_frequency_accepts_rounded_overflow :
    idleBus.reliable ∧
    FrequencyWord 33554433 1048576 > 0xFFFFFF ∧
    (setStartFrequency 33554433 idleBus 1048576).1 = true ∧
    writes (setStartFrequency 33554433 idleBus 1048576).2.log
      = [(0x82, 0xFF), (0x83, 0xFF), (0x84, 0xFF)] := by
  have hsm := floor_freqExpr_small 33554433 1048576 (by decide) (by decide) (by decide)
    (by decide)
  have hk : ((1048576 * 2 ^ 29 / 33554433 : Nat) : Int) = 16777215 := by decide
  have hfl : ⌊freqExpr 33554433 1048576⌋ = 16777215 := by
    rcases hsm.1 with h | ⟨h, _, _⟩
    · rw [h, hk]
    · have := hsm.2
      omega
  refine ⟨idleBus_reliable, ?_, ?_, ?_⟩
  · rw [FrequencyWord_eq _ _ (by decide)]
    decide
  · rw [setStartFrequency, setFrequencyWord_reliable _ _ _ _ _ _ idleBus_reliable
      (by rw [hfl])]
  · rw [setStartFrequency, setFrequencyWord_reliable _ _ _ _ _ _ idleBus_reliable
      (by rw [hfl]), hfl]
    decide

/-- C5, as the code has it.  The reference rate `r > 0` is an `unsigned long`
value (32 bits), and the word is computed in `double` arithmetic.  On a
reliable transport, for every frequency `f`, `setStartFrequency` fails if and
only if the floor of `f / (r / 4) * 2^27` (exact arithmetic) exceeds
`0xFFFFFF`; and when it does, on any transport, the call returns `false` with
the bus exactly as it found it: no register write is issued. -/
theorem setStartFrequency_fails_iff (b : Bus) (r f : Nat) (hrel : b.reliable) (hr : 0 < r)
    (hr32 : r < 2 ^ 32) :
    ((setStartFrequency r b f).1 = false ↔ ⌊(f : ℚ) / ((r : ℚ) / 4) * 2 ^ 27⌋ > 0xFFFFFF) ∧
    (⌊(f : ℚ) / ((r : ℚ) / 4) * 2 ^ 27⌋ > 0xFFFFFF → setStartFrequency r b f = (false, b)) := by
  rw [floor_exactWord r f hr]
  have hiff := floor_freqExpr_le_iff r f hr hr32
  have hfail : ((f * 2 ^ 29 / r : Nat) : Int) > 0xFFFFFF →
      setStartFrequency r b f = (false, b) := by
    intro hgt
    have hl : ¬⌊freqExpr r f⌋ ≤ 0xFFFFFF := fun h => by
      have := hiff.mp h
      omega
    have hgt' : freqHex r f > 0xFFFFFF := by rw [freqHex_eq]; omega
    simp [setStartFrequency, setFrequencyWord, hgt']
  refine ⟨⟨?_, fun hgt => by rw [hfail hgt]⟩, hfail⟩
  intro hf
  by_contra hle
  rw [setStartFrequency, setFrequencyWord_reliable _ _ _ _ _ _ hrel
    (hiff.mpr (by omega))] at hf
  simp at hf

/-- Witness of `setStartFrequency_fails_iff`: with the default reference rate,
1 MHz is rejected (its word would be 32,002,319) and nothing is written. -/
theorem setStartFrequency_fails_iff_witness :
    (idleBus.reliable ∧ 0 < clockSpeed_default ∧ clockSpeed_default < 2 ^ 32) ∧
    ⌊((1000000 : Nat) : ℚ) / ((clockSpeed_default : ℚ) / 4) * 2 ^ 27⌋ > 0xFFFFFF ∧
    setStartFrequency clockSpeed_default idleBus 1000000 = (false, idleBus) := by
  have hgt : ⌊((1000000 : Nat) : ℚ) / ((clockSpeed_default : ℚ) / 4) * 2 ^ 27⌋ > 0xFFFFFF := by
    rw [floor_exactWord _ _ (by decide)]
    decide
  exact ⟨⟨idleBus_reliable, by decide, by decide⟩, hgt,
    (setStartFrequency_fails_iff idleBus clockSpeed_default 1000000 idleBus_reliable
      (by decide) (by decide)).2 hgt⟩

/-- C6 (monotonicity of the frequency word).  For a fixed reference rate
`r > 0` and frequencies `f1 ≤ f2`, the value `freqHex` that
`setStartFrequency` and `setIncrementFrequency` compute for `f1` is at most the
one they compute for `f2`: this holds of the value computed in `double`
arithmetic, and of the same expression evaluated in exact arithmetic. -/
theorem freqHex_monotone (r f1 f2 : Nat) (hr : 0 < r) (h : f1 ≤ f2) :
    freqHex r f1 ≤ freqHex r f2 ∧
    doubleToLong ((f1 : ℚ) / ((r : ℚ) / 4) * 2 ^ 27)
      ≤ doubleToLong ((f2 : ℚ) / ((r : ℚ) / 4) * 2 ^ 27) := by
  have hr' : (0 : ℚ) < (r : ℚ) := by exact_mod_cast hr
  refine ⟨doubleToLong_mono _ _ (freqExpr_nonneg r f1) (freqExpr_mono r f1 f2 h),
    doubleToLong_mono _ _ (by positivity) ?_⟩
  apply mul_le_mul_of_nonneg_right _ (by positivity)
  apply div_le_div_of_nonneg_right _ (by positivity)
  exact_mod_cast h

/-- Witness of `freqHex_monotone` at the default reference rate. -/
theorem freqHex_monotone_witness :
    (0 < clockSpeed_default ∧ 1000 ≤ 30000) ∧
    freqHex clockSpeed_default 1000 ≤ freqHex clockSpeed_default 30000 ∧
    doubleToLong (((1000 : Nat) : ℚ) / ((clockSpeed_default : ℚ) / 4) * 2 ^ 27)
      ≤ doubleToLong (((30000 : Nat) : ℚ) / ((clockSpeed_default : ℚ) / 4) * 2 ^ 27) :=
  ⟨by decide, freqHex_monotone clockSpeed_default 1000 30000 (by decide) (by decide)⟩


/-- Invariant of the sweep loop: started at counter `i`, it stores at the
consecutive indexes `i, i+1, .., i+k-1` only, all below `n`, and leaves every
other cell of the two buffers as it was. -/
theorem sweepLoop_stores (n : Int) :
    ∀ fuel i s, ∃ k,
      (sweepLoop n fuel i s).st.stored = s.stored ++ List.range' i k ∧
      (k = 0 ∨ ((i + k : Nat) : Int) ≤ n) ∧
      (∀ j, j < i ∨ i + k ≤ j →
        (sweepLoop n fuel i s).st.real j = s.real j ∧
        (sweepLoop n fuel i s).st.imag j = s.imag j) := by
  intro fuel
  induction fuel with
  | zero =>
    intro i s
    exact ⟨0, by simp [sweepLoop], Or.inl rfl, fun j _ => by simp [sweepLoop]⟩
  | succ fuel ih =>
    intro i s
    unfold sweepLoop
    simp only []
    split
    · split
      · exact ⟨0, by simp, Or.inl rfl, fun j _ => by simp⟩
      · rename_i hlt
        split
        · exact ⟨0, by simp, Or.inl rfl, fun j _ => by simp⟩
        · rename_i ok hok
          split
          · refine ⟨1, by simp, Or.inr (by push_cast; omega), ?_⟩
            intro j hj
            have hne : j ≠ i := by omega
            simp [Function.update_noteq hne]
          · obtain ⟨k, h1, h2, h3⟩ := ih (i + 1)
              { bus := (setControlMode (getComplexData fuel (readStatusRegister s.bus).2).bus
                  CTRL_INCREMENT_FREQ).2,
                real := Function.update s.real i (getComplexData fuel (readStatusRegister s.bus).2).re,
                imag := Function.update s.imag i (getComplexData fuel (readStatusRegister s.bus).2).im,
                stored := s.stored ++ [i] }
            refine ⟨k + 1, ?_, Or.inr ?_, ?_⟩
            · rw [h1]
              simp [List.range'_succ]
            · rcases h2 with h2 | h2
              · subst h2; push_cast; omega
              · push_cast at h2 ⊢; omega
            · intro j hj
              have hne : j ≠ i := by omega
              have := h3 j (by omega)
              simp only [Function.update_noteq hne] at this
              exact this
    · exact ⟨0, by simp, Or.inl rfl, fun j _ => by simp⟩

/-- C7 (`frequencySweep` never writes beyond capacity).  For every behaviour of
the device and the transport, every number of polls watched and every `n`: the
indexes at which `real[]` and `imag[]` are stored during the call are
`0, 1, .., k-1` for some `k ≤ max n 0`, each of them below `n`, and every cell
at an index from `k` on keeps its value; and when the loop counter has reached
`n` and the status read shows the sweep-done bit clear, the loop returns `false`
at once, with the buffers and the list of stored indexes unchanged. -/
theorem frequencySweep_within_capacity (fuel : Nat) (b : Bus) (real imag : Nat → Int)
    (n : Int) :
    (∃ k, (frequencySweep fuel b real imag n).st.stored = List.range k ∧
      (k : Int) ≤ max n 0 ∧
      ∀ j, k ≤ j → (frequencySweep fuel b real imag n).st.real j = real j ∧
        (frequencySweep fuel b real imag n).st.imag j = imag j) ∧
    (∀ i ∈ (frequencySweep fuel b real imag n).st.stored, 0 ≤ (i : Int) ∧ (i : Int) < n) ∧
    (∀ (i : Nat) (s : Sweep), n ≤ (i : Int) →
      (readStatusRegister s.bus).1 &&& STATUS_SWEEP_DONE ≠ STATUS_SWEEP_DONE →
      sweepLoop n (fuel + 1) i s =
        { ret := some false, st := { s with bus := (readStatusRegister s.bus).2 } }) := by
  have hmain : ∃ k, (frequencySweep fuel b real imag n).st.stored = List.range k ∧
      (k : Int) ≤ max n 0 ∧
      ∀ j, k ≤ j → (frequencySweep fuel b real imag n).st.real j = real j ∧
        (frequencySweep fuel b real imag n).st.imag j = imag j := by
    unfold frequencySweep
    simp only []
    split
    · exact ⟨0, by simp, by simp, fun j _ => by simp⟩
    · rename_i hc
      obtain ⟨k, h1, h2, h3⟩ := sweepLoop_stores n fuel 0
        { bus := (andThen (setPowerMode b POWER_STANDBY) fun b =>
            andThen (setControlMode b CTRL_INIT_START_FREQ) fun b =>
              setControlMode b CTRL_START_FREQ_SWEEP).2,
          real := real, imag := imag, stored := [] }
      refine ⟨k, ?_, ?_, ?_⟩
      · rw [h1]
        simp [List.range_eq_range']
      · rcases h2 with h2 | h2
        · subst h2; simp
        · simp only [Nat.zero_add] at h2
          exact le_trans h2 (le_max_left _ _)
      · intro j hj
        exact h3 j (Or.inr (by omega))
  refine ⟨hmain, ?_, ?_⟩
  · obtain ⟨k, h1, h2, -⟩ := hmain
    intro i hi
    rw [h1, List.mem_range] at hi
    have : (i : Int) < k := by exact_mod_cast hi
    have h0 : (0 : Int) ≤ i := Int.ofNat_nonneg i
    rcases le_or_lt n 0 with hn | hn
    · rw [max_eq_right hn] at h2; omega
    · rw [max_eq_left hn.le] at h2; omega
  · intro i s hi hst
    have hst' : ((readStatusRegister s.bus).1 &&& STATUS_SWEEP_DONE != STATUS_SWEEP_DONE)
        = true := by simpa using hst
    simp only [sweepLoop, hst', if_true]
    rw [if_pos (by exact_mod_cast hi)]

/-- Witness of `frequencySweep_within_capacity`: on the one-point script with
capacity 1 the sweep stores at index 0 only; and with the counter already at
the capacity 0 and the idle transport (status 0: sweep-done clear) the loop
returns `false` without storing. -/
theorem frequencySweep_within_capacity_witness :
    (frequencySweep 3 (scriptedBus (onePointScript (rOk 0) 0 100 0 0)) (fun _ => 7)
      (fun _ => 7) 1).st.stored = [0] ∧
    (∀ i ∈ (frequencySweep 3 (scriptedBus (onePointScript (rOk 0) 0 100 0 0)) (fun _ => 7)
      (fun _ => 7) 1).st.stored, 0 ≤ (i : Int) ∧ (i : Int) < 1) ∧
    ((0 : Int) ≤ ((0 : Nat) : Int) ∧
      (readStatusRegister idleBus).1 &&& STATUS_SWEEP_DONE ≠ STATUS_SWEEP_DONE ∧
      (sweepLoop 0 (3 + 1) 0
        { bus := idleBus, real := fun _ => 7, imag := fun _ => 7, stored := [] }).ret
          = some false ∧
      (sweepLoop 0 (3 + 1) 0
        { bus := idleBus, real := fun _ => 7, imag := fun _ => 7, stored := [] }).st.stored
          = []) := by
  have h1 := frequencySweep_within_capacity 3 (scriptedBus (onePointScript (rOk 0) 0 100 0 0))
    (fun _ => 7) (fun _ => 7) 1
  have h2 := (frequencySweep_within_capacity 3 idleBus (fun _ => 7) (fun _ => 7) 0).2.2 0
    { bus := idleBus, real := fun _ => 7, imag := fun _ => 7, stored := [] }
    (by decide) (by decide)
  refine ⟨by decide, h1.2.1, by decide, by decide, ?_, ?_⟩
  · rw [h2]
  · rw [h2]

/-- C8 does not hold of the code.  Two runs of `frequencySweep` in which a
transfer fails at the transport and the call still returns `true`: in the
first the register write of the increment-frequency command fails (its result
is dropped); in the second the first status read fails, `readRegister` turns
the failure into `STATUS_ERROR = 0xFF`, whose sweep-done bit is set, and the
loop is left as if the sweep were complete. -/
theorem frequencySweep_true_despite_failure :
    ((frequencySweep 3 (scriptedBus (onePointScript rFail 0 100 0 0)) (fun _ => 7)
        (fun _ => 7) 1).ret = some true ∧
      Event.tx (AD5933_ADDR <<< 1) [CTRL_REG1, CTRL_INCREMENT_FREQ] false ∈
        (frequencySweep 3 (scriptedBus (onePointScript rFail 0 100 0 0)) (fun _ => 7)
          (fun _ => 7) 1).st.bus.log) ∧
    ((frequencySweep 3 (scriptedBus statusFailScript) (fun _ => 7) (fun _ => 7) 1).ret
        = some true ∧
      Event.tx (AD5933_ADDR <<< 1) [ADDR_PTR, STATUS_REG] false ∈
        (frequencySweep 3 (scriptedBus statusFailScript) (fun _ => 7) (fun _ => 7) 1).st.bus.log) := by
  decide

/-- What `getTemperature` computes when bit 5 of the high byte is set: the mask
`0x1FFF` drops that bit before 16384 is subtracted, so the result is 256 degrees
below `(v - 16384) / 32`, where `v` is the low 14 bits of the word. -/
theorem tempDecode_negative (hi lo : Nat) (hh : hi < 256) (hl : lo < 256)
    (hs : hi &&& (1 <<< 5) ≠ 0) :
    tempDecode hi lo = ((((hi * 256 + lo) % 16384 : Nat) : ℚ) - 16384) / 32 - 256 := by
  have e1 : (hi <<< 8) ||| lo = hi * 256 + lo := by
    rw [Nat.shiftLeft_eq]
    have : hi * 2 ^ 8 = 2 ^ 8 * hi := by ring
    rw [this, ← Nat.mul_add_lt_is_or (by simpa using hl)]
    ring
  have e2 : ∀ x : Nat, x &&& 0x1FFF = x % 8192 := fun x => Nat.and_pow_two_sub_one_eq_mod x 13
  have e3 : hi / 32 % 2 = 1 := by
    have h5 : hi &&& (1 <<< 5) = 2 ^ 5 * (hi / 2 ^ 5 % 2) := by
      interval_cases hi <;> rfl
    rw [h5] at hs
    have : hi / 2 ^ 5 % 2 < 2 := Nat.mod_lt _ (by norm_num)
    norm_num at hs ⊢
    omega
  have e4 : (hi * 256 + lo) % 16384 = (hi * 256 + lo) % 8192 + 8192 := by omega
  unfold tempDecode
  simp only [if_neg hs, e1, e2, e4, Int.ofNat_eq_coe]
  generalize (hi * 256 + lo) % 8192 = x
  push_cast
  ring

/-- C9 does not hold of the code.  With the data bytes `0x3E, 0x80`, whose low
14 bits are 16000 and whose sign bit is set, `getTemperature` returns -268,
where `(16000 - 16384) / 32` is -12. -/
theorem getTemperature_negative_reading :
    (0x3E &&& (1 <<< 5) ≠ 0 ∧ (0x3E * 256 + 0x80) % 16384 = 16000) ∧
    (getTemperature 1 (scriptedBus (temperatureScript 0x3E 0x80))).1 = some (-268) ∧
    ((16000 : ℚ) - 16384) / 32 = -12 := by
  refine ⟨by decide, ?_, by norm_num⟩
  have h : (getTemperature 1 (scriptedBus (temperatureScript 0x3E 0x80))).1
      = some (tempDecode 0x3E 0x80) := rfl
  rw [h, tempDecode_negative 0x3E 0x80 (by decide) (by decide) (by decide)]
  norm_num


/-- After a successful sweep `calibrate` fills entry `i` of `phase[]`, for
`i < n`, from the sample at `i`. -/
theorem calLoop_phase {F : Type} [LinearOrderedField F] (m : LibM F) (real imag : Nat → Int)
    (ref n : Int) (gain : Nat → Dbl F) (phase : Nat → F) (i : Nat) (hi : (i : Int) < n) :
    (calLoop m real imag ref n gain phase).2 i = phaseOf m (real i) (imag i) ∧
    (calLoop m real imag ref n gain phase).1 i = gainOf m ref (real i) (imag i) := by
  unfold calLoop
  have hin : i < n.toNat := by omega
  generalize n.toNat = k at hin
  induction k with
  | zero => omega
  | succ k ih =>
    rw [List.range_succ, List.foldl_append]
    simp only [List.foldl_cons, List.foldl_nil]
    by_cases hik : i = k
    · subst hik
      simp
    · have hlt : i < k := by omega
      simp only [Function.update_noteq hik]
      exact ih hlt

/-- The phase line of `calibrate` over the reals, with `atan2` the
two-argument arctangent: for a sample on the positive real axis the result is
0, for one on the positive imaginary axis it is `90 * π / 3.1415`, for one on
the negative real axis it is `180 * π / 3.1415`. -/
theorem phaseOf_axes (s : Real → Real) :
    phaseOf (F := Real) { sqrt := s, atan2 := fun y x => Complex.arg ⟨x, y⟩ } 100 0 = 0 ∧
    phaseOf (F := Real) { sqrt := s, atan2 := fun y x => Complex.arg ⟨x, y⟩ } 0 100
      = 90 * (Real.pi / 3.1415) ∧
    phaseOf (F := Real) { sqrt := s, atan2 := fun y x => Complex.arg ⟨x, y⟩ } (-100) 0
      = 180 * (Real.pi / 3.1415) := by
  have h1 : Complex.arg ⟨100, 0⟩ = 0 := by
    have : (⟨100, 0⟩ : ℂ) = ((100 : ℝ) : ℂ) := by apply Complex.ext <;> simp
    rw [this, Complex.arg_ofReal_of_nonneg (by norm_num)]
  have h2 : Complex.arg ⟨0, 100⟩ = Real.pi / 2 := by
    have : (⟨0, 100⟩ : ℂ) = ((100 : ℝ) : ℂ) * Complex.I := by apply Complex.ext <;> simp
    rw [this, Complex.arg_real_mul _ (by norm_num), Complex.arg_I]
  have h3 : Complex.arg ⟨-100, 0⟩ = Real.pi := by
    have : (⟨-100, 0⟩ : ℂ) = ((-100 : ℝ) : ℂ) := by apply Complex.ext <;> simp
    rw [this, Complex.arg_ofReal_of_neg (by norm_num)]
  refine ⟨?_, ?_, ?_⟩
  · simp only [phaseOf]
    norm_num [h1]
  · simp only [phaseOf]
    norm_num [h2]
    ring
  · simp only [phaseOf]
    norm_num [h3]
    ring

/-- C10 does not hold of the code.  Three runs of `calibrate` over the reals,
each a successful sweep of one point on a reliable transport: for the sample
`(re = 100, im = 0)` the phase stored is 0; for `(re = 0, im = 100)` it is
`90 * π / 3.1415`, which is above 90; for `(re = -100, im = 0)` it is
`180 * π / 3.1415`, which is above 180.  The code divides by the literal
`3.1415` where the conversion to degrees divides by `π`. -/
theorem calibrate_phase_not_exact :
    ((calibrate (F := Real) { sqrt := Real.sqrt, atan2 := fun y x => Complex.arg ⟨x, y⟩ } 3
        (scriptedBus (onePointScript (rOk 0) 0x00 0x64 0x00 0x00)) (fun _ => 7) (fun _ => 7)
        (fun _ => Dbl.fin 0) (fun _ => 0) 1000 1).ret = some true ∧
      (calibrate (F := Real) { sqrt := Real.sqrt, atan2 := fun y x => Complex.arg ⟨x, y⟩ } 3
        (scriptedBus (onePointScript (rOk 0) 0x00 0x64 0x00 0x00)) (fun _ => 7) (fun _ => 7)
        (fun _ => Dbl.fin 0) (fun _ => 0) 1000 1).phase 0 = 0) ∧
    ((calibrate (F := Real) { sqrt := Real.sqrt, atan2 := fun y x => Complex.arg ⟨x, y⟩ } 3
        (scriptedBus (onePointScript (rOk 0) 0x00 0x00 0x00 0x64)) (fun _ => 7) (fun _ => 7)
        (fun _ => Dbl.fin 0) (fun _ => 0) 1000 1).ret = some true ∧
      (calibrate (F := Real) { sqrt := Real.sqrt, atan2 := fun y x => Complex.arg ⟨x, y⟩ } 3
        (scriptedBus (onePointScript (rOk 0) 0x00 0x00 0x00 0x64)) (fun _ => 7) (fun _ => 7)
        (fun _ => Dbl.fin 0) (fun _ => 0) 1000 1).phase 0 = 90 * (Real.pi / 3.1415) ∧
      (90 : Real) < 90 * (Real.pi / 3.1415)) ∧
    ((calibrate (F := Real) { sqrt := Real.sqrt, atan2 := fun y x => Complex.arg ⟨x, y⟩ } 3
        (scriptedBus (onePointScript (rOk 0) 0xFF 0x9C 0x00 0x00)) (fun _ => 7) (fun _ => 7)
        (fun _ => Dbl.fin 0) (fun _ => 0) 1000 1).ret = some true ∧
      (calibrate (F := Real) { sqrt := Real.sqrt, atan2 := fun y x => Complex.arg ⟨x, y⟩ } 3
        (scriptedBus (onePointScript (rOk 0) 0xFF 0x9C 0x00 0x00)) (fun _ => 7) (fun _ => 7)
        (fun _ => Dbl.fin 0) (fun _ => 0) 1000 1).phase 0 = 180 * (Real.pi / 3.1415) ∧
      (180 : Real) < 180 * (Real.pi / 3.1415)) := by
  obtain ⟨p1, p2, p3⟩ := phaseOf_axes Real.sqrt
  have hpi : (1 : Real) < Real.pi / 3.1415 := by
    rw [lt_div_iff₀ (by norm_num)]
    linarith [Real.pi_gt_d4]
  refine ⟨⟨rfl, ?_⟩, ⟨rfl, ?_, by linarith⟩, ⟨rfl, ?_, by linarith⟩⟩
  · exact Eq.trans rfl p1
  · exact Eq.trans rfl p2
  · exact Eq.trans rfl p3

/-- C11 (`setNumberIncrements`).  For every `n > 511` the call returns `false`
and leaves the bus exactly as it found it, on any transport: no register write
is issued.  For every `n ≤ 511` on a reliable transport it returns `true` and
writes exactly two bytes, to `NUM_INC_1` (0x88) then `NUM_INC_2` (0x89); the
high byte is 0 or 1, and the value `high * 256 + low` is `n`. -/
theorem setNumberIncrements_spec (b : Bus) (n : Nat) :
    (n > 511 → setNumberIncrements b n = (false, b)) ∧
    (n ≤ 511 → b.reliable →
      ∃ hi lo, (setNumberIncrements b n).1 = true ∧
        writes (setNumberIncrements b n).2.log = writes b.log ++ [(0x88, hi), (0x89, lo)] ∧
        hi ≤ 1 ∧ lo < 256 ∧ hi * 256 + lo = n) := by
  constructor
  · intro h
    simp [setNumberIncrements, h]
  · intro h hrel
    have h1 : ∀ i, (b.script i).ok = true := hrel
    have hn : ¬n > 511 := by omega
    have e8 : ∀ x : Nat, x &&& 0xFF = x % 256 := fun x => Nat.and_pow_two_sub_one_eq_mod x 8
    refine ⟨(n >>> 8) &&& 0xFF, n &&& 0xFF, ?_, ?_, ?_, ?_, ?_⟩
    · simp [setNumberIncrements, hn, andThen, sendByte, HAL_I2C_Master_Transmit, h1]
    · simp only [setNumberIncrements, if_neg hn]
      simp only [andThen, sendByte, HAL_I2C_Master_Transmit, h1, if_true]
      rw [writes_append, writes_append]
      simp [writes, regWrites, NUM_INC_1, NUM_INC_2, ADDR_PTR]
    · rw [e8, Nat.shiftRight_eq_div_pow]; omega
    · rw [e8]; omega
    · rw [e8, e8, Nat.shiftRight_eq_div_pow]; omega

/-- Witness of `setNumberIncrements_spec`: 512 is rejected with nothing
written, and 300 is written as the bytes 1 and 44 on the idle transport. -/
theorem setNumberIncrements_spec_witness :
    (512 > 511 ∧ setNumberIncrements idleBus 512 = (false, idleBus)) ∧
    (300 ≤ 511 ∧ idleBus.reliable ∧
      writes (setNumberIncrements idleBus 300).2.log = [(0x88, 1), (0x89, 44)] ∧
      ∃ hi lo, (setNumberIncrements idleBus 300).1 = true ∧
        writes (setNumberIncrements idleBus 300).2.log
          = writes idleBus.log ++ [(0x88, hi), (0x89, lo)] ∧
        hi ≤ 1 ∧ lo < 256 ∧ hi * 256 + lo = 300) :=
  ⟨⟨by decide, (setNumberIncrements_spec idleBus 512).1 (by decide)⟩,
    by decide, idleBus_reliable, by decide,
    (setNumberIncrements_spec idleBus 300).2 (by decide) idleBus_reliable⟩

/-- C13 does not hold of the code.  The input `0x0800` has a bit above bit 10
set, so it is not a 9-bit count with a 2-bit multiplier code; on a transport that
reads back what was written, `setSettlingCycles` accepts it and writes the
bytes `0x08` and `0x00`.  The same happens for 600, a count that does not fit
9 bits: it is taken as count 88 with multiplier code 1. -/
theorem setSettlingCycles_accepts_wide_input :
    ((setSettlingCycles (scriptedBus (readBackScript 0x08 0x00)) 0x0800).1 = true ∧
      writes (setSettlingCycles (scriptedBus (readBackScript 0x08 0x00)) 0x0800).2.log
        = [(0x8A, 0x08), (0x8B, 0x00)]) ∧
    ((setSettlingCycles (scriptedBus (readBackScript 0x02 0x58)) 600).1 = true ∧
      writes (setSettlingCycles (scriptedBus (readBackScript 0x02 0x58)) 600).2.log
        = [(0x8A, 0x02), (0x8B, 0x58)]) := by
  decide

end AD5933

namespace Si5351

/-- C15 does not hold of the code.  In a run of `init` where the power-down
write to register 16 (or to register 23) fails at the transport and every other
transfer completes, `init` returns `true`: the results of the eight power-down
writes are dropped. -/
theorem init_true_despite_failure :
    ((init (scriptedBus (powerDownFailScript 0))).1 = true ∧
      Event.tx SI5351_ADDRESS [16, 0x80] false ∈ (init (scriptedBus (powerDownFailScript 0))).2.log) ∧
    ((init (scriptedBus (powerDownFailScript 7))).1 = true ∧
      Event.tx SI5351_ADDRESS [23, 0x80] false ∈ (init (scriptedBus (powerDownFailScript 7))).2.log) := by
  decide

/-- The divider check after the search, against the 900 MHz PLL, accepts
exactly the frequencies from 3432 Hz to 225 MHz. -/
theorem msSearch_accepts_iff (f : Nat) (hf : 1 ≤ f) :
    ∃ a r, msSearch 900000000 f = some (a, r) ∧
      ((4 ≤ a ∧ a ≤ 2048) ↔ (3432 ≤ f ∧ f ≤ 225000000)) := by
  obtain ⟨r, e, h7, hmin, hfin⟩ := msSearch_spec 900000000 f (by norm_num) hf
  refine ⟨_, r, e, ?_⟩
  have hq : ∀ j, 900000000 / (f * 2 ^ j) = 900000000 / f / 2 ^ j := fun j =>
    (Nat.div_div_eq_div_mul _ _ _).symm
  have h4 : 4 ≤ 900000000 / f ↔ f ≤ 225000000 := by
    rw [Nat.le_div_iff_mul_le hf]; omega
  have h2048 : 900000000 / f < 262272 ↔ 3432 ≤ f := by
    rw [Nat.div_lt_iff_lt_mul hf]; omega
  have hmin' : ∀ j, j < r → 2048 < 900000000 / f / 2 ^ j := fun j hj => by
    rw [← hq]; exact hmin j hj
  rw [hq] at hfin ⊢
  generalize 900000000 / f = q at *
  rcases Nat.eq_zero_or_pos r with h0 | hpos
  · subst h0
    simp only [pow_zero, Nat.div_one] at *
    omega
  · have hp := hmin' (r - 1) (by omega)
    interval_cases r <;> norm_num at hp hfin ⊢ <;> omega

/-- C19 (realizable frequency range).  On a reliable transport, for every
output index at most 7 and every frequency of at least 1 Hz, `set_freq`
returns (no division by zero occurs), and it returns `true` if and only if the
frequency lies between 3432 Hz and 225,000,000 Hz. -/
theorem set_freq_accepts_iff (b : Bus) (k f : Nat) (hrel : b.reliable) (hk : k ≤ 7)
    (hf : 1 ≤ f) :
    ∃ ok b1, set_freq b k f = some (ok, b1) ∧
      (ok = true ↔ (3432 ≤ f ∧ f ≤ 225000000)) := by
  obtain ⟨a, r, e, hiff⟩ := msSearch_accepts_iff f hf
  have hk' : ¬k > 7 := by omega
  have h1 : ∀ i, (b.script i).ok = true := hrel
  by_cases hin : 4 ≤ a ∧ a ≤ 2048
  · have hr : ¬(a < 4 ∨ a > 2048) := by omega
    refine ⟨true, (sendByte (msWrite b k a r).2 SI5351_REG_177_PLL_RESET 0xAC).2, ?_,
      by simpa using hiff.mp hin⟩
    simp only [set_freq, set_ms, if_neg hk', e, if_neg hr, msWrite_reliable b hrel]
    simp [sendByte, HAL_I2C_Master_Transmit, h1]
  · have hr : a < 4 ∨ a > 2048 := by omega
    refine ⟨false, b, ?_, ?_⟩
    · simp [set_freq, set_ms, hk', e, hr]
    · constructor
      · intro h; cases h
      · intro h; exact absurd (hiff.mpr h) hin

/-- Witness of `set_freq_accepts_iff`: on the idle transport 3432 Hz and
225 MHz are accepted, 3431 Hz and 225,000,001 Hz are not. -/
theorem set_freq_accepts_iff_witness :
    (idleBus.reliable ∧ 0 ≤ 7 ∧ 1 ≤ 3432) ∧
    (∃ ok b1, set_freq idleBus 0 3432 = some (ok, b1) ∧
      (ok = true ↔ (3432 ≤ 3432 ∧ 3432 ≤ 225000000))) ∧
    (∃ b1, set_freq idleBus 0 3432 = some (true, b1)) ∧
    (∃ b1, set_freq idleBus 0 225000000 = some (true, b1)) ∧
    set_freq idleBus 0 3431 = some (false, idleBus) ∧
    set_freq idleBus 0 225000001 = some (false, idleBus) :=
  ⟨⟨fun _ => rfl, by decide, by decide⟩,
    set_freq_accepts_iff idleBus 0 3432 (fun _ => rfl) (by decide) (by decide),
    ⟨_, rfl⟩, ⟨_, rfl⟩, rfl, rfl⟩

end Si5351

/-- Bit `j` of the all-ones 32-bit mask. -/
theorem mask32 (j : Nat) : Nat.testBit 0xFFFFFFFF j = decide (j < 32) := by
  have : (0xFFFFFFFF : Nat) = 2 ^ 32 - 1 := by norm_num
  rw [this, Nat.testBit_two_pow_sub_one]

/-- Bit `j` of `1 << k`. -/
theorem one_shl_testBit (k j : Nat) : (1 <<< k).testBit j = decide (j = k) := by
  rw [Nat.one_shiftLeft, Nat.testBit_two_pow]
  simp [eq_comm]

/-- The byte left by `reg_val &= ~(1 << k)`: bit `k` cleared, the others kept. -/
theorem clr_bits (v k j : Nat) (hk : k ≤ 7) (hv : v < 256) :
    ((v &&& (0xFFFFFFFF ^^^ (1 <<< k))) % 256).testBit j = (v.testBit j && !decide (j = k)) := by
  have h256 : (256 : Nat) = 2 ^ 8 := by norm_num
  rw [h256, Nat.testBit_mod_two_pow, Nat.testBit_and, Nat.testBit_xor, mask32, one_shl_testBit]
  by_cases hj : j < 8
  · have : j < 32 := by omega
    by_cases hjk : j = k
    · subst hjk; simp [hj, this]
    · simp [hj, this, hjk]
  · have hvj : v.testBit j = false := Nat.testBit_lt_two_pow (lt_of_lt_of_le (h256 ▸ hv) (Nat.pow_le_pow_right (by norm_num) (by omega)))
    simp [hj, hvj]

/-- The byte left by `reg_val |= (1 << k)`: bit `k` set, the others kept. -/
theorem set_bits (v k j : Nat) (hk : k ≤ 7) (hv : v < 256) :
    ((v ||| (1 <<< k)) % 256).testBit j = (v.testBit j || decide (j = k)) := by
  have h256 : (256 : Nat) = 2 ^ 8 := by norm_num
  rw [h256, Nat.testBit_mod_two_pow, Nat.testBit_or, one_shl_testBit]
  by_cases hj : j < 8
  · simp [hj]
  · have hvj : v.testBit j = false := Nat.testBit_lt_two_pow (lt_of_lt_of_le (h256 ▸ hv) (Nat.pow_le_pow_right (by norm_num) (by omega)))
    have hjk : j ≠ k := by omega
    simp [hj, hvj, hjk]

namespace Si5351

/-- On a reliable transport `readByte` delivers the byte the device returns. -/
theorem readByte_reliable (b : Bus) (h : b.reliable) (reg : Nat) :
    readByte b reg =
      (some ((b.script (b.pos + 1)).val % 256),
       { b with
         pos := b.pos + 2,
         log := b.log ++ [Event.tx SI5351_ADDRESS [reg] true,
           Event.rx SI5351_ADDRESS ((b.script (b.pos + 1)).val % 256) true] }) := by
  have h1 : ∀ i, (b.script i).ok = true := h
  simp [readByte, HAL_I2C_Master_Transmit, HAL_I2C_Master_Receive, h1]

/-- The byte `enable_output` writes back for the byte `v` it read. -/
theorem enable_output_reliable (b : Bus) (h : b.reliable) (k : Nat) (hk : k ≤ 7)
    (enable : Bool) :
    enable_output b k enable =
      (true,
       { b with
         pos := b.pos + 3,
         log := b.log ++ [Event.tx SI5351_ADDRESS [3] true,
           Event.rx SI5351_ADDRESS ((b.script (b.pos + 1)).val % 256) true,
           Event.tx SI5351_ADDRESS
             [3, if enable then
                   ((b.script (b.pos + 1)).val % 256 &&& (0xFFFFFFFF ^^^ (1 <<< k))) % 256
                 else ((b.script (b.pos + 1)).val % 256 ||| (1 <<< k)) % 256] true] }) := by
  have h1 : ∀ i, (b.script i).ok = true := h
  have hk' : ¬k > 7 := by omega
  simp only [enable_output, if_neg hk', readByte_reliable b h]
  simp [sendByte, HAL_I2C_Master_Transmit, h1, SI5351_REG_3_OUTPUT_ENABLE]

/-- C16 (`enable_output` is an active-low read-modify-write of register 3).
For an output index `k > 7` the call returns `false` with the bus exactly as it
found it (nothing read, nothing written).  For `k ≤ 7` on a reliable transport,
with `v` the byte read from register 3: the call makes one read of register 3
and one write to it and returns `true`; the byte `w` written has bit `k` equal
to 0 when `enable` is true and to 1 when it is false, and every other bit equal
to that bit of `v`; and a further call with the same arguments that reads `w`
writes `w` again. -/
theorem enable_output_spec (b : Bus) (k : Nat) (enable : Bool) :
    (k > 7 → enable_output b k enable = (false, b)) ∧
    (k ≤ 7 → b.reliable →
      ∃ w, enable_output b k enable =
          (true,
           { b with
             pos := b.pos + 3,
             log := b.log ++ [Event.tx SI5351_ADDRESS [3] true,
               Event.rx SI5351_ADDRESS ((b.script (b.pos + 1)).val % 256) true,
               Event.tx SI5351_ADDRESS [3, w] true] }) ∧
        w < 256 ∧ w.testBit k = !enable ∧
        (∀ j, j ≠ k → w.testBit j = ((b.script (b.pos + 1)).val % 256).testBit j) ∧
        (∀ b2 : Bus, b2.reliable → (b2.script (b2.pos + 1)).val % 256 = w →
          regAfter (regWrites SI5351_ADDRESS (enable_output b2 k enable).2.log) 3 = some w)) := by
  constructor
  · intro hk
    simp [enable_output, hk]
  · intro hk hrel
    have hv : (b.script (b.pos + 1)).val % 256 < 256 := Nat.mod_lt _ (by norm_num)
    generalize hvdef : (b.script (b.pos + 1)).val % 256 = v at hv
    have hbits : ∀ x, x < 256 → ∀ j,
        (if enable then (x &&& (0xFFFFFFFF ^^^ (1 <<< k))) % 256
          else (x ||| (1 <<< k)) % 256).testBit j
        = if j = k then !enable else x.testBit j := by
      intro x hx j
      cases enable
      · simp only [Bool.false_eq_true, if_false, set_bits x k j hk hx]
        by_cases hjk : j = k <;> simp [hjk]
      · simp only [if_true, clr_bits x k j hk hx]
        by_cases hjk : j = k <;> simp [hjk]
    have hw : (if enable then (v &&& (0xFFFFFFFF ^^^ (1 <<< k))) % 256
        else (v ||| (1 <<< k)) % 256) < 256 := by
      split <;> exact Nat.mod_lt _ (by norm_num)
    refine ⟨_, by rw [enable_output_reliable b hrel k hk, hvdef], hw, ?_, ?_, ?_⟩
    · rw [hbits v hv k, if_pos rfl]
    · intro j hj
      rw [hbits v hv j, if_neg hj]
    · intro b2 hrel2 hread
      rw [enable_output_reliable b2 hrel2 k hk, hread, regWrites_append, regAfter_append]
      have hidem : (if enable then
            ((if enable then (v &&& (0xFFFFFFFF ^^^ (1 <<< k))) % 256
              else (v ||| (1 <<< k)) % 256) &&& (0xFFFFFFFF ^^^ (1 <<< k))) % 256
          else ((if enable then (v &&& (0xFFFFFFFF ^^^ (1 <<< k))) % 256
              else (v ||| (1 <<< k)) % 256) ||| (1 <<< k)) % 256)
          = (if enable then (v &&& (0xFFFFFFFF ^^^ (1 <<< k))) % 256
              else (v ||| (1 <<< k)) % 256) := by
        apply Nat.eq_of_testBit_eq
        intro j
        rw [hbits _ hw j, hbits v hv j]
        by_cases hjk : j = k <;> simp [hjk]
      rw [hidem]
      simp [regWrites, regAfter, SI5351_ADDRESS]

/-- Witness of `enable_output_spec`: output 9 is rejected with nothing
transferred; on the idle transport, where register 3 reads 0, disabling output
2 writes `0x04`. -/
theorem enable_output_spec_witness :
    (9 > 7 ∧ enable_output idleBus 9 true = (false, idleBus)) ∧
    (2 ≤ 7 ∧ idleBus.reliable ∧
      regAfter (regWrites SI5351_ADDRESS (enable_output idleBus 2 false).2.log) 3 = some 0x04 ∧
      ∃ w, enable_output idleBus 2 false =
          (true,
           { idleBus with
             pos := idleBus.pos + 3,
             log := idleBus.log ++ [Event.tx SI5351_ADDRESS [3] true,
               Event.rx SI5351_ADDRESS ((idleBus.script (idleBus.pos + 1)).val % 256) true,
               Event.tx SI5351_ADDRESS [3, w] true] }) ∧
        w < 256 ∧ w.testBit 2 = !false) := by
  obtain ⟨w, h1, h2, h3, -, -⟩ := (enable_output_spec idleBus 2 false).2 (by decide)
    (fun _ => rfl)
  exact ⟨⟨by decide, (enable_output_spec idleBus 9 true).1 (by decide)⟩,
    by decide, fun _ => rfl, by decide, w, h1, h2, h3⟩

end Si5351

namespace AD5933

/-- On a reliable transport `getByte` delivers the byte the device returns. -/
theorem getByte_reliable (b : Bus) (h : b.reliable) (address : Nat) :
    getByte b address =
      (some ((b.script (b.pos + 1)).val % 256),
       { b with
         pos := b.pos + 2,
         log := b.log ++ [Event.tx (AD5933_ADDR <<< 1) [ADDR_PTR, address] true,
           Event.rx ((AD5933_ADDR <<< 1) ||| 1) ((b.script (b.pos + 1)).val % 256) true] }) := by
  have h1 : ∀ i, (b.script i).ok = true := h
  simp [getByte, HAL_I2C_Master_Transmit, HAL_I2C_Master_Receive, h1]

/-- On a reliable transport `setControlMode` reads `CTRL_REG1` and writes back
the byte read with its high nibble replaced. -/
theorem setControlMode_reliable (b : Bus) (h : b.reliable) (mode : Nat) :
    setControlMode b mode =
      (true,
       { b with
         pos := b.pos + 3,
         log := b.log ++ [Event.tx (AD5933_ADDR <<< 1) [ADDR_PTR, CTRL_REG1] true,
           Event.rx ((AD5933_ADDR <<< 1) ||| 1) ((b.script (b.pos + 1)).val % 256) true,
           Event.tx (AD5933_ADDR <<< 1)
             [CTRL_REG1, ((((b.script (b.pos + 1)).val % 256) &&& 0x0F) ||| mode) % 256] true] }) := by
  have h1 : ∀ i, (b.script i).ok = true := h
  simp only [setControlMode, getByte_reliable b h]
  simp [sendByte, HAL_I2C_Master_Transmit, h1]

/-- The byte `setControlMode` writes for a mode with a zero low nibble. -/
theorem mode_bits (v mode : Nat) (hm : mode < 256) (hlow : mode % 16 = 0) :
    ((v &&& 0x0F) ||| mode) % 256 = (v &&& 0x0F) ||| mode ∧
    ((v &&& 0x0F) ||| mode) &&& 0x0F = v &&& 0x0F ∧
    ((v &&& 0x0F) ||| mode) &&& 0xF0 = mode := by
  have e4 : ∀ x : Nat, x &&& 0x0F = x % 16 := fun x => Nat.and_pow_two_sub_one_eq_mod x 4
  have hor : (v &&& 0x0F) ||| mode = mode + v % 16 := by
    have hm' : mode = 2 ^ 4 * (mode / 16) := by omega
    have hlt : v % 16 < 2 ^ 4 := Nat.mod_lt _ (by norm_num)
    rw [e4, Nat.or_comm]
    conv_lhs => rw [hm']
    rw [← Nat.mul_add_lt_is_or hlt]
    omega
  have hhi : ∀ x : Nat, x < 256 → x &&& 0xF0 = x - x % 16 := by
    intro x hx
    interval_cases x <;> rfl
  refine ⟨?_, ?_, ?_⟩
  · rw [hor]; omega
  · rw [e4, hor, e4]; omega
  · rw [hor, hhi _ (by omega)]; omega

set_option maxRecDepth 100000 in
/-- The bytes `setPGAGain` and `setRange` write for the byte `v` they read. -/
theorem gain_range_bits : ∀ v < 256,
    ((v &&& 0xFE) ||| 1) &&& 0xFE = v &&& 0xFE ∧ ((v &&& 0xFE) ||| 1) &&& 0x01 = 1 ∧
    ((v &&& 0xFE) ||| 0) &&& 0xFE = v &&& 0xFE ∧ ((v &&& 0xFE) ||| 0) &&& 0x01 = 0 ∧
    (∀ code ∈ [0b000, 0b110, 0b100, 0b010],
      ((v &&& 0xF9) ||| code) &&& 0xF9 = v &&& 0xF9 ∧ ((v &&& 0xF9) ||| code) &&& 0x06 = code) := by
  decide

/-- C17 (control-register mutators preserve unrelated bits).  On a reliable
transport, with `v` the byte read from `CTRL_REG1` (0x80):
`setControlMode(mode)` with a mode whose low nibble is zero writes
`(v & 0x0F) | mode`, whose bits 3:0 are those of `v` and whose bits 7:4 are the
mode; `setPGAGain` with gain x1 (argument 1) writes a byte equal to `v` on bits
7:1 with bit 0 set, and with gain x5 (argument 0 or 5) one with bit 0 clear;
`setRange` with one of the four range codes writes a byte equal to `v` on every
bit except bits 2:1, which hold the code.  Each call makes one read and one
write of `CTRL_REG1` and returns `true`. -/
theorem control_register_mutators (b : Bus) (hrel : b.reliable) :
    (∀ mode, mode < 256 → mode % 16 = 0 →
      ∃ w, setControlMode b mode =
          (true,
           { b with
             pos := b.pos + 3,
             log := b.log ++ [Event.tx (AD5933_ADDR <<< 1) [ADDR_PTR, 0x80] true,
               Event.rx ((AD5933_ADDR <<< 1) ||| 1) ((b.script (b.pos + 1)).val % 256) true,
               Event.tx (AD5933_ADDR <<< 1) [0x80, w] true] }) ∧
        w = (((b.script (b.pos + 1)).val % 256) &&& 0x0F) ||| mode ∧
        w &&& 0x0F = ((b.script (b.pos + 1)).val % 256) &&& 0x0F ∧ w &&& 0xF0 = mode) ∧
    (∀ gain, gain = 1 ∨ gain = 0 ∨ gain = 5 →
      ∃ w, setPGAGain b gain =
          (true,
           { b with
             pos := b.pos + 3,
             log := b.log ++ [Event.tx (AD5933_ADDR <<< 1) [ADDR_PTR, 0x80] true,
               Event.rx ((AD5933_ADDR <<< 1) ||| 1) ((b.script (b.pos + 1)).val % 256) true,
               Event.tx (AD5933_ADDR <<< 1) [0x80, w] true] }) ∧
        w &&& 0xFE = ((b.script (b.pos + 1)).val % 256) &&& 0xFE ∧
        w &&& 0x01 = (if gain = 1 then 1 else 0)) ∧
    (∀ range, range ∈ [CTRL_OUTPUT_RANGE_1, CTRL_OUTPUT_RANGE_2, CTRL_OUTPUT_RANGE_3,
        CTRL_OUTPUT_RANGE_4] →
      ∃ w, setRange b range =
          (true,
           { b with
             pos := b.pos + 3,
             log := b.log ++ [Event.tx (AD5933_ADDR <<< 1) [ADDR_PTR, 0x80] true,
               Event.rx ((AD5933_ADDR <<< 1) ||| 1) ((b.script (b.pos + 1)).val % 256) true,
               Event.tx (AD5933_ADDR <<< 1) [0x80, w] true] }) ∧
        w &&& 0xF9 = ((b.script (b.pos + 1)).val % 256) &&& 0xF9 ∧ w &&& 0x06 = range) := by
  have h1 : ∀ i, (b.script i).ok = true := hrel
  have hv : (b.script (b.pos + 1)).val % 256 < 256 := Nat.mod_lt _ (by norm_num)
  obtain ⟨g1, g2, g3, g4, g5⟩ := gain_range_bits _ hv
  refine ⟨?_, ?_, ?_⟩
  · intro mode hm hlow
    obtain ⟨m1, m2, m3⟩ := mode_bits ((b.script (b.pos + 1)).val % 256) mode hm hlow
    refine ⟨_, ?_, rfl, m2, m3⟩
    rw [setControlMode_reliable b hrel, m1]
    rfl
  · intro gain hg
    rcases hg with rfl | rfl | rfl
    · refine ⟨_, ?_, g1, g2⟩
      simp only [setPGAGain, getByte_reliable b hrel]
      simp [sendByte, HAL_I2C_Master_Transmit, h1, PGA_GAIN_X1, CTRL_PGA_GAIN_X1, CTRL_REG1]
    · refine ⟨_, ?_, g3, g4⟩
      simp only [setPGAGain, getByte_reliable b hrel]
      simp [sendByte, HAL_I2C_Master_Transmit, h1, PGA_GAIN_X1, CTRL_PGA_GAIN_X1, PGA_GAIN_X5,
        CTRL_PGA_GAIN_X5, CTRL_REG1]
    · refine ⟨_, ?_, g3, g4⟩
      simp only [setPGAGain, getByte_reliable b hrel]
      simp [sendByte, HAL_I2C_Master_Transmit, h1, PGA_GAIN_X1, CTRL_PGA_GAIN_X1, PGA_GAIN_X5,
        CTRL_PGA_GAIN_X5, CTRL_REG1]
  · intro range hr
    simp only [List.mem_cons, List.mem_singleton, List.not_mem_nil, or_false] at hr
    rcases hr with rfl | rfl | rfl | rfl
    · refine ⟨_, ?_, (g5 0b000 (by decide)).1, (g5 0b000 (by decide)).2⟩
      simp only [setRange, getByte_reliable b hrel]
      simp [sendByte, HAL_I2C_Master_Transmit, h1, CTRL_OUTPUT_RANGE_1, CTRL_OUTPUT_RANGE_2,
        CTRL_OUTPUT_RANGE_3, CTRL_OUTPUT_RANGE_4, CTRL_REG1]
    · refine ⟨_, ?_, (g5 0b110 (by decide)).1, (g5 0b110 (by decide)).2⟩
      simp only [setRange, getByte_reliable b hrel]
      simp [sendByte, HAL_I2C_Master_Transmit, h1, CTRL_OUTPUT_RANGE_1, CTRL_OUTPUT_RANGE_2,
        CTRL_OUTPUT_RANGE_3, CTRL_OUTPUT_RANGE_4, CTRL_REG1]
    · refine ⟨_, ?_, (g5 0b100 (by decide)).1, (g5 0b100 (by decide)).2⟩
      simp only [setRange, getByte_reliable b hrel]
      simp [sendByte, HAL_I2C_Master_Transmit, h1, CTRL_OUTPUT_RANGE_1, CTRL_OUTPUT_RANGE_2,
        CTRL_OUTPUT_RANGE_3, CTRL_OUTPUT_RANGE_4, CTRL_REG1]
    · refine ⟨_, ?_, (g5 0b010 (by decide)).1, (g5 0b010 (by decide)).2⟩
      simp only [setRange, getByte_reliable b hrel]
      simp [sendByte, HAL_I2C_Master_Transmit, h1, CTRL_OUTPUT_RANGE_1, CTRL_OUTPUT_RANGE_2,
        CTRL_OUTPUT_RANGE_3, CTRL_OUTPUT_RANGE_4, CTRL_REG1]

/-- Witness of `control_register_mutators`: on a reliable transport where
`CTRL_REG1` reads `0x5B`, standby mode writes `0xBB`, gain x1 writes `0x5B`,
gain x5 writes `0x5A`, and range code `0b100` writes `0x5D`. -/
theorem control_register_mutators_witness :
    (scriptedBus [rOk 0, rOk 0x5B]).reliable ∧
    (0xB0 < 256 ∧ 0xB0 % 16 = 0 ∧
      writes (setControlMode (scriptedBus [rOk 0, rOk 0x5B]) 0xB0).2.log = [(0x80, 0xBB)] ∧
      ∃ w, (setControlMode (scriptedBus [rOk 0, rOk 0x5B]) 0xB0).1 = true ∧
        w &&& 0x0F = 0x5B &&& 0x0F ∧ w &&& 0xF0 = 0xB0) ∧
    (writes (setPGAGain (scriptedBus [rOk 0, rOk 0x5B]) 1).2.log = [(0x80, 0x5B)] ∧
      writes (setPGAGain (scriptedBus [rOk 0, rOk 0x5B]) 5).2.log = [(0x80, 0x5A)] ∧
      ∃ w, (setPGAGain (scriptedBus [rOk 0, rOk 0x5B]) 5).1 = true ∧
        w &&& 0xFE = 0x5B &&& 0xFE ∧ w &&& 0x01 = 0) ∧
    (writes (setRange (scriptedBus [rOk 0, rOk 0x5B]) 0b100).2.log = [(0x80, 0x5D)] ∧
      ∃ w, (setRange (scriptedBus [rOk 0, rOk 0x5B]) 0b100).1 = true ∧
        w &&& 0xF9 = 0x5B &&& 0xF9 ∧ w &&& 0x06 = 0b100) := by
  have hrel : (scriptedBus [rOk 0, rOk 0x5B]).reliable :=
    scriptedBus_reliable _ (by decide)
  have h := control_register_mutators (scriptedBus [rOk 0, rOk 0x5B]) hrel
  obtain ⟨w1, e1, -, a1, a2⟩ := h.1 0xB0 (by decide) (by decide)
  obtain ⟨w2, e2, b1, b2⟩ := h.2.1 5 (by decide)
  obtain ⟨w3, e3, c1, c2⟩ := h.2.2 0b100 (by decide)
  exact ⟨hrel, ⟨by decide, by decide, by decide, w1, by rw [e1], a1, a2⟩,
    ⟨by decide, by decide, w2, by rw [e2], b1, b2⟩,
    ⟨by decide, w3, by rw [e3], c1, c2⟩⟩

/-- The cast to `int16_t` of two bytes: the two's-complement value of the
16-bit word `hi * 256 + lo`. -/
theorem toInt16_eq (hi lo : Nat) (hh : hi < 256) (hl : lo < 256) :
    toInt16 hi lo =
      (if hi * 256 + lo < 32768 then ((hi * 256 + lo : Nat) : Int)
       else ((hi * 256 + lo : Nat) : Int) - 65536) ∧
    -32768 ≤ toInt16 hi lo ∧ toInt16 hi lo ≤ 32767 := by
  have e1 : (hi <<< 8) ||| lo = hi * 256 + lo := by
    rw [Nat.shiftLeft_eq]
    have : hi * 2 ^ 8 = 2 ^ 8 * hi := by ring
    rw [this, ← Nat.mul_add_lt_is_or (by simpa using hl)]
    ring
  have e2 : ∀ x : Nat, x &&& 0xFFFF = x % 65536 := fun x => Nat.and_pow_two_sub_one_eq_mod x 16
  have e3 : (hi * 256 + lo) % 65536 = hi * 256 + lo := Nat.mod_eq_of_lt (by omega)
  unfold toInt16
  simp only [e1, e2, e3]
  split_ifs <;> omega

/-- C14 (`getComplexData`: decoding and sentinel).  Once the busy-wait has
ended (the data-valid bit was observed), with `p` the number of transfers made
so far: if the eight transfers of the four data-byte reads all complete, the
call returns `true` and stores the two's-complement 16-bit value of
`REAL_DATA_1 * 256 + REAL_DATA_2` as `real` and that of
`IMAG_DATA_1 * 256 + IMAG_DATA_2` as `imag`, each within `[-32768, 32767]`; if
any of them fails, the call returns `false` and stores -1 in both. -/
theorem getComplexData_spec (fuel : Nat) (b b1 : Bus)
    (hw : waitStatus STATUS_DATA_VALID fuel b = (true, b1)) :
    ((∀ j, j < 8 → (b1.script (b1.pos + j)).ok = true) →
      (getComplexData fuel b).ret = some true ∧
      (getComplexData fuel b).re =
        (if (b1.script (b1.pos + 1)).val % 256 * 256 + (b1.script (b1.pos + 3)).val % 256 < 32768
         then (((b1.script (b1.pos + 1)).val % 256 * 256
                + (b1.script (b1.pos + 3)).val % 256 : Nat) : Int)
         else (((b1.script (b1.pos + 1)).val % 256 * 256
                + (b1.script (b1.pos + 3)).val % 256 : Nat) : Int) - 65536) ∧
      (getComplexData fuel b).im =
        (if (b1.script (b1.pos + 5)).val % 256 * 256 + (b1.script (b1.pos + 7)).val % 256 < 32768
         then (((b1.script (b1.pos + 5)).val % 256 * 256
                + (b1.script (b1.pos + 7)).val % 256 : Nat) : Int)
         else (((b1.script (b1.pos + 5)).val % 256 * 256
                + (b1.script (b1.pos + 7)).val % 256 : Nat) : Int) - 65536) ∧
      -32768 ≤ (getComplexData fuel b).re ∧ (getComplexData fuel b).re ≤ 32767 ∧
      -32768 ≤ (getComplexData fuel b).im ∧ (getComplexData fuel b).im ≤ 32767) ∧
    (¬(∀ j, j < 8 → (b1.script (b1.pos + j)).ok = true) →
      (getComplexData fuel b).ret = some false ∧
      (getComplexData fuel b).re = -1 ∧ (getComplexData fuel b).im = -1) := by
  have hm : ∀ x : Nat, x % 256 < 256 := fun x => Nat.mod_lt _ (by norm_num)
  constructor
  · intro hok
    have k0 := hok 0 (by norm_num)
    have k1 := hok 1 (by norm_num)
    have k2 := hok 2 (by norm_num)
    have k3 := hok 3 (by norm_num)
    have k4 := hok 4 (by norm_num)
    have k5 := hok 5 (by norm_num)
    have k6 := hok 6 (by norm_num)
    have k7 := hok 7 (by norm_num)
    simp only [Nat.add_zero] at k0
    obtain ⟨r1, r2, r3⟩ := toInt16_eq _ _ (hm (b1.script (b1.pos + 1)).val)
      (hm (b1.script (b1.pos + 3)).val)
    obtain ⟨i1, i2, i3⟩ := toInt16_eq _ _ (hm (b1.script (b1.pos + 5)).val)
      (hm (b1.script (b1.pos + 7)).val)
    have e : getComplexData fuel b =
        { ret := some true,
          re := toInt16 ((b1.script (b1.pos + 1)).val % 256) ((b1.script (b1.pos + 3)).val % 256),
          im := toInt16 ((b1.script (b1.pos + 5)).val % 256) ((b1.script (b1.pos + 7)).val % 256),
          bus := (getComplexData fuel b).bus } := by
      simp [getComplexData, hw, getByte, HAL_I2C_Master_Transmit, HAL_I2C_Master_Receive,
        k0, k1, k2, k3, k4, k5, k6, k7, Nat.add_assoc]
    rw [e]
    exact ⟨rfl, r1, i1, r2, r3, i2, i3⟩
  · intro hnot
    by_cases k0 : (b1.script b1.pos).ok = true
    swap
    · simp [getComplexData, hw, getByte, HAL_I2C_Master_Transmit, k0]
    by_cases k1 : (b1.script (b1.pos + 1)).ok = true
    swap
    · simp [getComplexData, hw, getByte, HAL_I2C_Master_Transmit, HAL_I2C_Master_Receive, k0, k1]
    by_cases k2 : (b1.script (b1.pos + 2)).ok = true
    swap
    · simp [getComplexData, hw, getByte, HAL_I2C_Master_Transmit, HAL_I2C_Master_Receive, k0, k1,
        k2, Nat.add_assoc]
    by_cases k3 : (b1.script (b1.pos + 3)).ok = true
    swap
    · simp [getComplexData, hw, getByte, HAL_I2C_Master_Transmit, HAL_I2C_Master_Receive, k0, k1,
        k2, k3, Nat.add_assoc]
    by_cases k4 : (b1.script (b1.pos + 4)).ok = true
    swap
    · simp [getComplexData, hw, getByte, HAL_I2C_Master_Transmit, HAL_I2C_Master_Receive, k0, k1,
        k2, k3, k4, Nat.add_assoc]
    by_cases k5 : (b1.script (b1.pos + 5)).ok = true
    swap
    · simp [getComplexData, hw, getByte, HAL_I2C_Master_Transmit, HAL_I2C_Master_Receive, k0, k1,
        k2, k3, k4, k5, Nat.add_assoc]
    by_cases k6 : (b1.script (b1.pos + 6)).ok = true
    swap
    · simp [getComplexData, hw, getByte, HAL_I2C_Master_Transmit, HAL_I2C_Master_Receive, k0, k1,
        k2, k3, k4, k5, k6, Nat.add_assoc]
    by_cases k7 : (b1.script (b1.pos + 7)).ok = true
    swap
    · simp [getComplexData, hw, getByte, HAL_I2C_Master_Transmit, HAL_I2C_Master_Receive, k0, k1,
        k2, k3, k4, k5, k6, k7, Nat.add_assoc]
    exfalso
    apply hnot
    intro j hj
    interval_cases j
    · simpa using k0
    all_goals assumption

/-- Witness of `getComplexData_spec`: the data bytes `0xFF, 0x9C, 0x00, 0x64`
are returned as `real = -100`, `imag = 100`; when the read of `REAL_DATA_2`
fails both outputs are -1. -/
theorem getComplexData_spec_witness :
    ((waitStatus STATUS_DATA_VALID 1 (scriptedBus (complexDataScript 0xFF 0x9C 0x00 0x64))).1
        = true ∧
      (getComplexData 1 (scriptedBus (complexDataScript 0xFF 0x9C 0x00 0x64))).ret = some true ∧
      (getComplexData 1 (scriptedBus (complexDataScript 0xFF 0x9C 0x00 0x64))).re = -100 ∧
      (getComplexData 1 (scriptedBus (complexDataScript 0xFF 0x9C 0x00 0x64))).im = 100) ∧
    ((waitStatus STATUS_DATA_VALID 1 (scriptedBus complexDataFailScript)).1 = true ∧
      (getComplexData 1 (scriptedBus complexDataFailScript)).ret = some false ∧
      (getComplexData 1 (scriptedBus complexDataFailScript)).re = -1 ∧
      (getComplexData 1 (scriptedBus complexDataFailScript)).im = -1) := by
  have h1 := (getComplexData_spec 1 (scriptedBus (complexDataScript 0xFF 0x9C 0x00 0x64)) _
    (Prod.ext (by decide) rfl)).1 (by decide)
  have h2 := (getComplexData_spec 1 (scriptedBus complexDataFailScript) _
    (Prod.ext (by decide) rfl)).2 (by decide)
  exact ⟨⟨by decide, h1.1, by decide, by decide⟩, by decide, h2.1, h2.2.1, h2.2.2⟩

/-- The fields `setSettlingCycles` extracts from the bit pattern of its
argument: the two bytes, the value `cycles` (never above `0xFF`), and the
multiplier code `val` (bits 10:9). -/
theorem settle_fields (bits : Nat) :
    bits &&& 0xFF = bits % 256 ∧ (bits >>> 8) &&& 0xFF = bits / 256 % 256 ∧
    (bits % 256) ||| ((bits / 256 % 256) &&& 0x1) ≤ 0xFF ∧
    (((bits / 256 % 256) &&& 0x7) >>> 1) % 256 = bits / 512 % 4 := by
  have e8 : ∀ x : Nat, x &&& 0xFF = x % 256 := fun x => Nat.and_pow_two_sub_one_eq_mod x 8
  have e3 : ∀ x : Nat, x &&& 0x7 = x % 8 := fun x => Nat.and_pow_two_sub_one_eq_mod x 3
  have e1 : ∀ x : Nat, x &&& 0x1 = x % 2 := fun x => Nat.and_pow_two_sub_one_eq_mod x 1
  refine ⟨e8 _, by rw [e8, Nat.shiftRight_eq_div_pow], ?_, ?_⟩
  · have h : (bits % 256) ||| ((bits / 256 % 256) &&& 0x1) < 2 ^ 8 :=
      Nat.or_lt_two_pow (by omega) (by rw [e1]; omega)
    omega
  · rw [e3, Nat.shiftRight_eq_div_pow]
    omega

/-- A run of `setSettlingCycles` on an input that passes validation and in
which the two writes and the two read-backs complete: the result is `true`
exactly when both bytes read back equal the bytes written, and the bus has seen
the two writes and the two reads, nothing else. -/
theorem setSettlingCycles_run (b : Bus) (time : Int) (bits : Nat)
    (hbits : (time % 2 ^ 32).toNat = bits) (hvalid : bits / 512 % 4 ≠ 2)
    (hok : ∀ j, j < 6 → (b.script (b.pos + j)).ok = true) :
    setSettlingCycles b time =
      (decide ((b.script (b.pos + 5)).val % 256 = bits % 256 ∧
          (b.script (b.pos + 3)).val % 256 = bits / 256 % 256),
       { b with
         pos := b.pos + 6,
         log := b.log ++
           [Event.tx (AD5933_ADDR <<< 1) [0x8A, bits / 256 % 256] true,
            Event.tx (AD5933_ADDR <<< 1) [0x8B, bits % 256] true,
            Event.tx (AD5933_ADDR <<< 1) [ADDR_PTR, 0x8A] true,
            Event.rx ((AD5933_ADDR <<< 1) ||| 1) ((b.script (b.pos + 3)).val % 256) true,
            Event.tx (AD5933_ADDR <<< 1) [ADDR_PTR, 0x8B] true,
            Event.rx ((AD5933_ADDR <<< 1) ||| 1) ((b.script (b.pos + 5)).val % 256) true] }) := by
  obtain ⟨f0, f1, f2, f3⟩ := settle_fields bits
  have k0 := hok 0 (by norm_num)
  have k1 := hok 1 (by norm_num)
  have k2 := hok 2 (by norm_num)
  have k3 := hok 3 (by norm_num)
  have k4 := hok 4 (by norm_num)
  have k5 := hok 5 (by norm_num)
  simp only [Nat.add_zero] at k0
  have hv : ¬(bits % 256 ||| bits / 256 % 256 &&& 0x1 > 0x1FF ∨
      ¬(bits / 512 % 4 = 0 ∨ bits / 512 % 4 = 1 ∨ bits / 512 % 4 = 3)) := by
    have : bits / 512 % 4 < 4 := Nat.mod_lt _ (by norm_num)
    omega
  simp only [setSettlingCycles, hbits, f0, f1, f3, if_neg hv]
  by_cases heq : (b.script (b.pos + 5)).val % 256 = bits % 256 ∧
      (b.script (b.pos + 3)).val % 256 = bits / 256 % 256
  · simp [sendByte, getByte, HAL_I2C_Master_Transmit, HAL_I2C_Master_Receive, k0, k1, k2, k3,
      k4, k5, Nat.add_assoc, heq, NUM_SCYCLES_1, NUM_SCYCLES_2]
  · have heq' : ¬(bits % 256 = (b.script (b.pos + 5)).val % 256 ∧
        bits / 256 % 256 = (b.script (b.pos + 3)).val % 256) := by
      intro h; exact heq ⟨h.1.symm, h.2.symm⟩
    simp [sendByte, getByte, HAL_I2C_Master_Transmit, HAL_I2C_Master_Receive, k0, k1, k2, k3,
      k4, k5, Nat.add_assoc, heq, heq', NUM_SCYCLES_1, NUM_SCYCLES_2]

/-- C12 (settling cycles: write, then verify once).  For every input that
passes validation (bits 10:9 of its bit pattern are not `0b10`): if the two
writes and the two read-backs complete, the call makes exactly these six
transfers (write `NUM_SCYCLES_1`, write `NUM_SCYCLES_2`, read `NUM_SCYCLES_1`,
read `NUM_SCYCLES_2`; no second write, no second read) and returns `true`
exactly when both bytes read back equal the bytes written, `false` when either
differs; and on any transport it returns `true` only when all six transfers
completed and both bytes read back equal the bytes written. -/
theorem setSettlingCycles_verifies_once (b : Bus) (time : Int) (bits : Nat)
    (hbits : (time % 2 ^ 32).toNat = bits) (hvalid : bits / 512 % 4 ≠ 2) :
    ((∀ j, j < 6 → (b.script (b.pos + j)).ok = true) →
      setSettlingCycles b time =
        (decide ((b.script (b.pos + 5)).val % 256 = bits % 256 ∧
            (b.script (b.pos + 3)).val % 256 = bits / 256 % 256),
         { b with
           pos := b.pos + 6,
           log := b.log ++
             [Event.tx (AD5933_ADDR <<< 1) [0x8A, bits / 256 % 256] true,
              Event.tx (AD5933_ADDR <<< 1) [0x8B, bits % 256] true,
              Event.tx (AD5933_ADDR <<< 1) [ADDR_PTR, 0x8A] true,
              Event.rx ((AD5933_ADDR <<< 1) ||| 1) ((b.script (b.pos + 3)).val % 256) true,
              Event.tx (AD5933_ADDR <<< 1) [ADDR_PTR, 0x8B] true,
              Event.rx ((AD5933_ADDR <<< 1) ||| 1) ((b.script (b.pos + 5)).val % 256) true] })) ∧
    ((setSettlingCycles b time).1 = true →
      (∀ j, j < 6 → (b.script (b.pos + j)).ok = true) ∧
      (b.script (b.pos + 5)).val % 256 = bits % 256 ∧
      (b.script (b.pos + 3)).val % 256 = bits / 256 % 256) := by
  refine ⟨setSettlingCycles_run b time bits hbits hvalid, ?_⟩
  intro htrue
  by_cases hall : ∀ j, j < 6 → (b.script (b.pos + j)).ok = true
  · rw [setSettlingCycles_run b time bits hbits hvalid hall] at htrue
    exact ⟨hall, by simpa using htrue⟩
  · exfalso
    obtain ⟨f0, f1, f2, f3⟩ := settle_fields bits
    have hv : ¬(bits % 256 ||| bits / 256 % 256 &&& 0x1 > 0x1FF ∨
        ¬(bits / 512 % 4 = 0 ∨ bits / 512 % 4 = 1 ∨ bits / 512 % 4 = 3)) := by
      have : bits / 512 % 4 < 4 := Nat.mod_lt _ (by norm_num)
      omega
    simp only [setSettlingCycles, hbits, f0, f1, f3, if_neg hv] at htrue
    by_cases k0 : (b.script b.pos).ok = true
    swap
    · simp [sendByte, HAL_I2C_Master_Transmit, k0] at htrue
    by_cases k1 : (b.script (b.pos + 1)).ok = true
    swap
    · simp [sendByte, HAL_I2C_Master_Transmit, k0, k1] at htrue
    by_cases k2 : (b.script (b.pos + 2)).ok = true
    swap
    · simp [sendByte, getByte, HAL_I2C_Master_Transmit, k0, k1, k2, Nat.add_assoc] at htrue
    by_cases k3 : (b.script (b.pos + 3)).ok = true
    swap
    · simp [sendByte, getByte, HAL_I2C_Master_Transmit, HAL_I2C_Master_Receive, k0, k1, k2, k3,
        Nat.add_assoc] at htrue
    by_cases k4 : (b.script (b.pos + 4)).ok = true
    swap
    · simp [sendByte, getByte, HAL_I2C_Master_Transmit, HAL_I2C_Master_Receive, k0, k1, k2, k3,
        k4, Nat.add_assoc] at htrue
    by_cases k5 : (b.script (b.pos + 5)).ok = true
    swap
    · simp [sendByte, getByte, HAL_I2C_Master_Transmit, HAL_I2C_Master_Receive, k0, k1, k2, k3,
        k4, k5, Nat.add_assoc] at htrue
    apply hall
    intro j hj
    interval_cases j
    · simpa using k0
    all_goals assumption

/-- Witness of `setSettlingCycles_verifies_once`: for the input `0x012C`, when
`NUM_SCYCLES_2` reads back `0x2D` instead of `0x2C` the call returns `false`
after its two writes; when both bytes read back as written it returns `true`. -/
theorem setSettlingCycles_verifies_once_witness :
    (((0x012C : Int) % 2 ^ 32).toNat = 0x012C ∧ 0x012C / 512 % 4 ≠ 2) ∧
    ((∀ j, j < 6 →
        ((scriptedBus (readBackScript 0x01 0x2D)).script
          ((scriptedBus (readBackScript 0x01 0x2D)).pos + j)).ok = true) ∧
      (setSettlingCycles (scriptedBus (readBackScript 0x01 0x2D)) 0x012C).1 = false ∧
      writes (setSettlingCycles (scriptedBus (readBackScript 0x01 0x2D)) 0x012C).2.log
        = [(0x8A, 0x01), (0x8B, 0x2C)]) ∧
    ((setSettlingCycles (scriptedBus (readBackScript 0x01 0x2C)) 0x012C).1 = true ∧
      (∀ j, j < 6 →
        ((scriptedBus (readBackScript 0x01 0x2C)).script
          ((scriptedBus (readBackScript 0x01 0x2C)).pos + j)).ok = true)) := by
  have h1 := (setSettlingCycles_verifies_once (scriptedBus (readBackScript 0x01 0x2D)) 0x012C
    0x012C (by decide) (by decide)).1 (by decide)
  have h2 := (setSettlingCycles_verifies_once (scriptedBus (readBackScript 0x01 0x2C)) 0x012C
    0x012C (by decide) (by decide)).2 (by decide)
  refine ⟨by decide, ⟨by decide, ?_, ?_⟩, by decide, h2.1⟩
  · rw [h1]; decide
  · rw [h1]; decide

/-- C20 (exact acceptance condition of `setSettlingCycles`).  On a reliable
transport whose read-backs return the bytes written, for every `int` input with
bit pattern `bits`: the call returns `true` if and only if bits 10:9 are not
`0b10`; the value `cycles = (time & 0xFF) | ((time >> 8) & 1)` is at most
`0xFF`, so the check `cycles > 0x1FF` rejects nothing; an accepted input has
the whole byte `(time >> 8) & 0xFF`, bits above bit 10 included, written to
`NUM_SCYCLES_1` (0x8A) and `time & 0xFF` written to `NUM_SCYCLES_2` (0x8B); a
rejected input leaves the bus exactly as it was. -/
theorem setSettlingCycles_accepts_iff (b : Bus) (time : Int) (bits : Nat)
    (hbits : (time % 2 ^ 32).toNat = bits) (hrel : b.reliable)
    (hecho : (b.script (b.pos + 3)).val % 256 = (bits >>> 8) &&& 0xFF ∧
      (b.script (b.pos + 5)).val % 256 = bits &&& 0xFF) :
    ((setSettlingCycles b time).1 = true ↔ bits / 512 % 4 ≠ 2) ∧
    (bits &&& 0xFF) ||| (((bits >>> 8) &&& 0xFF) &&& 0x1) ≤ 0xFF ∧
    (bits / 512 % 4 ≠ 2 →
      writes (setSettlingCycles b time).2.log
        = writes b.log ++ [(0x8A, (bits >>> 8) &&& 0xFF), (0x8B, bits &&& 0xFF)]) ∧
    (bits / 512 % 4 = 2 → setSettlingCycles b time = (false, b)) := by
  obtain ⟨f0, f1, f2, f3⟩ := settle_fields bits
  rw [f0, f1] at hecho ⊢
  have hok : ∀ j, j < 6 → (b.script (b.pos + j)).ok = true := fun j _ => hrel _
  have hrej : bits / 512 % 4 = 2 → setSettlingCycles b time = (false, b) := by
    intro h2
    have hv : bits % 256 ||| bits / 256 % 256 &&& 0x1 > 0x1FF ∨
        ¬(bits / 512 % 4 = 0 ∨ bits / 512 % 4 = 1 ∨ bits / 512 % 4 = 3) := Or.inr (by omega)
    simp only [setSettlingCycles, hbits, f0, f1, f3, if_pos hv]
  refine ⟨⟨?_, ?_⟩, f2, ?_, hrej⟩
  · intro htrue h2
    rw [hrej h2] at htrue
    cases htrue
  · intro hvalid
    rw [setSettlingCycles_run b time bits hbits hvalid hok]
    simp [hecho.1, hecho.2]
  · intro hvalid
    rw [setSettlingCycles_run b time bits hbits hvalid hok, writes_append]
    simp [writes, regWrites, ADDR_PTR]

/-- Witness of `setSettlingCycles_accepts_iff`: the input `0x0800`, whose bit
11 is set, is accepted and its byte `0x08` is written to `NUM_SCYCLES_1`; the
input `0x0400`, whose bits 10:9 are `0b10`, is rejected with nothing written. -/
theorem setSettlingCycles_accepts_iff_witness :
    ((((0x0800 : Int) % 2 ^ 32).toNat = 0x0800 ∧
        (scriptedBus (readBackScript 0x08 0x00)).reliable ∧ 0x0800 / 512 % 4 ≠ 2) ∧
      (setSettlingCycles (scriptedBus (readBackScript 0x08 0x00)) 0x0800).1 = true ∧
      writes (setSettlingCycles (scriptedBus (readBackScript 0x08 0x00)) 0x0800).2.log
        = writes (scriptedBus (readBackScript 0x08 0x00)).log
          ++ [(0x8A, (0x0800 >>> 8) &&& 0xFF), (0x8B, 0x0800 &&& 0xFF)] ∧
      (0x0800 >>> 8) &&& 0xFF = 0x08) ∧
    ((((0x0400 : Int) % 2 ^ 32).toNat = 0x0400 ∧ 0x0400 / 512 % 4 = 2) ∧
      setSettlingCycles (scriptedBus (readBackScript 0x04 0x00)) 0x0400
        = (false, scriptedBus (readBackScript 0x04 0x00))) := by
  have hr1 : (scriptedBus (readBackScript 0x08 0x00)).reliable :=
    scriptedBus_reliable _ (by decide)
  have hr2 : (scriptedBus (readBackScript 0x04 0x00)).reliable :=
    scriptedBus_reliable _ (by decide)
  have h1 := setSettlingCycles_accepts_iff (scriptedBus (readBackScript 0x08 0x00)) 0x0800
    0x0800 (by decide) hr1 (by decide)
  have h2 := setSettlingCycles_accepts_iff (scriptedBus (readBackScript 0x04 0x00)) 0x0400
    0x0400 (by decide) hr2 (by decide)
  exact ⟨⟨⟨by decide, hr1, by decide⟩, h1.1.mpr (by decide), h1.2.2.1 (by decide), by decide⟩,
    ⟨by decide, by decide⟩, h2.2.2.2 (by decide)⟩

/-- The modes commanded in an extended log. -/
theorem ctrlModes_append (l1 l2 : List Event) :
    ctrlModes (l1 ++ l2) = ctrlModes l1 ++ ctrlModes l2 := by
  simp [ctrlModes, writes_append]

/-- A segment without sample reads passes the scan in any context. -/
theorem guardedFrom_of_noSample (l : List Event) (h : ∀ e ∈ l, isSampleRead e = false) :
    ∀ q2 q1, guardedFrom q2 q1 l = true := by
  induction l with
  | nil => intro q2 q1; rfl
  | cons e es ih =>
    intro q2 q1
    have he := h e (List.mem_cons_self _ _)
    have hes := ih (fun x hx => h x (List.mem_cons_of_mem _ hx))
    simp [guardedFrom, he, hes]

/-- A log that passes the scan still passes it when extended by a segment
that passes it in any context. -/
theorem guardedFrom_append (l1 l2 : List Event) (h2 : ∀ q2 q1, guardedFrom q2 q1 l2 = true) :
    ∀ q2 q1, guardedFrom q2 q1 l1 = true → guardedFrom q2 q1 (l1 ++ l2) = true := by
  induction l1 with
  | nil => intro q2 q1 _; exact h2 q2 q1
  | cons e es ih =>
    intro q2 q1 h1
    simp only [guardedFrom, List.cons_append, Bool.and_eq_true] at h1 ⊢
    exact ⟨h1.1, ih _ _ h1.2⟩

/-- On a reliable transport `readStatusRegister` delivers the status byte. -/
theorem readStatusRegister_reliable (b : Bus) (h : b.reliable) :
    readStatusRegister b =
      ((b.script (b.pos + 1)).val % 256,
       { b with
         pos := b.pos + 2,
         log := b.log ++ [Event.tx (AD5933_ADDR <<< 1) [ADDR_PTR, STATUS_REG] true,
           Event.rx ((AD5933_ADDR <<< 1) ||| 1) ((b.script (b.pos + 1)).val % 256) true] }) := by
  simp only [readStatusRegister, readRegister, getByte_reliable b h]

/-- On a reliable transport a busy-wait that ends leaves a log made of status
reads only, the last of which shows the awaited bits. -/
theorem waitStatus_reliable (mask : Nat) :
    ∀ fuel (b : Bus), b.reliable → (waitStatus mask fuel b).1 = true →
      ∃ seg v, (waitStatus mask fuel b).2.script = b.script ∧
        (waitStatus mask fuel b).2.log = b.log ++ (seg ++
          [Event.tx (AD5933_ADDR <<< 1) [ADDR_PTR, STATUS_REG] true,
           Event.rx ((AD5933_ADDR <<< 1) ||| 1) v true]) ∧
        v &&& mask = mask ∧ (∀ e ∈ seg, isSampleRead e = false) ∧ writes seg = [] := by
  intro fuel
  induction fuel with
  | zero =>
    intro b _ h
    simp [waitStatus] at h
  | succ fuel ih =>
    intro b hrel h
    simp only [waitStatus, readStatusRegister_reliable b hrel] at h ⊢
    by_cases hv : ((b.script (b.pos + 1)).val % 256 &&& mask != mask) = true
    · simp only [hv, if_true] at h ⊢
      obtain ⟨seg, v, e1, e2, e3, e4, e5⟩ := ih
        { b with
          pos := b.pos + 2,
          log := b.log ++ [Event.tx (AD5933_ADDR <<< 1) [ADDR_PTR, STATUS_REG] true,
            Event.rx ((AD5933_ADDR <<< 1) ||| 1) ((b.script (b.pos + 1)).val % 256) true] }
        hrel h
      refine ⟨[Event.tx (AD5933_ADDR <<< 1) [ADDR_PTR, STATUS_REG] true,
        Event.rx ((AD5933_ADDR <<< 1) ||| 1) ((b.script (b.pos + 1)).val % 256) true] ++ seg,
        v, e1, ?_, e3, ?_, ?_⟩
      · rw [e2]; simp
      · intro e he
        simp only [List.cons_append, List.nil_append, List.mem_cons] at he
        rcases he with rfl | rfl | he
        · simp [isSampleRead, STATUS_REG, REAL_DATA_1]
        · simp [isSampleRead]
        · exact e4 e he
      · rw [writes_append, e5]
        simp [writes, regWrites]
    · rw [if_neg hv]
      exact ⟨[], (b.script (b.pos + 1)).val % 256, rfl, by simp, by simpa using hv, by simp,
        by simp [writes, regWrites]⟩

/-- On a reliable transport a `getComplexData` that returns has read one
sample, right after a status read showing the data-valid bit, has written no
register, and returns `true`. -/
theorem getComplexData_reliable (fuel : Nat) (b : Bus) (hrel : b.reliable)
    (hret : (getComplexData fuel b).ret ≠ none) :
    (getComplexData fuel b).ret = some true ∧
    (getComplexData fuel b).bus.script = b.script ∧
    ∃ seg, (getComplexData fuel b).bus.log = b.log ++ seg ∧ ctrlModes seg = [] ∧
      seg.countP isSampleRead = 1 ∧ ∀ q2 q1, guardedFrom q2 q1 seg = true := by
  cases hw : (waitStatus STATUS_DATA_VALID fuel b).1 with
  | false =>
    exfalso
    apply hret
    simp [getComplexData, hw]
  | true =>
    obtain ⟨segW, v, e1, e2, e3, e4, e5⟩ := waitStatus_reliable STATUS_DATA_VALID fuel b hrel hw
    have h1 : ∀ i, ((waitStatus STATUS_DATA_VALID fuel b).2.script i).ok = true := by
      intro i; rw [e1]; exact hrel i
    have hW : ∀ q2 q1, guardedFrom q2 q1 segW = true := guardedFrom_of_noSample segW e4
    have hcount : segW.countP isSampleRead = 0 := by
      rw [List.countP_eq_zero]
      intro e he
      simp [e4 e he]
    have hvalid : (v &&& STATUS_DATA_VALID == STATUS_DATA_VALID) = true := by simpa using e3
    refine ⟨?_, ?_, ?_⟩
    · simp [getComplexData, hw, getByte, HAL_I2C_Master_Transmit, HAL_I2C_Master_Receive, h1]
    · simp [getComplexData, hw, getByte, HAL_I2C_Master_Transmit, HAL_I2C_Master_Receive, h1]
      exact e1
    · refine ⟨segW ++
        [Event.tx (AD5933_ADDR <<< 1) [ADDR_PTR, STATUS_REG] true,
         Event.rx ((AD5933_ADDR <<< 1) ||| 1) v true,
         Event.tx (AD5933_ADDR <<< 1) [ADDR_PTR, REAL_DATA_1] true,
         Event.rx ((AD5933_ADDR <<< 1) ||| 1)
           (((waitStatus STATUS_DATA_VALID fuel b).2.script
             ((waitStatus STATUS_DATA_VALID fuel b).2.pos + 1)).val % 256) true,
         Event.tx (AD5933_ADDR <<< 1) [ADDR_PTR, REAL_DATA_2] true,
         Event.rx ((AD5933_ADDR <<< 1) ||| 1)
           (((waitStatus STATUS_DATA_VALID fuel b).2.script
             ((waitStatus STATUS_DATA_VALID fuel b).2.pos + 3)).val % 256) true,
         Event.tx (AD5933_ADDR <<< 1) [ADDR_PTR, IMAG_DATA_1] true,
         Event.rx ((AD5933_ADDR <<< 1) ||| 1)
           (((waitStatus STATUS_DATA_VALID fuel b).2.script
             ((waitStatus STATUS_DATA_VALID fuel b).2.pos + 5)).val % 256) true,
         Event.tx (AD5933_ADDR <<< 1) [ADDR_PTR, IMAG_DATA_2] true,
         Event.rx ((AD5933_ADDR <<< 1) ||| 1)
           (((waitStatus STATUS_DATA_VALID fuel b).2.script
             ((waitStatus STATUS_DATA_VALID fuel b).2.pos + 7)).val % 256) true], ?_, ?_, ?_, ?_⟩
      · simp [getComplexData, hw, getByte, HAL_I2C_Master_Transmit, HAL_I2C_Master_Receive, h1,
          e2, Nat.add_assoc]
      · have hnil : ctrlModes segW = [] := by unfold ctrlModes; rw [e5]; rfl
        rw [ctrlModes_append, hnil]
        simp [ctrlModes, writes, regWrites]
      · rw [List.countP_append, hcount]
        simp [List.countP_cons, isSampleRead, STATUS_REG, REAL_DATA_1, REAL_DATA_2, IMAG_DATA_1,
          IMAG_DATA_2]
      · intro q2 q1
        apply guardedFrom_append _ _ _ _ _ (hW q2 q1)
        intro p2 p1
        simp [guardedFrom, isSampleRead, isStatusPtr, showsDataValid, hvalid, STATUS_REG,
          REAL_DATA_1, REAL_DATA_2, IMAG_DATA_1, IMAG_DATA_2]

/-- Segments compose. -/
theorem segmentIs_append {s1 s2 : List Event} {m1 m2 : List Nat} {k1 k2 : Nat}
    (h1 : segmentIs s1 m1 k1) (h2 : segmentIs s2 m2 k2) :
    segmentIs (s1 ++ s2) (m1 ++ m2) (k1 + k2) := by
  obtain ⟨a1, a2, a3⟩ := h1
  obtain ⟨b1, b2, b3⟩ := h2
  refine ⟨by rw [ctrlModes_append, a1, b1], by rw [List.countP_append, a2, b2], ?_⟩
  intro q2 q1
  exact guardedFrom_append _ _ b3 _ _ (a3 q2 q1)

/-- The three transfers of a mode command: they command that mode, and read
no sample. -/
theorem segmentIs_command (v mode : Nat) (hm : mode < 256) (hlow : mode % 16 = 0) :
    segmentIs
      [Event.tx (AD5933_ADDR <<< 1) [ADDR_PTR, CTRL_REG1] true,
       Event.rx ((AD5933_ADDR <<< 1) ||| 1) v true,
       Event.tx (AD5933_ADDR <<< 1) [CTRL_REG1, ((v &&& 0x0F) ||| mode) % 256] true]
      [mode] 0 := by
  obtain ⟨m1, -, m3⟩ := mode_bits v mode hm hlow
  refine ⟨?_, ?_, ?_⟩
  · rw [m1]
    simp [ctrlModes, writes, regWrites, CTRL_REG1, ADDR_PTR, m3]
  · simp [List.countP_cons, isSampleRead, CTRL_REG1, REAL_DATA_1, ADDR_PTR]
  · intro q2 q1
    simp [guardedFrom, isSampleRead, CTRL_REG1, REAL_DATA_1, ADDR_PTR]

/-- The two transfers of a status read: no mode, no sample. -/
theorem segmentIs_status (v : Nat) :
    segmentIs
      [Event.tx (AD5933_ADDR <<< 1) [ADDR_PTR, STATUS_REG] true,
       Event.rx ((AD5933_ADDR <<< 1) ||| 1) v true]
      [] 0 := by
  refine ⟨?_, ?_, ?_⟩
  · simp [ctrlModes, writes, regWrites]
  · simp [List.countP_cons, isSampleRead, STATUS_REG, REAL_DATA_1]
  · intro q2 q1
    simp [guardedFrom, isSampleRead, STATUS_REG, REAL_DATA_1]

/-- Trace of the sweep loop on a reliable transport, when it returns `true`:
from counter `i` it stores `k` samples, and its transfers command one
`INCREMENT_FREQ` per sample and `STANDBY` last. -/
theorem sweepLoop_trace (n : Int) :
    ∀ fuel i (s : Sweep), s.bus.reliable → (sweepLoop n fuel i s).ret = some true →
      ∃ seg k, (sweepLoop n fuel i s).st.bus.log = s.bus.log ++ seg ∧
        (sweepLoop n fuel i s).st.stored = s.stored ++ List.range' i k ∧
        segmentIs seg (List.replicate k CTRL_INCREMENT_FREQ ++ [CTRL_STANDBY_MODE]) k := by
  intro fuel
  induction fuel with
  | zero =>
    intro i s _ h
    simp [sweepLoop] at h
  | succ fuel ih =>
    intro i s hrel h
    have hst := readStatusRegister_reliable s.bus hrel
    unfold sweepLoop at h ⊢
    simp only [hst] at h ⊢
    by_cases hdone : ((s.bus.script (s.bus.pos + 1)).val % 256 &&& STATUS_SWEEP_DONE
        != STATUS_SWEEP_DONE) = true
    · rw [if_pos hdone] at h ⊢
      by_cases hin : (i : Int) ≥ n
      · simp [if_pos hin] at h
      · rw [if_neg hin] at h ⊢
        cases hd : (getComplexData fuel
            { s.bus with
              pos := s.bus.pos + 2,
              log := s.bus.log ++ [Event.tx (AD5933_ADDR <<< 1) [ADDR_PTR, STATUS_REG] true,
                Event.rx ((AD5933_ADDR <<< 1) ||| 1)
                  ((s.bus.script (s.bus.pos + 1)).val % 256) true] }).ret with
        | none =>
          simp [hd] at h
        | some ok =>
          obtain ⟨g1, g2, segG, g3, g4⟩ := getComplexData_reliable fuel
            { s.bus with
              pos := s.bus.pos + 2,
              log := s.bus.log ++ [Event.tx (AD5933_ADDR <<< 1) [ADDR_PTR, STATUS_REG] true,
                Event.rx ((AD5933_ADDR <<< 1) ||| 1)
                  ((s.bus.script (s.bus.pos + 1)).val % 256) true] }
            hrel (by rw [hd]; simp)
          have hok : ok = true := by
            rw [hd] at g1
            exact Option.some.inj g1
          subst hok
          have hrelG : Bus.reliable (getComplexData fuel
              { s.bus with
                pos := s.bus.pos + 2,
                log := s.bus.log ++ [Event.tx (AD5933_ADDR <<< 1) [ADDR_PTR, STATUS_REG] true,
                  Event.rx ((AD5933_ADDR <<< 1) ||| 1)
                    ((s.bus.script (s.bus.pos + 1)).val % 256) true] }).bus := by
            intro j
            rw [g2]
            exact hrel j
          have hc := setControlMode_reliable _ hrelG CTRL_INCREMENT_FREQ
          simp only [hd, Bool.not_true, Bool.false_eq_true, if_false, hc] at h ⊢
          generalize getComplexData fuel
            { s.bus with
              pos := s.bus.pos + 2,
              log := s.bus.log ++ [Event.tx (AD5933_ADDR <<< 1) [ADDR_PTR, STATUS_REG] true,
                Event.rx ((AD5933_ADDR <<< 1) ||| 1)
                  ((s.bus.script (s.bus.pos + 1)).val % 256) true] } = d at *
          obtain ⟨seg', k', t1, t2, t3⟩ := ih (i + 1) _ hrelG h
          refine ⟨[Event.tx (AD5933_ADDR <<< 1) [ADDR_PTR, STATUS_REG] true,
              Event.rx ((AD5933_ADDR <<< 1) ||| 1) ((s.bus.script (s.bus.pos + 1)).val % 256) true]
            ++ (segG ++ ([Event.tx (AD5933_ADDR <<< 1) [ADDR_PTR, CTRL_REG1] true,
              Event.rx ((AD5933_ADDR <<< 1) ||| 1) ((d.bus.script (d.bus.pos + 1)).val % 256) true,
              Event.tx (AD5933_ADDR <<< 1) [CTRL_REG1,
                ((((d.bus.script (d.bus.pos + 1)).val % 256) &&& 0x0F) ||| CTRL_INCREMENT_FREQ)
                  % 256] true] ++ seg')), k' + 1, ?_, ?_, ?_⟩
          · rw [t1]
            simp only [g3]
            simp
          · rw [t2]
            simp [List.range'_succ]
          · have hG : segmentIs segG [] 1 := g4
            have := segmentIs_append (segmentIs_status ((s.bus.script (s.bus.pos + 1)).val % 256))
              (segmentIs_append hG (segmentIs_append
                (segmentIs_command ((d.bus.script (d.bus.pos + 1)).val % 256)
                  CTRL_INCREMENT_FREQ (by decide) (by decide)) t3))
            simpa [List.replicate_succ, Nat.add_comm] using this
    · rw [if_neg hdone] at h ⊢
      have hp : ∀ b : Bus, setPowerMode b POWER_STANDBY = setControlMode b CTRL_STANDBY_MODE := by
        intro b
        simp [setPowerMode, POWER_STANDBY, POWER_ON, CTRL_NO_OPERATION, CTRL_STANDBY_MODE]
      have hc := setControlMode_reliable
        { s.bus with
          pos := s.bus.pos + 2,
          log := s.bus.log ++ [Event.tx (AD5933_ADDR <<< 1) [ADDR_PTR, STATUS_REG] true,
            Event.rx ((AD5933_ADDR <<< 1) ||| 1) ((s.bus.script (s.bus.pos + 1)).val % 256) true] }
        hrel CTRL_STANDBY_MODE
      simp only [hp, hc] at h ⊢
      refine ⟨[Event.tx (AD5933_ADDR <<< 1) [ADDR_PTR, STATUS_REG] true,
          Event.rx ((AD5933_ADDR <<< 1) ||| 1) ((s.bus.script (s.bus.pos + 1)).val % 256) true]
        ++ [Event.tx (AD5933_ADDR <<< 1) [ADDR_PTR, CTRL_REG1] true,
          Event.rx ((AD5933_ADDR <<< 1) ||| 1) ((s.bus.script (s.bus.pos + 2 + 1)).val % 256) true,
          Event.tx (AD5933_ADDR <<< 1) [CTRL_REG1,
            ((((s.bus.script (s.bus.pos + 2 + 1)).val % 256) &&& 0x0F) ||| CTRL_STANDBY_MODE)
              % 256] true], 0, ?_, ?_, ?_⟩
      · simp
      · simp
      · have := segmentIs_append (segmentIs_status ((s.bus.script (s.bus.pos + 1)).val % 256))
          (segmentIs_command ((s.bus.script (s.bus.pos + 2 + 1)).val % 256) CTRL_STANDBY_MODE
            (by decide) (by decide))
        simpa using this

/-- On a reliable transport a mode command succeeds, and its transfers
command that mode and read no sample. -/
theorem setControlMode_segment (b : Bus) (hrel : b.reliable) (mode : Nat) (hm : mode < 256)
    (hlow : mode % 16 = 0) :
    (setControlMode b mode).1 = true ∧ (setControlMode b mode).2.reliable ∧
    ∃ seg, (setControlMode b mode).2.log = b.log ++ seg ∧ segmentIs seg [mode] 0 := by
  rw [setControlMode_reliable b hrel mode]
  exact ⟨rfl, hrel, _, rfl, segmentIs_command _ mode hm hlow⟩

/-- C18 (sweep command sequence).  In every run of `frequencySweep` on a
reliable transport that returns `true`, the transfers of the call command, in
the high nibble of the bytes written to `CTRL_REG1`, exactly `STANDBY` (0xB0),
`INIT_START_FREQ` (0x10), `START_FREQ_SWEEP` (0x20), then `INCREMENT_FREQ`
(0x30) once per sample stored, then `STANDBY` (0xB0); the number of sample
reads started equals the number of samples stored; and each sample read comes
right after a completed status read whose byte has the data-valid bit set. -/
theorem frequencySweep_command_sequence (fuel : Nat) (b : Bus) (real imag : Nat → Int)
    (n : Int) (hrel : b.reliable)
    (htrue : (frequencySweep fuel b real imag n).ret = some true) :
    ∃ seg, (frequencySweep fuel b real imag n).st.bus.log = b.log ++ seg ∧
      ctrlModes seg =
        [0xB0, 0x10, 0x20]
          ++ List.replicate (frequencySweep fuel b real imag n).st.stored.length 0x30
          ++ [0xB0] ∧
      seg.countP isSampleRead = (frequencySweep fuel b real imag n).st.stored.length ∧
      samplesGuarded seg = true := by
  have hp : ∀ b : Bus, setPowerMode b POWER_STANDBY = setControlMode b CTRL_STANDBY_MODE := by
    intro b
    simp [setPowerMode, POWER_STANDBY, POWER_ON, CTRL_NO_OPERATION, CTRL_STANDBY_MODE]
  obtain ⟨a1, r1, s1, l1, g1⟩ :=
    setControlMode_segment b hrel CTRL_STANDBY_MODE (by decide) (by decide)
  obtain ⟨a2, r2, s2, l2, g2⟩ :=
    setControlMode_segment _ r1 CTRL_INIT_START_FREQ (by decide) (by decide)
  obtain ⟨a3, r3, s3, l3, g3⟩ :=
    setControlMode_segment _ r2 CTRL_START_FREQ_SWEEP (by decide) (by decide)
  simp only [frequencySweep, hp, andThen, a1, a2, a3, if_true, Bool.not_true,
    Bool.false_eq_true, if_false] at htrue ⊢
  obtain ⟨seg, k, t1, t2, t3⟩ := sweepLoop_trace n fuel 0 _ r3 htrue
  simp only [l3, l2, l1] at t1
  have hall := segmentIs_append g1 (segmentIs_append g2 (segmentIs_append g3 t3))
  obtain ⟨m1, m2, m3⟩ := hall
  refine ⟨s1 ++ (s2 ++ (s3 ++ seg)), ?_, ?_, ?_, m3 none none⟩
  · rw [t1]
    simp
  · rw [m1, t2]
    simp [CTRL_STANDBY_MODE, CTRL_INIT_START_FREQ, CTRL_START_FREQ_SWEEP, CTRL_INCREMENT_FREQ]
  · rw [m2, t2]
    simp

/-- Witness of `frequencySweep_command_sequence`: the sweep of one point on a
reliable transport returns `true`, commands `0xB0, 0x10, 0x20, 0x30, 0xB0`, and
its one sample read follows a status read showing data-valid; a log that
starts a sample read with no status read before it does not pass the scan. -/
theorem frequencySweep_command_sequence_witness :
    ((scriptedBus (onePointScript (rOk 0) 0 100 0 0)).reliable ∧
      (frequencySweep 3 (scriptedBus (onePointScript (rOk 0) 0 100 0 0)) (fun _ => 7)
        (fun _ => 7) 1).ret = some true) ∧
    ctrlModes (frequencySweep 3 (scriptedBus (onePointScript (rOk 0) 0 100 0 0)) (fun _ => 7)
      (fun _ => 7) 1).st.bus.log = [0xB0, 0x10, 0x20, 0x30, 0xB0] ∧
    samplesGuarded (frequencySweep 3 (scriptedBus (onePointScript (rOk 0) 0 100 0 0))
      (fun _ => 7) (fun _ => 7) 1).st.bus.log = true ∧
    samplesGuarded [Event.tx (AD5933_ADDR <<< 1) [ADDR_PTR, REAL_DATA_1] true] = false ∧
    (∃ seg,
      (frequencySweep 3 (scriptedBus (onePointScript (rOk 0) 0 100 0 0)) (fun _ => 7)
        (fun _ => 7) 1).st.bus.log
          = (scriptedBus (onePointScript (rOk 0) 0 100 0 0)).log ++ seg ∧
      ctrlModes seg =
        [0xB0, 0x10, 0x20]
          ++ List.replicate (frequencySweep 3 (scriptedBus (onePointScript (rOk 0) 0 100 0 0))
              (fun _ => 7) (fun _ => 7) 1).st.stored.length 0x30
          ++ [0xB0] ∧
      seg.countP isSampleRead
        = (frequencySweep 3 (scriptedBus (onePointScript (rOk 0) 0 100 0 0)) (fun _ => 7)
            (fun _ => 7) 1).st.stored.length ∧
      samplesGuarded seg = true) :=
  ⟨⟨scriptedBus_reliable _ (by decide), by decide⟩, by decide, by decide, by decide,
    frequencySweep_command_sequence 3 (scriptedBus (onePointScript (rOk 0) 0 100 0 0))
      (fun _ => 7) (fun _ => 7) 1 (scriptedBus_reliable _ (by decide)) (by decide)⟩

end AD5933

namespace Si5351

/-- Invariant of the search loop for a PLL frequency below `2^32` and a
non-zero output frequency: entered with the exact quotient for code `r`, every
product it evaluates is non-zero and below `2^22`. -/
theorem msProducts_bound (pll f : Nat) (hpll : pll < 2 ^ 32) (hf : 0 < f) :
    ∀ fuel r, ∀ p ∈ msProducts pll f fuel (pll / (f * 2 ^ r)) r, 0 < p ∧ p < 2 ^ 22 := by
  intro fuel
  induction fuel with
  | zero =>
    intro r p hp
    simp [msProducts] at hp
  | succ fuel ih =>
    intro r p hp
    by_cases hc : 2048 < pll / (f * 2 ^ r) ∧ r < 7
    · have hpos : 0 < f * 2 ^ r := Nat.mul_pos hf (Nat.pos_pow_of_pos _ (by norm_num))
      have h1 : 2049 * (f * 2 ^ r) ≤ pll := (Nat.le_div_iff_mul_le hpos).mp hc.1
      have h2 : f * 2 ^ (r + 1) = 2 * (f * 2 ^ r) := by rw [pow_succ]; ring
      have h3 : (f * (1 <<< (r + 1))) % 2 ^ 32 = f * 2 ^ (r + 1) := by
        rw [Nat.one_shiftLeft]
        apply Nat.mod_eq_of_lt
        omega
      have hd : f * 2 ^ (r + 1) ≠ 0 := by omega
      simp only [msProducts, h3] at hp
      rw [if_pos hc, if_neg hd, Nat.one_shiftLeft] at hp
      rcases List.mem_cons.mp hp with rfl | hp'
      · omega
      · exact ih (r + 1) p hp'
    · simp only [msProducts] at hp
      rw [if_neg hc] at hp
      simp at hp

/-- The list of products keeps step with the loop: when the loop ends with
code `r'`, it has evaluated one product for each code from `r + 1` to `r'`. -/
theorem msProducts_length (pll f : Nat) :
    ∀ fuel a r a' r', msLoop pll f fuel a r = some (a', r') →
      (msProducts pll f fuel a r).length + r = r' := by
  intro fuel
  induction fuel with
  | zero =>
    intro a r a' r' h
    simp only [msLoop, Option.some.injEq, Prod.mk.injEq] at h
    simp [msProducts, h.2]
  | succ fuel ih =>
    intro a r a' r' h
    by_cases hc : a > 2048 ∧ r < 7
    · simp only [msLoop, if_pos hc] at h
      by_cases hd : (f * (1 <<< (r + 1))) % 2 ^ 32 = 0
      · rw [if_pos hd] at h
        cases h
      · rw [if_neg hd] at h
        have := ih _ _ _ _ h
        simp only [msProducts, if_pos hc, if_neg hd, List.length_cons]
        omega
    · simp only [msLoop, if_neg hc, Option.some.injEq, Prod.mk.injEq] at h
      simp only [msProducts, if_neg hc, List.length_nil]
      omega

/-- C21 (arithmetic safety of the divider search of `set_ms`).  For every PLL
frequency below `2^32` and every output frequency of at least 1: every product
`output_freq * (1 << r_div)` evaluated inside the search loop is non-zero and
below `2^32`, so it does not wrap; the search ends with a pair (no division by
zero), having evaluated as many products as its final code; and for a divider that passes the range check, `128 * a - 512` does not
underflow, is unchanged by the reduction to 32 bits, and is below `2^18`.  The
search divides by zero exactly when the output frequency is 0, and `set_ms`
does not guard against it: for an output index at most 7 it reaches that
division. -/
theorem set_ms_arithmetic_safe (b : Bus) (output_num pll_freq : Nat)
    (hpll : pll_freq < 2 ^ 32) :
    (∀ output_freq, 1 ≤ output_freq →
      (∀ p ∈ msProducts pll_freq output_freq 7 (pll_freq / output_freq) 0,
        p ≠ 0 ∧ p < 2 ^ 32) ∧
      (∃ a r_div, msSearch pll_freq output_freq = some (a, r_div) ∧
        (msProducts pll_freq output_freq 7 (pll_freq / output_freq) 0).length = r_div ∧
        (4 ≤ a → a ≤ 2048 →
          512 ≤ 128 * a ∧ (128 * a + 2 ^ 32 - 512) % 2 ^ 32 = 128 * a - 512 ∧
          128 * a - 512 < 2 ^ 18))) ∧
    (∀ output_freq, msSearch pll_freq output_freq = none ↔ output_freq = 0) ∧
    (output_num ≤ 7 → set_ms b output_num pll_freq 0 = none) := by
  refine ⟨?_, ?_, ?_⟩
  · intro f hf
    constructor
    · intro p hp
      have h := msProducts_bound pll_freq f hpll hf 7 0 p (by simpa using hp)
      omega
    · obtain ⟨r, e, -, -, -⟩ := msSearch_spec pll_freq f hpll hf
      refine ⟨_, r, e, ?_, ?_⟩
      · have hf0 : f ≠ 0 := by omega
        have e' := e
        simp only [msSearch, if_neg hf0] at e'
        simpa using msProducts_length pll_freq f 7 _ 0 _ _ e'
      · intro h4 h2048
        omega
  · intro f
    constructor
    · intro hnone
      by_contra hf
      obtain ⟨r, e, -, -, -⟩ := msSearch_spec pll_freq f hpll (Nat.pos_of_ne_zero hf)
      rw [e] at hnone
      cases hnone
    · intro hf
      simp [msSearch, hf]
  · intro hk
    have hk' : ¬output_num > 7 := by omega
    simp [set_ms, hk', msSearch]

/-- Witness of `set_ms_arithmetic_safe`: against the 900 MHz PLL, 3432 Hz makes
the loop evaluate the seven products `3432 * 2, .., 3432 * 128`; the search
ends with `(2048, 7)`, for which `128 * a - 512 = 261632`; and an output
frequency of 0 on output 0 reaches the division by zero. -/
theorem set_ms_arithmetic_safe_witness :
    (900000000 < 2 ^ 32 ∧ 1 ≤ 3432 ∧ 0 ≤ 7) ∧
    msProducts 900000000 3432 7 (900000000 / 3432) 0
      = [6864, 13728, 27456, 54912, 109824, 219648, 439296] ∧
    (∀ p ∈ msProducts 900000000 3432 7 (900000000 / 3432) 0, p ≠ 0 ∧ p < 2 ^ 32) ∧
    msSearch 900000000 3432 = some (2048, 7) ∧
    (512 ≤ 128 * 2048 ∧ (128 * 2048 + 2 ^ 32 - 512) % 2 ^ 32 = 128 * 2048 - 512 ∧
      128 * 2048 - 512 < 2 ^ 18) ∧
    set_ms idleBus 0 900000000 0 = none := by
  have h := set_ms_arithmetic_safe idleBus 0 900000000 (by decide)
  obtain ⟨hp, a, r, hs, -, hsafe⟩ := h.1 3432 (by decide)
  have e : msSearch 900000000 3432 = some (2048, 7) := by decide
  rw [e] at hs
  simp only [Option.some.injEq, Prod.mk.injEq] at hs
  obtain ⟨rfl, rfl⟩ := hs
  exact ⟨by decide, by decide, hp, e, hsafe (by decide) (by decide), h.2.2 (by decide)⟩

end Si5351

namespace AD5933

/-- The loop of `calibrate` leaves the entries from `n` on as they were. -/
theorem calLoop_untouched {F : Type} [LinearOrderedField F] (m : LibM F)
    (real imag : Nat → Int) (ref n : Int) (gain : Nat → Dbl F) (phase : Nat → F) (i : Nat)
    (hi : n ≤ (i : Int)) :
    (calLoop m real imag ref n gain phase).1 i = gain i ∧
    (calLoop m real imag ref n gain phase).2 i = phase i := by
  unfold calLoop
  have hin : n.toNat ≤ i := by omega
  generalize n.toNat = k at hin
  induction k with
  | zero => simp
  | succ k ih =>
    rw [List.range_succ, List.foldl_append]
    simp only [List.foldl_cons, List.foldl_nil]
    have hik : i ≠ k := by omega
    simp only [Function.update_noteq hik]
    exact ih (by omega)

/-- The samples a sweep stores are at the indexes `0, .., k-1` for some
`k ≤ max n 0`, and the cells from `k` on keep the caller's values. -/
theorem frequencySweep_stored (fuel : Nat) (b : Bus) (real imag : Nat → Int) (n : Int) :
    ∃ k, (frequencySweep fuel b real imag n).st.stored = List.range k ∧
      (k : Int) ≤ max n 0 ∧
      ∀ j, k ≤ j → (frequencySweep fuel b real imag n).st.real j = real j ∧
        (frequencySweep fuel b real imag n).st.imag j = imag j := by
  unfold frequencySweep
  simp only []
  split
  · exact ⟨0, by simp, by simp, fun j _ => by simp⟩
  · obtain ⟨k, h1, h2, h3⟩ := sweepLoop_stores n fuel 0
      { bus := (andThen (setPowerMode b POWER_STANDBY) fun b =>
          andThen (setControlMode b CTRL_INIT_START_FREQ) fun b =>
            setControlMode b CTRL_START_FREQ_SWEEP).2,
        real := real, imag := imag, stored := [] }
    refine ⟨k, ?_, ?_, ?_⟩
    · rw [h1]
      simp [List.range_eq_range']
    · rcases h2 with h2 | h2
      · subst h2; simp
      · simp only [Nat.zero_add] at h2
        exact le_trans h2 (le_max_left _ _)
    · intro j hj
      exact h3 j (Or.inr (by omega))

/-- The gain line of `calibrate` by cases: with a non-zero `ref` and a non-zero
magnitude it is the finite quotient; with a zero magnitude it is `+inf` for
`ref ≥ 0` and `-inf` for `ref < 0`; with `ref = 0` and a non-negative magnitude
it is `+inf`. -/
theorem gainOf_cases {F : Type} [LinearOrderedField F] (m : LibM F) (ref re im : Int) :
    (ref ≠ 0 → m.sqrt ((re : F) ^ 2 + (im : F) ^ 2) ≠ 0 →
      gainOf m ref re im = Dbl.fin ((1 / (ref : F)) / m.sqrt ((re : F) ^ 2 + (im : F) ^ 2))) ∧
    (m.sqrt ((re : F) ^ 2 + (im : F) ^ 2) = 0 →
      gainOf m ref re im = if 0 ≤ ref then Dbl.posInf else Dbl.negInf) ∧
    (ref = 0 → 0 ≤ m.sqrt ((re : F) ^ 2 + (im : F) ^ 2) → gainOf m ref re im = Dbl.posInf) := by
  refine ⟨?_, ?_, ?_⟩
  · intro h1 h2
    have h1' : (ref : F) ≠ 0 := by exact_mod_cast h1
    simp [gainOf, Dbl.div, h1', h2]
  · intro h2
    rcases lt_trichotomy ref 0 with h | h | h
    · have h1' : (ref : F) < 0 := by exact_mod_cast h
      have h3 : ¬(0 : F) < 1 / (ref : F) := by
        rw [not_lt]
        exact (one_div_neg.mpr h1').le
      have h4 : ¬(0 ≤ ref) := by omega
      simp [gainOf, Dbl.div, h1'.ne, h2, h4, h1'.not_lt, h1'.not_le]
    · subst h
      simp [gainOf, Dbl.div, h2]
    · have h1' : (0 : F) < (ref : F) := by exact_mod_cast h
      simp [gainOf, Dbl.div, h1'.ne', h2, h.le, h1']
  · intro h1 h2
    subst h1
    simp [gainOf, Dbl.div, h2]

/-- C22 (calibration covers all `n` entries).  The arithmetic is that of an
ordered field `F` with `sqrt` and `atan2` as given, and the gain is a `double`
value over `F`, so the divisions by a zero `ref` or a zero magnitude give the
infinities the code stores.  Whenever the sweep returns `true`, having stored
`k` samples, `k` is at most `max n 0`, `calibrate` returns `true` with the
buffers as the sweep left them, and for every index `i < n` it sets
`gain[i] = (1.0 / ref) / sqrt(real[i]^2 + imag[i]^2)` and
`phase[i] = atan2(imag[i], real[i]) * 180 / 3.1415` from the buffers after the
sweep: the gain is the finite quotient when `ref` and the magnitude are not
zero, `+inf` or `-inf` (by the sign of `ref`) when the magnitude is zero, and
`+inf` when `ref = 0`.  Entries from `n` on keep their values.  For `k ≤ i < n`
the buffer cells are the ones the caller passed in, so the coefficients are
computed from the caller's values.  Whenever the sweep returns `false`,
`calibrate` returns `false` and `gain` and `phase` are as they were. -/
theorem calibrate_covers_all {F : Type} [LinearOrderedField F] (m : LibM F) (fuel : Nat)
    (b : Bus) (real imag : Nat → Int) (gain : Nat → Dbl F) (phase : Nat → F) (ref n : Int) :
    ((frequencySweep fuel b real imag n).ret = some true →
      (calibrate m fuel b real imag gain phase ref n).ret = some true ∧
      (calibrate m fuel b real imag gain phase ref n).st
        = (frequencySweep fuel b real imag n).st ∧
      (((frequencySweep fuel b real imag n).st.stored.length : Nat) : Int) ≤ max n 0 ∧
      (∀ i : Nat, (i : Int) < n →
        (calibrate m fuel b real imag gain phase ref n).gain i
          = Dbl.div (Dbl.div (Dbl.fin 1) (Dbl.fin (ref : F)))
              (Dbl.fin (m.sqrt
                (((frequencySweep fuel b real imag n).st.real i : F) ^ 2
                  + ((frequencySweep fuel b real imag n).st.imag i : F) ^ 2))) ∧
        (ref ≠ 0 →
          m.sqrt (((frequencySweep fuel b real imag n).st.real i : F) ^ 2
            + ((frequencySweep fuel b real imag n).st.imag i : F) ^ 2) ≠ 0 →
          (calibrate m fuel b real imag gain phase ref n).gain i
            = Dbl.fin ((1 / (ref : F)) / m.sqrt
                (((frequencySweep fuel b real imag n).st.real i : F) ^ 2
                  + ((frequencySweep fuel b real imag n).st.imag i : F) ^ 2))) ∧
        (m.sqrt (((frequencySweep fuel b real imag n).st.real i : F) ^ 2
            + ((frequencySweep fuel b real imag n).st.imag i : F) ^ 2) = 0 →
          (calibrate m fuel b real imag gain phase ref n).gain i
            = if 0 ≤ ref then Dbl.posInf else Dbl.negInf) ∧
        (ref = 0 →
          0 ≤ m.sqrt (((frequencySweep fuel b real imag n).st.real i : F) ^ 2
            + ((frequencySweep fuel b real imag n).st.imag i : F) ^ 2) →
          (calibrate m fuel b real imag gain phase ref n).gain i = Dbl.posInf) ∧
        (calibrate m fuel b real imag gain phase ref n).phase i
          = (m.atan2 ((frequencySweep fuel b real imag n).st.imag i : F)
              ((frequencySweep fuel b real imag n).st.real i : F) * 180) / (31415 / 10000)) ∧
      (∀ i : Nat, n ≤ (i : Int) →
        (calibrate m fuel b real imag gain phase ref n).gain i = gain i ∧
        (calibrate m fuel b real imag gain phase ref n).phase i = phase i) ∧
      (∀ i : Nat, (frequencySweep fuel b real imag n).st.stored.length ≤ i → (i : Int) < n →
        (frequencySweep fuel b real imag n).st.real i = real i ∧
        (frequencySweep fuel b real imag n).st.imag i = imag i ∧
        (calibrate m fuel b real imag gain phase ref n).gain i
          = Dbl.div (Dbl.div (Dbl.fin 1) (Dbl.fin (ref : F)))
              (Dbl.fin (m.sqrt ((real i : F) ^ 2 + (imag i : F) ^ 2))) ∧
        (calibrate m fuel b real imag gain phase ref n).phase i
          = (m.atan2 (imag i : F) (real i : F) * 180) / (31415 / 10000))) ∧
    ((frequencySweep fuel b real imag n).ret = some false →
      (calibrate m fuel b real imag gain phase ref n).ret = some false ∧
      (calibrate m fuel b real imag gain phase ref n).gain = gain ∧
      (calibrate m fuel b real imag gain phase ref n).phase = phase) := by
  constructor
  · intro htrue
    obtain ⟨k, s1, s2, s3⟩ := frequencySweep_stored fuel b real imag n
    have hcal : ∀ i : Nat, (i : Int) < n →
        (calibrate m fuel b real imag gain phase ref n).gain i
          = gainOf m ref ((frequencySweep fuel b real imag n).st.real i)
              ((frequencySweep fuel b real imag n).st.imag i) ∧
        (calibrate m fuel b real imag gain phase ref n).phase i
          = phaseOf m ((frequencySweep fuel b real imag n).st.real i)
              ((frequencySweep fuel b real imag n).st.imag i) := by
      intro i hi
      obtain ⟨p1, p2⟩ := calLoop_phase m (frequencySweep fuel b real imag n).st.real
        (frequencySweep fuel b real imag n).st.imag ref n gain phase i hi
      simp only [calibrate, htrue, if_true]
      exact ⟨p2, p1⟩
    refine ⟨by simp [calibrate, htrue], by simp [calibrate, htrue], ?_, ?_, ?_, ?_⟩
    · rw [s1, List.length_range]
      exact s2
    · intro i hi
      obtain ⟨g, ph⟩ := hcal i hi
      obtain ⟨c1, c2, c3⟩ := gainOf_cases m ref ((frequencySweep fuel b real imag n).st.real i)
        ((frequencySweep fuel b real imag n).st.imag i)
      rw [g, ph]
      exact ⟨rfl, c1, c2, c3, rfl⟩
    · intro i hi
      simp only [calibrate, htrue, if_true]
      exact calLoop_untouched m _ _ ref n gain phase i hi
    · intro i hk hi
      rw [s1, List.length_range] at hk
      obtain ⟨r1, r2⟩ := s3 i hk
      obtain ⟨g, ph⟩ := hcal i hi
      rw [g, ph, r1, r2]
      exact ⟨rfl, rfl, rfl, rfl⟩
  · intro hfalse
    simp [calibrate, hfalse]

/-- Witness of `calibrate_covers_all`, over the reals: a sweep with capacity 2
that stores one sample, `(100, 0)`, returns `true`; `calibrate` with `ref = 1000`
then sets `gain[0]` to the finite `(1 / 1000) / sqrt(100^2 + 0^2)`, computes
entry 1 from the caller's buffer values `(0, 0)`, a zero magnitude, so
`gain[1]` is `+inf`, and leaves entry 2 alone; with capacity 0 the sweep returns
`false` and `calibrate` leaves `gain` as it was. -/
theorem calibrate_covers_all_witness :
    ((frequencySweep 3 (scriptedBus (onePointScript (rOk 0) 0 100 0 0)) (fun _ => 0)
        (fun _ => 0) 2).ret = some true ∧
      (frequencySweep 3 (scriptedBus (onePointScript (rOk 0) 0 100 0 0)) (fun _ => 0)
        (fun _ => 0) 2).st.stored = [0] ∧
      (calibrate (F := Real) { sqrt := Real.sqrt, atan2 := fun y x => Complex.arg ⟨x, y⟩ } 3
        (scriptedBus (onePointScript (rOk 0) 0 100 0 0)) (fun _ => 0) (fun _ => 0)
        (fun _ => Dbl.fin 7) (fun _ => 0) 1000 2).ret = some true ∧
      (calibrate (F := Real) { sqrt := Real.sqrt, atan2 := fun y x => Complex.arg ⟨x, y⟩ } 3
        (scriptedBus (onePointScript (rOk 0) 0 100 0 0)) (fun _ => 0) (fun _ => 0)
        (fun _ => Dbl.fin 7) (fun _ => 0) 1000 2).gain 0
          = Dbl.fin ((1 / ((1000 : Int) : Real))
              / Real.sqrt (((100 : Int) : Real) ^ 2 + ((0 : Int) : Real) ^ 2)) ∧
      (calibrate (F := Real) { sqrt := Real.sqrt, atan2 := fun y x => Complex.arg ⟨x, y⟩ } 3
        (scriptedBus (onePointScript (rOk 0) 0 100 0 0)) (fun _ => 0) (fun _ => 0)
        (fun _ => Dbl.fin 7) (fun _ => 0) 1000 2).gain 1 = Dbl.posInf ∧
      (calibrate (F := Real) { sqrt := Real.sqrt, atan2 := fun y x => Complex.arg ⟨x, y⟩ } 3
        (scriptedBus (onePointScript (rOk 0) 0 100 0 0)) (fun _ => 0) (fun _ => 0)
        (fun _ => Dbl.fin 7) (fun _ => 0) 1000 2).gain 2 = Dbl.fin 7) ∧
    ((frequencySweep 3 (scriptedBus (onePointScript (rOk 0) 0 100 0 0)) (fun _ => 0)
        (fun _ => 0) 0).ret = some false ∧
      (calibrate (F := Real) { sqrt := Real.sqrt, atan2 := fun y x => Complex.arg ⟨x, y⟩ } 3
        (scriptedBus (onePointScript (rOk 0) 0 100 0 0)) (fun _ => 0) (fun _ => 0)
        (fun _ => Dbl.fin 7) (fun _ => 0) 1000 0).ret = some false ∧
      (calibrate (F := Real) { sqrt := Real.sqrt, atan2 := fun y x => Complex.arg ⟨x, y⟩ } 3
        (scriptedBus (onePointScript (rOk 0) 0 100 0 0)) (fun _ => 0) (fun _ => 0)
        (fun _ => Dbl.fin 7) (fun _ => 0) 1000 0).gain = fun _ => Dbl.fin 7) := by
  have h2 := (calibrate_covers_all (F := Real)
    { sqrt := Real.sqrt, atan2 := fun y x => Complex.arg ⟨x, y⟩ } 3
    (scriptedBus (onePointScript (rOk 0) 0 100 0 0)) (fun _ => 0) (fun _ => 0)
    (fun _ => Dbl.fin 7) (fun _ => 0) 1000 2).1 (by decide)
  have h0 := (calibrate_covers_all (F := Real)
    { sqrt := Real.sqrt, atan2 := fun y x => Complex.arg ⟨x, y⟩ } 3
    (scriptedBus (onePointScript (rOk 0) 0 100 0 0)) (fun _ => 0) (fun _ => 0)
    (fun _ => Dbl.fin 7) (fun _ => 0) 1000 0).2 (by decide)
  have r0 : (frequencySweep 3 (scriptedBus (onePointScript (rOk 0) 0 100 0 0)) (fun _ => 0)
      (fun _ => 0) 2).st.real 0 = 100 := by decide
  have i0 : (frequencySweep 3 (scriptedBus (onePointScript (rOk 0) 0 100 0 0)) (fun _ => 0)
      (fun _ => 0) 2).st.imag 0 = 0 := by decide
  have r1 : (frequencySweep 3 (scriptedBus (onePointScript (rOk 0) 0 100 0 0)) (fun _ => 0)
      (fun _ => 0) 2).st.real 1 = 0 := by decide
  have i1 : (frequencySweep 3 (scriptedBus (onePointScript (rOk 0) 0 100 0 0)) (fun _ => 0)
      (fun _ => 0) 2).st.imag 1 = 0 := by decide
  have g0 := (h2.2.2.2.1 0 (by decide)).2.1 (by decide)
  have g1 := (h2.2.2.2.1 1 (by decide)).2.2.1
  rw [r0, i0] at g0
  rw [r1, i1] at g1
  refine ⟨⟨by decide, by decide, h2.1, g0 ?_, ?_, (h2.2.2.2.2.1 2 (by decide)).1⟩,
    by decide, h0.1, h0.2.1⟩
  · have : Real.sqrt (((100 : Int) : Real) ^ 2 + ((0 : Int) : Real) ^ 2) = 100 := by
      have e : (((100 : Int) : Real) ^ 2 + ((0 : Int) : Real) ^ 2) = (100 : Real) ^ 2 := by
        norm_num
      rw [e, Real.sqrt_sq (by norm_num)]
    show Real.sqrt (((100 : Int) : Real) ^ 2 + ((0 : Int) : Real) ^ 2) ≠ 0
    rw [this]
    norm_num
  · rw [g1 (by simp)]
    simp

end AD5933
